import Mathlib

/-!
Verification of `readpst.c`: filename sanitising, filename encodings, the attachment filter
and the header checks.

A shallow embedding of the string-level routines of `src/readpst.c`.

* A C string is the list of the bytes that precede its terminating NUL; a byte is a
  natural number (0..255).  Reading at the end of the list reads the NUL.
* A `char *` that may be `NULL` is an `Option`.
* Output written to a `FILE *` is the list of bytes written.
* Loops that are not structurally recursive carry a fuel argument and return `none`
  when the fuel runs out; the theorems show that the fuel supplied is enough.
-/

namespace Readpst

/-- The bytes of a string literal. -/
def str (s : String) : List Nat := s.toList.map Char.toNat

/-! ## Modes -/

def MODE_NORMAL : Nat := 0
def MODE_KMAIL : Nat := 1
def MODE_RECURSE : Nat := 2
def MODE_SEPARATE : Nat := 3

/-! ## libc helpers -/

/-- Offset of the first occurrence of byte `c` in `s`, as `strchr(s, c)` for `c ≠ 0`. -/
def strchr : List Nat → Nat → Option Nat
  | [], _ => none
  | b :: t, c => if b = c then some 0 else (strchr t c).map (· + 1)

/-- Truth of `strncmp(a, b, n) == 0`. -/
def strncmp_eq : List Nat → List Nat → Nat → Bool
  | _, _, 0 => true
  | [], [], _ + 1 => true
  | x :: a, y :: b, n + 1 => x == y && strncmp_eq a b n
  | _, _, _ + 1 => false

/-! ## write_email_body -/

/-- The inner loop `while (*p == '>') p++;`. -/
def skip_gt : List Nat → List Nat
  | [] => []
  | c :: t => if c = 62 then skip_gt t else c :: t

/-- The `while (n)` loop of `write_email_body`: the state is the rest of the body and the
bytes written so far; the result is that state when `strchr` finds no further LF. -/
def write_email_body_loop : Nat → List Nat → List Nat → Option (List Nat × List Nat)
  | 0, _, _ => none
  | fuel + 1, body, out =>
    let p := skip_gt body
    let out1 := if strncmp_eq p (str "From ") 5 then out ++ [62] else out
    match strchr body 10 with
    | some i => write_email_body_loop fuel (body.drop (i + 1)) (out1 ++ body.take (i + 1))
    | none => some (body, out1)

/-- The bytes `write_email_body(f, body)` writes to `f` under the global `mode`. -/
def write_email_body (mode : Nat) (body : List Nat) : Option (List Nat) :=
  if mode ≠ MODE_SEPARATE then
    match write_email_body_loop (body.length + 1) body [] with
    | some (rest, out) => some (out ++ rest)
    | none => none
  else some body

/-- The lines of a body: each LF-terminated line keeps its LF, the last line is what follows
the last LF (possibly empty). -/
def bodyLines : List Nat → List (List Nat)
  | [] => [[]]
  | c :: t =>
    if c = 10 then [10] :: bodyLines t
    else match bodyLines t with
      | [] => [[c]]
      | l :: ls => (c :: l) :: ls

/-- A line that begins with zero or more `>` followed by the five characters `From `. -/
def IsFromLine (l : List Nat) : Prop :=
  ∃ k rest, l = List.replicate k 62 ++ str "From " ++ rest

/-- How one line is emitted in the mbox family of layouts: a line for which the test of
`write_email_body` succeeds gets one more `>` in front. -/
def quote_line (l : List Nat) : List Nat :=
  if strncmp_eq (skip_gt l) (str "From ") 5 then 62 :: l else l

/-- One input line and the line emitted for it under mboxrd quoting. -/
def MboxrdLine (l l' : List Nat) : Prop :=
  (IsFromLine l ∧ l' = 62 :: l) ∨ (¬ IsFromLine l ∧ l' = l)

/-! ## check_filename and the names the layout driver creates -/

/-- Offset of the first byte of `s` that occurs in `accept`, as `strpbrk(s, accept)`. -/
def strpbrk : List Nat → List Nat → Option Nat
  | [], _ => none
  | b :: t, accept => if b ∈ accept then some 0 else (strpbrk t accept).map (· + 1)

/-- The loop `while ((t = strpbrk(t, "/\\:"))) *t = '_';`.  The buffer is split at the pointer
`t`: `done` are the bytes before `t`, `rest` the bytes from `t` on.  The result is the whole
buffer when `strpbrk` returns `NULL`. -/
def check_filename_loop : Nat → List Nat → List Nat → Option (List Nat)
  | 0, _, _ => none
  | fuel + 1, done, rest =>
    match strpbrk rest (str "/\\:") with
    | some k => check_filename_loop fuel (done ++ rest.take k) (95 :: rest.drop (k + 1))
    | none => some (done ++ rest)

/-- The buffer after `check_filename(fname)` for a non-NULL `fname`. -/
def check_filename_buf (fname : List Nat) : Option (List Nat) :=
  check_filename_loop (fname.length + 1) [] fname

/-- The argument after `check_filename(fname)`: a NULL pointer returns at once. -/
def check_filename (fname : Option (List Nat)) : Option (Option (List Nat)) :=
  match fname with
  | none => some none
  | some s => (check_filename_buf s).map some

/-- What becomes of one byte of a file name: `/`, `\` and `:` become `_`. -/
def sanitize_byte (b : Nat) : Nat := if b = 47 ∨ b = 92 ∨ b = 58 then 95 else b

/-- A name without `/`, `\` and `:`. -/
def Sanitized (s : List Nat) : Prop := ∀ b ∈ s, b ≠ 47 ∧ b ≠ 92 ∧ b ≠ 58

/-- Decimal digits of a number, as `%d` prints a non-negative `int`. -/
def dec (n : Nat) : List Nat := (Nat.toDigits 10 n).map Char.toNat

/-- The conversion `%08d` for a non-negative `int`: decimal, zero-padded to 8 characters. -/
def dec08 (n : Nat) : List Nat := List.replicate (8 - (dec n).length) 48 ++ dec n

/-- The name `mk_kmail_dir(fname)` passes to `mkdir`: `.<fname>.directory`, checked. -/
def mk_kmail_dir (fname : List Nat) : Option (List Nat) :=
  check_filename_buf (str "." ++ fname ++ str ".directory")

/-- The name `mk_recurse_dir(dir)` passes to `mkdir`. -/
def mk_recurse_dir (dir : List Nat) : Option (List Nat) :=
  check_filename_buf dir

/-- The name `mk_separate_dir(dir)` passes to `mkdir` in the round with counter `y`:
`snprintf` into a buffer of `strlen(dir) + 10` bytes, then `check_filename`. -/
def mk_separate_dir (dir : List Nat) (y : Nat) : Option (List Nat) :=
  let dirsize := dir.length + 10
  let dir_name := if y = 0 then dir.take (dirsize - 1) else (dir ++ dec y).take (dirsize - 1)
  check_filename_buf dir_name

/-- The name `mk_separate_file(f, t, extension, openit)` stores in `f->name[t]` (and opens for
writing when `openit` is set); `none` in the outer layer is the fatal exit for a count above
999999999. -/
def mk_separate_file (item_count : Nat) (extension : List Nat) : Option (Option (List Nat)) :=
  if item_count > 999999999 then none
  else some (check_filename_buf (dec item_count ++ extension))

/-- How the file-bumping loop of `create_enter_dir` ends. -/
inductive Bump where
  | found (temp : List Nat) (x : Nat)
  | died
  | nofuel
  deriving DecidableEq, Repr

/-- The loop `while ((f->output[t] = fopen(temp, "r"))) { x++; sprintf(temp, "%s%08d",
f->name[t], x); if (x == 99999999) DIE(...); fclose(...); }`.  `files` are the names that
`fopen(..., "r")` can open. -/
def create_enter_dir_bump (files : List (List Nat)) (name : List Nat) :
    Nat → List Nat → Nat → Bump
  | 0, _, _ => Bump.nofuel
  | fuel + 1, temp, x =>
    if temp ∈ files then
      let x1 := x + 1
      let temp1 := name ++ dec08 x1
      if x1 = 99999999 then Bump.died
      else create_enter_dir_bump files name fuel temp1 x1
    else Bump.found temp x

/-- What `create_enter_dir` does for one bucket. -/
inductive Opened where
  | file (name : List Nat)
  | nothing
  | died
  | nofuel
  deriving DecidableEq, Repr

/-- The value `create_enter_dir` gives `f->name[t]` for a bucket whose kind name
(`item_type_to_name(t)`) is `kind`, before the files are opened. -/
def create_enter_dir_name (mode : Nat) (file_as kind : List Nat) : List Nat :=
  if mode = MODE_KMAIL then file_as ++ str "." ++ kind
  else if mode = MODE_RECURSE then kind
  else if mode = MODE_SEPARATE then []
  else file_as ++ str "." ++ kind

/-- The second half of `create_enter_dir` for one bucket: the file that is opened for writing.
`files` are the names that exist (that `fopen(..., "r")` opens) in the directory in which the
bucket files are created. -/
def create_enter_dir (mode : Nat) (overwrite : Bool) (files : List (List Nat))
    (file_as kind : List Nat) : Opened :=
  let name := create_enter_dir_name mode file_as kind
  if mode ≠ MODE_SEPARATE then
    if !overwrite then
      match check_filename_buf name with
      | none => Opened.nofuel
      | some temp =>
        match create_enter_dir_bump files name 100000000 temp 0 with
        | Bump.nofuel => Opened.nofuel
        | Bump.died => Opened.died
        | Bump.found temp1 x =>
          let name1 := if x > 0 then temp1 else name
          match check_filename_buf name1 with
          | none => Opened.nofuel
          | some n => Opened.file n
    else
      match check_filename_buf name with
      | none => Opened.nofuel
      | some n => Opened.file n
  else Opened.nothing

/-! ## quote_string -/

/-- The first loop of `quote_string`: the pair `(i, count)` of the length of the input and the
number of its `"` and `\` bytes. -/
def quote_string_count : List Nat → Nat × Nat
  | [] => (0, 0)
  | c :: t =>
    let r := quote_string_count t
    (r.1 + 1, if c = 34 ∨ c = 92 then r.2 + 1 else r.2)

/-- The number of bytes `quote_string` allocates: `malloc(i + count + 1)`. -/
def quote_string_alloc (inp : List Nat) : Nat :=
  (quote_string_count inp).1 + (quote_string_count inp).2 + 1

/-- The string `quote_string(inp)` returns (the copying loop). -/
def quote_string : List Nat → List Nat
  | [] => []
  | c :: t => if c = 34 ∨ c = 92 then 92 :: c :: quote_string t else c :: quote_string t

/-- Reading a backslash-quoted string back: the backslash of every backslash pair is dropped
and the byte after it is taken as it is. -/
def unquote : List Nat → List Nat
  | [] => []
  | [c] => [c]
  | c :: d :: t => if c = 92 then d :: unquote t else c :: unquote (d :: t)

/-! ## is_attribute_char and rfc2231_string -/

/-- The value of a byte read through an `int8_t *`. -/
def int8 (b : Nat) : Int :=
  if b % 256 < 128 then ((b % 256 : Nat) : Int) else ((b % 256 : Nat) : Int) - 256

/-- The function `is_attribute_char(int8_t x)`. -/
def is_attribute_char (x : Int) : Nat :=
  if (65 ≤ x ∧ x ≤ 90) ∨ (97 ≤ x ∧ x ≤ 122) ∨ (48 ≤ x ∧ x ≤ 57) then 1
  else if x = 33 ∨ x = 35 ∨ x = 36 ∨ x = 38 ∨ x = 43 ∨ x = 45 ∨ x = 46 ∨ x = 94 ∨ x = 95
      ∨ x = 96 ∨ x = 124 ∨ x = 126 then 1
  else 0

/-- One lower-case hexadecimal digit. -/
def hexdigit (d : Nat) : Nat := if d < 10 then 48 + d else 87 + d

/-- What `snprintf(z, 3, "%2" PRIx8, *y)` stores at `z[0]`, `z[1]` for the `uint8_t` value
`v`: lower-case hexadecimal in a field of width 2, which `printf` pads with a blank. -/
def snprintf_2x (v : Nat) : List Nat :=
  if v % 256 < 16 then [32, hexdigit (v % 256)]
  else [hexdigit (v % 256 / 16), hexdigit (v % 256 % 16)]

/-- The first loop of `rfc2231_string`: the counter `needs`. -/
def rfc2231_needs : List Nat → Nat
  | [] => 0
  | b :: t => if is_attribute_char (int8 b) = 0 then rfc2231_needs t + 1 else rfc2231_needs t

/-- The number of bytes `rfc2231_string` allocates: `strlen(inp) + 2*needs + 15`. -/
def rfc2231_alloc (inp : List Nat) : Nat := inp.length + 2 * rfc2231_needs inp + 15

/-- The second loop of `rfc2231_string`: what is written after the prefix. -/
def rfc2231_loop : List Nat → List Nat
  | [] => []
  | b :: t =>
    if is_attribute_char (int8 b) = 0 then 37 :: (snprintf_2x b ++ rfc2231_loop t)
    else b :: rfc2231_loop t

/-- The string `rfc2231_string(inp)` returns. -/
def rfc2231_string (inp : List Nat) : List Nat := str "utf-8''" ++ rfc2231_loop inp

/-! ## The `-a` option and acceptable_ext -/

/-- Offset of the last occurrence of byte `c` in `s`, as `strrchr(s, c)` for `c ≠ 0`. -/
def strrchr : List Nat → Nat → Option Nat
  | [], _ => none
  | b :: t, c =>
    match strrchr t c with
    | some i => some (i + 1)
    | none => if b = c then some 0 else none

/-- The function `toupper` in the C locale. -/
def toupper (c : Nat) : Nat := if 97 ≤ c ∧ c ≤ 122 then c - 32 else c

/-- Modelled from the spec: `pst_stricmp` of libpst, whose source is not part of `readpst.c`;
the spec calls the comparison of extensions case-insensitive.  The value is the truth of
`pst_stricmp(a, b) == 0`: the two strings have the same length and agree byte by byte after
`toupper`. -/
def pst_stricmp_eq : List Nat → List Nat → Bool
  | [], [] => true
  | x :: a, y :: b => toupper x == toupper y && pst_stricmp_eq a b
  | _, _ => false

/-- The loop of `main` for `-a`: `while (*p) { if (*p == ',') *p = '\0'; p++; }`. -/
def main_a_loop : List Nat → List Nat
  | [] => []
  | c :: t => (if c = 44 then 0 else c) :: main_a_loop t

/-- The `n + 2` bytes of `acceptable_extensions` after `main` has handled `-a optarg`: the copy
of `optarg` with every comma turned into NUL, the NUL of `strcpy` and the NUL stored at
index `n + 1`. -/
def main_a_option (optarg : List Nat) : List Nat := main_a_loop optarg ++ [0, 0]

/-- The C string at a pointer into a buffer: the bytes up to the first NUL. -/
def cstr (p : List Nat) : List Nat := p.takeWhile (· ≠ 0)

/-- The two file names of an attachment (`filename1.str`, `filename2.str`), each possibly
`NULL`. -/
structure pst_item_attach where
  filename1 : Option (List Nat)
  filename2 : Option (List Nat)

/-- The name both `acceptable_ext` and `write_separate_attachment` work with: the long name
`filename2` when it is not `NULL`, otherwise the short name `filename1`. -/
def attach_filename (attach : pst_item_attach) : Option (List Nat) :=
  match attach.filename2 with
  | some n => some n
  | none => attach.filename1

/-- The loop `while (*a) { if (pst_stricmp(a, e) == 0) { rc = 1; break; } a += strlen(a) + 1; }`
of `acceptable_ext`; `a` is the buffer from the pointer `a` on, the result is `rc`. -/
def acceptable_ext_loop (e : List Nat) : Nat → List Nat → Option Nat
  | 0, _ => none
  | fuel + 1, a =>
    if a.headD 0 = 0 then some 0
    else if pst_stricmp_eq (cstr a) e then some 1
    else acceptable_ext_loop e fuel (a.drop ((cstr a).length + 1))

/-- The function `acceptable_ext(attach)` under the global `acceptable_extensions`. -/
def acceptable_ext (acceptable_extensions : Option (List Nat)) (attach : pst_item_attach) :
    Option Nat :=
  match acceptable_extensions with
  | none => some 1
  | some buf =>
    if buf.headD 0 = 0 then some 1
    else
      match attach_filename attach with
      | none => some 1
      | some name =>
        match strrchr name 46 with
        | none => some 1
        | some i => acceptable_ext_loop (name.drop i) (buf.length + 1) buf

/-- The entries of a comma-separated list. -/
def commaEntries : List Nat → List (List Nat)
  | [] => [[]]
  | c :: t =>
    if c = 44 then [] :: commaEntries t
    else match commaEntries t with
      | [] => [[c]]
      | l :: ls => (c :: l) :: ls

/-! ## header_match, header_is_reasonable and valid_headers -/

/-- The function `tolower` in the C locale. -/
def tolower (c : Nat) : Nat := if 65 ≤ c ∧ c ≤ 90 then c + 32 else c

/-- Truth of `strncasecmp(a, b, n) == 0`. -/
def strncasecmp_eq : List Nat → List Nat → Nat → Bool
  | _, _, 0 => true
  | [], [], _ + 1 => true
  | x :: a, y :: b, n + 1 => tolower x == tolower y && strncasecmp_eq a b n
  | _, _, _ + 1 => false

/-- The function `header_match(header, field)`. -/
def header_match (header field : List Nat) : Nat :=
  let n := field.length
  if strncasecmp_eq header field n then 1
  else if field.getD (n - 1) 0 = 32 ∧ strncasecmp_eq header field (n - 1) = true then
    if strncasecmp_eq (header.drop (n - 1)) (str "\r\n\t") 3 then 1
    else if strncasecmp_eq (header.drop (n - 1)) (str "\r\n ") 3 then 1
    else 0
  else 0

/-- The first `while(1)` of `header_is_reasonable`, entered after the leading upper-case
letter: `some v` when the loop leaves through `goto parse_header_field_value` with `c` at
`v`, `none` when it leaves through `return 0`. -/
def header_field_name : List Nat → Option (List Nat)
  | [] => none
  | c :: t =>
    if (65 ≤ c ∧ c ≤ 90) ∨ (97 ≤ c ∧ c ≤ 122) ∨ (48 ≤ c ∧ c ≤ 57) ∨ c = 45 then
      header_field_name t
    else if c = 58 then some t
    else none

/-- The second `while(1)` of `header_is_reasonable`, at the label
`parse_header_field_value`: the value returned. -/
def header_field_value : List Nat → Nat
  | [] => 0
  | c :: t =>
    if (33 ≤ c ∧ c ≤ 126) ∨ (c = 32 ∨ c = 9) then header_field_value t
    else if c = 13 then
      match t with
      | [] => 0
      | [n] => if n = 10 then 1 else 0
      | n :: d :: u =>
        if n = 10 then
          if d = 32 ∨ d = 9 then header_field_value u else 1
        else 0
    else 0

/-- The function `header_is_reasonable(header)`. -/
def header_is_reasonable : Option (List Nat) → Nat
  | none => 0
  | some [] => 0
  | some (c :: t) =>
    if 65 ≤ c ∧ c ≤ 90 then
      match header_field_name t with
      | some v => header_field_value v
      | none => 0
    else 0

/-- The branch `if (header) { ... }` of `valid_headers`, for a non-NULL `header`. -/
def valid_headers_checks (header : List Nat) : Nat :=
    if header_match header (str "Content-Language: ") ≠ 0 then 1
    else if header_match header (str "Content-Type: ") ≠ 0 then 1
    else if header_match header (str "DKIM-Signature: ") ≠ 0 then 1
    else if header_match header (str "Date: ") ≠ 0 then 1
    else if header_match header (str "Delivered-To: ") ≠ 0 then 1
    else if header_match header (str "From: ") ≠ 0 then 1
    else if header_match header (str "MIME-Version: ") ≠ 0 then 1
    else if header_match header (str "Microsoft Mail Internet Headers") ≠ 0 then 1
    else if header_match header (str "Received: ") ≠ 0 then 1
    else if header_match header (str "Return-Path: ") ≠ 0 then 1
    else if header_match header (str "Subject: ") ≠ 0 then 1
    else if header_match header (str "To: ") ≠ 0 then 1
    else if header_match header (str "User-Agent: ") ≠ 0 then 1
    else if header_match header (str "X-ASG-Debug-ID: ") ≠ 0 then 1
    else if header_match header (str "X-Barracuda-URL: ") ≠ 0 then 1
    else if header_match header (str "X-x: ") ≠ 0 then 1
    else if header_is_reasonable (some header) ≠ 0 then 1
    else 0

/-- The function `valid_headers(header)`. -/
def valid_headers : Option (List Nat) → Nat
  | none => 0
  | some header => valid_headers_checks header

/-- A byte allowed in a header field name after its first letter: `[A-Za-z0-9-]`. -/
def IsNameByte (c : Nat) : Prop :=
  (65 ≤ c ∧ c ≤ 90) ∨ (97 ≤ c ∧ c ≤ 122) ∨ (48 ≤ c ∧ c ≤ 57) ∨ c = 45

/-- A header field value: bytes 0x21..0x7E, SP and HT, and folds (CR LF followed by SP or
HT). -/
inductive FieldValue : List Nat → Prop where
  | nil : FieldValue []
  | byte (c : Nat) (v : List Nat) :
      ((33 ≤ c ∧ c ≤ 126) ∨ c = 32 ∨ c = 9) → FieldValue v → FieldValue (c :: v)
  | fold (w : Nat) (v : List Nat) :
      (w = 32 ∨ w = 9) → FieldValue v → FieldValue (13 :: 10 :: w :: v)

/-- A block that begins with a reasonable generic header: an upper-case letter, name bytes,
a colon, a field value, then CR LF followed by something that is neither SP nor HT. -/
def ReasonableHeader (h : List Nat) : Prop :=
  ∃ (u : Nat) (name value rest : List Nat),
    h = u :: name ++ 58 :: value ++ 13 :: 10 :: rest ∧ (65 ≤ u ∧ u ≤ 90) ∧
    (∀ c ∈ name, IsNameByte c) ∧ FieldValue value ∧
    rest.head? ≠ some 32 ∧ rest.head? ≠ some 9

/-- A block whose first line ends in a bare LF: its first LF does not follow a CR. -/
def FirstLineBareLF (h : List Nat) : Prop :=
  ∃ pre post : List Nat, h = pre ++ 10 :: post ∧ 10 ∉ pre ∧ pre.getLast? ≠ some 13

/-- The first LF of the block, if there is one, comes right after a CR. -/
def FirstLFAfterCR (l : List Nat) : Prop :=
  ∀ pre post : List Nat, l = pre ++ 10 :: post → 10 ∉ pre → pre.getLast? = some 13

/-- The block `h` begins with `p`, ignoring the case of letters. -/
def BeginsIgnoringCase (h p : List Nat) : Prop :=
  ∃ pre rest : List Nat, h = pre ++ rest ∧ pre.map tolower = p.map tolower

/-- The fifteen allow-listed field names that `valid_headers` matches with a following
space or fold. -/
def allowedFieldNames : List (List Nat) :=
  [str "Content-Language:", str "Content-Type:", str "DKIM-Signature:", str "Date:",
   str "Delivered-To:", str "From:", str "MIME-Version:", str "Received:",
   str "Return-Path:", str "Subject:", str "To:", str "User-Agent:", str "X-ASG-Debug-ID:",
   str "X-Barracuda-URL:", str "X-x:"]

/-! ## my_stristr and the header field helpers -/

/-- The loop of `my_stristr`: `x` is the rest of the haystack and `i` its offset, `y` the rest
of the needle, `z` the offset stored in `z` (`none` for `NULL`).  The value is what
`my_stristr` returns once the loop has ended. -/
def my_stristr_loop (needle : List Nat) : List Nat → Nat → List Nat → Option Nat → Option Nat
  | [], _, y, z => if y ≠ [] then none else z
  | c :: x, i, y, z =>
    match y with
    | [] => z
    | d :: y1 =>
      if tolower d = tolower c then
        my_stristr_loop needle x (i + 1) y1 (if z = none then some i else z)
      else my_stristr_loop needle x (i + 1) needle none

/-- The function `my_stristr(haystack, needle)`: the offset in `haystack` of the pointer
returned, `none` for `NULL`. -/
def my_stristr (haystack needle : Option (List Nat)) : Option Nat :=
  match haystack, needle with
  | some h, some n => my_stristr_loop n h 0 n none
  | _, _ => none

/-- The function `header_has_field(header, field, flag)`: the value of `*flag` afterwards. -/
def header_has_field (header field : List Nat) (flag : Nat) : Nat :=
  if my_stristr (some header) (some field) ≠ none ∨
      strncasecmp_eq header (field.drop 1) (field.length - 1) = true then 1
  else flag

/-- The function `header_get_field(header, field)`: the offset of the pointer returned. -/
def header_get_field (header field : List Nat) : Option Nat :=
  match my_stristr (some header) (some field) with
  | some t => some t
  | none => if strncasecmp_eq header (field.drop 1) (field.length - 1) then some 0 else none

/-- The call `strchr(s + i, c)` as an offset in `s`. -/
def strchr_from (s : List Nat) (i c : Nat) : Option Nat :=
  (strchr (s.drop i) c).map (· + i)

/-- The loop `while (e && ((e[1] == ' ') || (e[1] == '\t'))) e = strchr(e+1, '\n');` of
`header_end_field`; the outer `none` is fuel running out. -/
def header_end_field_loop (field : List Nat) : Nat → Option Nat → Option (Option Nat)
  | _, none => some none
  | 0, some _ => none
  | fuel + 1, some e =>
    if field.getD (e + 1) 0 = 32 ∨ field.getD (e + 1) 0 = 9 then
      header_end_field_loop field fuel (strchr_from field (e + 1) 10)
    else some (some e)

/-- The function `header_end_field(field)`: the offset in `field` of the LF returned, inner
`none` for `NULL`. -/
def header_end_field (field : List Nat) : Option (Option Nat) :=
  header_end_field_loop field (field.length + 1) (strchr_from field 1 10)

/-- The loop of `header_strip_field`: the header after the loop has ended. -/
def header_strip_field_loop (field : List Nat) : Nat → List Nat → Option (List Nat)
  | 0, _ => none
  | fuel + 1, header =>
    match header_get_field header field with
    | none => some header
    | some t =>
      match header_end_field (header.drop t) with
      | none => none
      | some (some e) =>
        let e1 := if t = 0 then t + e + 1 else t + e
        header_strip_field_loop field fuel (header.take t ++ header.drop e1)
      | some none => header_strip_field_loop field fuel (header.take t)

/-- The function `header_strip_field(header, field)`: the header afterwards. -/
def header_strip_field (header field : List Nat) : Option (List Nat) :=
  header_strip_field_loop field (header.length + 1) header

/-- The function `header_get_subfield(field, subfield, body_subfield, size_subfield)`: the
string in `body_subfield` afterwards.  `field` is the header text from the pointer passed;
the outer `none` is fuel running out in `header_end_field`. -/
def header_get_subfield (field : Option (List Nat)) (subfield body_subfield : List Nat)
    (size_subfield : Nat) : Option (List Nat) :=
  match field with
  | none => some body_subfield
  | some fld =>
    let search := (str " " ++ subfield ++ str "=").take 59
    let field1 := fld.drop 1
    match header_end_field field1 with
    | none => none
    | some n =>
      let s := my_stristr (some field1) (some search)
      match n, s with
      | some n, some s =>
        if s < n then
          let s1 := s + search.length
          let quoted := field1.getD s1 0 = 34
          let s2 := if quoted then s1 + 1 else s1
          let e0 : Option Nat :=
            if quoted then strchr_from field1 s2 34
            else
              match strchr_from field1 s2 59, strchr_from field1 s2 10 with
              | some e, some f => if f < e then some f else some e
              | e, _ => e
          let e : Nat :=
            match e0 with
            | none => n
            | some e => if e > n then n else e
          some (((field1.drop s2).take (e - s2)).take (size_subfield - 1))
        else some body_subfield
      | _, _ => some body_subfield

/-! ## removeCR, test_base64 and write_body_part -/

/-- The function `removeCR(c)`: the string afterwards. -/
def removeCR : List Nat → List Nat
  | [] => []
  | a :: t => if a ≠ 13 then a :: removeCR t else removeCR t

/-- The function `test_base64(body, len)`; `body` holds at least `len` bytes. -/
def test_base64 : List Nat → Nat → Nat
  | _, 0 => 0
  | b, len + 1 =>
    if b.headD 0 < 32 ∧ b.headD 0 ≠ 9 ∧ b.headD 0 ≠ 10 then 1
    else test_base64 b.tail len

/-- Truth of `strcasecmp(a, b) == 0`. -/
def strcasecmp_eq (a b : List Nat) : Bool := a.map tolower == b.map tolower

/-- A `pst_string`: the bytes of `str` and the flag `is_utf8`. -/
structure pst_string where
  str : List Nat
  is_utf8 : Bool

/-- The first part of `write_body_part`: the body and the charset after `removeCR` and the
optional recoding.  `utf8to8bit body charset` is the buffer `pst_vb_utf8to8bit` of libpst
fills (`none` when it returns -1). -/
def write_body_part_recode (prefer_utf8 : Bool)
    (utf8to8bit : List Nat → List Nat → Option (List Nat))
    (body : pst_string) (charset : List Nat) : List Nat × List Nat :=
  let s0 := removeCR body.str
  if body.is_utf8 = true ∧ strcasecmp_eq (str "utf-8") charset = false then
    if prefer_utf8 then (s0, str "utf-8")
    else
      match utf8to8bit s0 charset with
      | none => (s0, str "utf-8")
      | some newer => (newer, charset)
  else (s0, charset)

/-- The function `write_body_part`: the bytes written to `f_output`.  `base64_encode body` is
the string `pst_base64_encode` of libpst returns (`none` for `NULL`).  The outer `none` is
fuel running out in `write_email_body`. -/
def write_body_part (mode : Nat) (prefer_utf8 : Bool)
    (utf8to8bit : List Nat → List Nat → Option (List Nat))
    (base64_encode : List Nat → Option (List Nat))
    (body : pst_string) (mime charset boundary : List Nat) : Option (List Nat) :=
  let conv := write_body_part_recode prefer_utf8 utf8to8bit body charset
  let base64 := test_base64 conv.1 conv.1.length
  let head := str "\n--" ++ boundary ++ str "\n" ++
    (str "Content-Type: " ++ mime ++ str "; charset=\"" ++ conv.2 ++ str "\"\n") ++
    (if base64 ≠ 0 then str "Content-Transfer-Encoding: base64\n" else []) ++ str "\n"
  if base64 ≠ 0 then
    match base64_encode conv.1 with
    | some enc => (write_email_body mode enc).map (fun w => head ++ w ++ str "\n")
    | none => some head
  else (write_email_body mode conv.1).map (fun w => head ++ w)

/-- A byte that makes `test_base64` ask for base64: below 32 and neither TAB nor LF. -/
def IsBinaryByte (c : Nat) : Prop := c < 32 ∧ c ≠ 9 ∧ c ≠ 10

/-! ## MIME boundaries -/

/-- The buffer `boundary` of `write_normal_email` after `snprintf(boundary, sizeof(boundary),
"--boundary-LibPST-iamunique-%" PRIu64 "_-_-", item->block_id)`, with `char boundary[60]`. -/
def boundary (block_id : Nat) : List Nat :=
  (str "--boundary-LibPST-iamunique-" ++ dec block_id ++ str "_-_-").take 59

/-- The buffer `altboundary` after `snprintf(altboundary, sizeof(altboundary), "alt-%s",
boundary)`, with `char altboundary[66]`. -/
def altboundary (block_id : Nat) : List Nat :=
  (str "alt-" ++ boundary block_id).take 65

/-- The number that a string of decimal digits denotes. -/
def undec (l : List Nat) : Nat := l.foldl (fun a c => 10 * a + (c - 48)) 0

/-! ## The multipart structure written by write_normal_email -/

/-- What one `fprintf` (or one helper call) of `write_normal_email` contributes to the
multipart structure of the output. -/
inductive Ev where
  /-- The part delimiter `fprintf(f_output, "\n--%s\n", b)`. -/
  | part (b : List Nat)
  /-- The line `Content-Type: multipart/alternative;\n\tboundary="%s"`. -/
  | althead (b : List Nat)
  /-- The closing delimiter `fprintf(f_output, "\n--%s--\n...", b)`. -/
  | close (b : List Nat)
  /-- Any other output: header lines, part headers and part bodies, and the whole output of
  the recursive call for an embedded message. -/
  | text
  deriving DecidableEq, Repr

/-- What `write_normal_email` reads of one attachment. -/
structure attach_info where
  /-- Truth of `attach->method == PST_ATTACH_EMBEDDED`. -/
  embedded : Bool
  /-- Truth of `attach->data.data != NULL`. -/
  has_data : Bool
  i_id : Nat
  /-- Truth of `pst_getID(pst, attach->i_id) != NULL`. -/
  id_found : Bool
  names : pst_item_attach
  /-- For an embedded message: `pst_parse_item` returns an item that has `email`. -/
  inner_is_email : Bool

/-- What `write_normal_email` reads of the mail item when it writes the body parts. -/
structure mail_item where
  block_id : Nat
  /-- Truth of `item->type == PST_TYPE_REPORT`. -/
  is_report : Bool
  /-- Truth of `item->type == PST_TYPE_SCHEDULE`. -/
  is_schedule : Bool
  has_report_text : Bool
  has_body : Bool
  has_htmlbody : Bool
  has_rtf : Bool
  /-- Truth of `pst_lzfu_decompress(...) != NULL`. -/
  rtf_decompressed : Bool
  has_encrypted_body : Bool
  has_encrypted_htmlbody : Bool
  has_appointment : Bool
  attach : List attach_info

/-- The structure of what `write_body_part(..., boundary, ...)` writes: the part delimiter,
then the part headers and the body. -/
def write_body_part_ev (boundary : List Nat) : List Ev := [Ev.part boundary, Ev.text]

/-- The structure of what `write_schedule_part` writes. -/
def write_schedule_part_ev (item : mail_item) (boundary : List Nat) : List Ev :=
  if !item.has_appointment then []
  else [Ev.part boundary, Ev.text, Ev.part boundary, Ev.text]

/-- The structure of what `write_inline_attachment` writes. -/
def write_inline_attachment_ev (a : attach_info) (boundary : List Nat) : List Ev :=
  if !a.has_data && !a.id_found then []
  else [Ev.part boundary, Ev.text]

/-- The structure of what `write_embedded_message` writes: nothing unless the embedded item
is parsed and is a mail, otherwise the part delimiter, the `Content-Type` line and the inner
message. -/
def write_embedded_message_ev (a : attach_info) (boundary : List Nat) : List Ev :=
  if a.inner_is_email then [Ev.part boundary, Ev.text, Ev.text] else []

/-- The attachment list after `write_normal_email` has put the RTF body and the encrypted
bodies in front of it. -/
def write_normal_email_attachments (save_rtf : Bool) (item : mail_item) : List attach_info :=
  let l1 := if item.has_rtf && save_rtf then
      (⟨false, item.rtf_decompressed, 0, false, ⟨none, some (str "rtf-body.rtf")⟩, false⟩
        : attach_info) :: item.attach
    else item.attach
  let l2 := if item.has_encrypted_body then
      (⟨false, true, 0, false, ⟨none, none⟩, false⟩ : attach_info) :: l1
    else l1
  if item.has_encrypted_htmlbody then
    (⟨false, true, 0, false, ⟨none, none⟩, false⟩ : attach_info) :: l2
  else l2

/-- The loop `for (attach = item->attach; attach; attach = attach->next)` of
`write_normal_email`: the structure of what it writes to `f_output`. -/
def write_normal_email_attach_loop (exts : Option (List Nat)) (current_mode : Nat)
    (mode_MH : Bool) (boundary : List Nat) : List attach_info → Option (List Ev)
  | [] => some []
  | a :: rest =>
    match write_normal_email_attach_loop exts current_mode mode_MH boundary rest with
    | none => none
    | some tail =>
      if a.embedded then some (write_embedded_message_ev a boundary ++ tail)
      else if a.has_data || a.i_id != 0 then
        match acceptable_ext exts a.names with
        | none => none
        | some ok =>
          if ok ≠ 0 then
            if current_mode = MODE_SEPARATE ∧ mode_MH = false then some tail
            else some (write_inline_attachment_ev a boundary ++ tail)
          else some tail
      else some tail

/-- The structure of the output of `write_normal_email`: everything before the MIME headers
is one `text`.  The outer `none` is fuel running out in `acceptable_ext`. -/
def write_normal_email_ev (exts : Option (List Nat)) (current_mode : Nat) (mode_MH : Bool)
    (save_rtf : Bool) (item : mail_item) : Option (List Ev) :=
  let b := boundary item.block_id
  let alt := altboundary item.block_id
  let both := item.has_body && item.has_htmlbody
  let altboundaryp := if both then alt else b
  match write_normal_email_attach_loop exts current_mode mode_MH b
      (write_normal_email_attachments save_rtf item) with
  | none => none
  | some atts =>
    some ([Ev.text, Ev.text] ++
      (if item.is_report && item.has_report_text then write_body_part_ev b ++ [Ev.text]
        else []) ++
      (if both then [Ev.part b, Ev.althead alt] else []) ++
      (if item.has_body then write_body_part_ev altboundaryp else []) ++
      (if item.has_htmlbody then write_body_part_ev altboundaryp else []) ++
      (if both then [Ev.close alt] else []) ++
      (if item.is_schedule then write_schedule_part_ev item b else []) ++
      atts ++ [Ev.close b])

/-- Output that is neither a closing delimiter nor a `multipart/alternative` header. -/
def Ev.plain : Ev → Bool
  | Ev.part _ => true
  | Ev.text => true
  | _ => false

/-! ## write_appointment -/

/-- The record `pst_convert_recurrence` returns, as far as `write_appointment` reads it. -/
structure pst_recurrence where
  type : Nat
  count : Nat
  interval : Nat
  dayofmonth : Nat
  monthofyear : Nat
  position : Nat
  bydaymask : Nat

/-- The values of `appointment->showas` that the `switch` of `write_appointment` tells apart
(`PST_FREEBUSY_*` of libpst.h). -/
inductive pst_freebusy where
  | tentative
  | free
  | busy
  | out_of_office
  | other
  deriving DecidableEq, Repr

/-- The values of `appointment->label` that the `switch` of `write_appointment` tells apart
(`PST_APP_LABEL_*` of libpst.h). -/
inductive pst_app_label where
  | none
  | important
  | business
  | personal
  | vacation
  | must_attend
  | travel_req
  | needs_prep
  | birthday
  | anniversary
  | phone_call
  | other
  deriving DecidableEq, Repr

/-- The appointment record as `write_appointment` reads it.  A date is the text that
`pst_rfc2445_datetime_format` makes of it, `none` for a NULL date. -/
structure pst_item_appointment where
  start : Option (List Nat)
  end_ : Option (List Nat)
  location : Option (List Nat)
  showas : pst_freebusy
  is_recurring : Bool
  rdata : pst_recurrence
  label : pst_app_label
  alarm : Nat
  alarm_minutes : Int

/-- The item as `write_appointment` reads it; `now` is the text of
`pst_rfc2445_datetime_format_now`, `extra_fields` the pairs of `field_name` and `value`. -/
structure appointment_item where
  block_id : Nat
  create_date : Option (List Nat)
  modify_date : Option (List Nat)
  now : List Nat
  subject : Option (List Nat)
  body : Option (List Nat)
  extra_fields : List (List Nat × List Nat)
  appointment : pst_item_appointment

/-- The conversion `%#x` of `printf`: lower-case hexadecimal with `0x` in front, a plain `0`
for zero. -/
def hex_alt (n : Nat) : List Nat :=
  if n = 0 then str "0" else str "0x" ++ (Nat.toDigits 16 n).map Char.toNat

/-- The table `rules[]` of `write_appointment`. -/
def rules : List (List Nat) := [str "DAILY", str "WEEKLY", str "MONTHLY", str "YEARLY"]

/-- The table `days[]` of `write_appointment`. -/
def days : List (List Nat) :=
  [str "SU", str "MO", str "TU", str "WE", str "TH", str "FR", str "SA"]

/-- One round of `for (i=0; i<7; i++)` in `write_appointment`: the state is the buffer
`byday` and the flag `empty`. -/
def write_appointment_byday_step (bydaymask : Nat) (st : List Nat × Bool) (i : Nat) :
    List Nat × Bool :=
  if bydaymask.testBit i then
    ((st.1 ++ (if st.2 then str ";BYDAY=" else str ";") ++ days.getD i []).take 48, false)
  else st

/-- The buffer `byday` after the loop `for (i=0; i<7; i++)`. -/
def write_appointment_byday (bydaymask : Nat) : List Nat :=
  ((List.range 7).foldl (write_appointment_byday_step bydaymask) ([], true)).1

/-- The `fprintf` calls of `write_appointment` for a recurring appointment, one list entry
per call. -/
def write_appointment_rrule (rdata : pst_recurrence) : List (List Nat) :=
  [str "RRULE:FREQ=" ++ rules.getD rdata.type []] ++
  (if rdata.count ≠ 0 then [str ";COUNT=" ++ dec rdata.count] else []) ++
  (if rdata.interval ≠ 1 ∧ rdata.interval ≠ 0 then [str ";INTERVAL=" ++ dec rdata.interval]
    else []) ++
  (if rdata.dayofmonth ≠ 0 then [str ";BYMONTHDAY=" ++ dec rdata.dayofmonth] else []) ++
  (if rdata.monthofyear ≠ 0 then [str ";BYMONTH=" ++ dec rdata.monthofyear] else []) ++
  (if rdata.position ≠ 0 then [str ";BYSETPOS=" ++ dec rdata.position] else []) ++
  (if rdata.bydaymask ≠ 0 then [write_appointment_byday rdata.bydaymask] else []) ++
  [str "\n"]

/-- The loop of `write_extra_categories`: the `fprintf` calls, given whether a category has
been started.  `escape` is `pst_rfc2426_escape` of libpst. -/
def write_extra_categories_loop (escape : List Nat → List Nat) :
    List (List Nat × List Nat) → Bool → List (List Nat) × Bool
  | [], started => ([], started)
  | ef :: rest, started =>
    if ef.1 = str "Keywords" then
      let r := write_extra_categories_loop escape rest true
      (((if started then str ", " else str "CATEGORIES:") ++ escape ef.2) :: r.1, r.2)
    else write_extra_categories_loop escape rest started

/-- The function `write_extra_categories`: its `fprintf` calls and its return value. -/
def write_extra_categories (escape : List Nat → List Nat)
    (extra_fields : List (List Nat × List Nat)) : List (List Nat) × Bool :=
  let r := write_extra_categories_loop escape extra_fields false
  (r.1 ++ (if r.2 then [str "\n"] else []), r.2)

/-- The `fprintf` calls of the `switch (appointment->label)`. -/
def write_appointment_label (escape : List Nat → List Nat) (item : appointment_item) :
    List (List Nat) :=
  match item.appointment.label with
  | pst_app_label.none =>
    let r := write_extra_categories escape item.extra_fields
    if !r.2 then r.1 ++ [str "CATEGORIES:NONE\n"] else r.1
  | pst_app_label.important => [str "CATEGORIES:IMPORTANT\n"]
  | pst_app_label.business => [str "CATEGORIES:BUSINESS\n"]
  | pst_app_label.personal => [str "CATEGORIES:PERSONAL\n"]
  | pst_app_label.vacation => [str "CATEGORIES:VACATION\n"]
  | pst_app_label.must_attend => [str "CATEGORIES:MUST-ATTEND\n"]
  | pst_app_label.travel_req => [str "CATEGORIES:TRAVEL-REQUIRED\n"]
  | pst_app_label.needs_prep => [str "CATEGORIES:NEEDS-PREPARATION\n"]
  | pst_app_label.birthday => [str "CATEGORIES:BIRTHDAY\n"]
  | pst_app_label.anniversary => [str "CATEGORIES:ANNIVERSARY\n"]
  | pst_app_label.phone_call => [str "CATEGORIES:PHONE-CALL\n"]
  | pst_app_label.other => []

/-- The `fprintf` calls of the `switch (appointment->showas)`. -/
def write_appointment_showas (showas : pst_freebusy) : List (List Nat) :=
  match showas with
  | pst_freebusy.tentative => [str "STATUS:TENTATIVE\n"]
  | pst_freebusy.free => [str "TRANSP:TRANSPARENT\n", str "STATUS:CONFIRMED\n"]
  | pst_freebusy.busy => [str "STATUS:CONFIRMED\n"]
  | pst_freebusy.out_of_office => [str "STATUS:CONFIRMED\n"]
  | pst_freebusy.other => []

/-- The `fprintf` calls of the alarm part of `write_appointment`. -/
def write_appointment_alarm (a : pst_item_appointment) : List (List Nat) :=
  if a.alarm ≠ 0 ∧ a.alarm_minutes ≥ 0 ∧ a.alarm_minutes < 1440 then
    [str "BEGIN:VALARM\n", str "TRIGGER:-PT" ++ dec a.alarm_minutes.toNat ++ str "M\n",
      str "ACTION:DISPLAY\n", str "DESCRIPTION:Reminder\n", str "END:VALARM\n"]
  else []

/-- One optional line `fprintf(f_output, "<tag>%s\n", text)`. -/
def opt_line (tag : List Nat) (text : Option (List Nat)) : List (List Nat) :=
  match text with
  | some t => [tag ++ t ++ str "\n"]
  | none => []

/-- The `fprintf` calls of `write_appointment` that come before the alarm part, one list
entry per call.  `escape` is `pst_rfc2426_escape` of libpst. -/
def write_appointment_fields (escape : List Nat → List Nat) (item : appointment_item) :
    List (List Nat) :=
  let a := item.appointment
  [str "UID:" ++ hex_alt item.block_id ++ str "\n"] ++
  [str "DTSTAMP:" ++ (match item.create_date with | some d => d | none => item.now)
    ++ str "\n"] ++
  opt_line (str "CREATED:") item.create_date ++
  opt_line (str "LAST-MOD:") item.modify_date ++
  opt_line (str "SUMMARY:") (item.subject.map escape) ++
  opt_line (str "DESCRIPTION:") (item.body.map escape) ++
  opt_line (str "DTSTART;VALUE=DATE-TIME:") a.start ++
  opt_line (str "DTEND;VALUE=DATE-TIME:") a.end_ ++
  opt_line (str "LOCATION:") (a.location.map escape) ++
  write_appointment_showas a.showas ++
  (if a.is_recurring then write_appointment_rrule a.rdata else []) ++
  write_appointment_label escape item

/-- The function `write_appointment`: its `fprintf` calls in order, one list entry per
call. -/
def write_appointment (escape : List Nat → List Nat) (item : appointment_item) :
    List (List Nat) :=
  write_appointment_fields escape item ++ write_appointment_alarm item.appointment ++
    [str "END:VEVENT\n"]

/-- No entry of the list begins with the letter `B`. -/
def NoLeadingB (l : List (List Nat)) : Prop := ∀ c ∈ l, c.head? ≠ some 66

/-- The five lines of a `VALARM` block for the given number of minutes. -/
def valarmBlock (minutes : Nat) : List (List Nat) :=
  [str "BEGIN:VALARM\n", str "TRIGGER:-PT" ++ dec minutes ++ str "M\n",
    str "ACTION:DISPLAY\n", str "DESCRIPTION:Reminder\n", str "END:VALARM\n"]

/-! ## process: the walk over one sibling chain -/

/-- The values of `item->type` (`PST_TYPE_*` of libpst.h); `unknown` is any other value. -/
inductive pst_type where
  | note
  | schedule
  | appointment
  | contact
  | journal
  | stickynote
  | task
  | other
  | report
  | unknown
  deriving DecidableEq, Repr

/-- The item `pst_parse_item` returns, as far as `process` reads it. -/
structure pst_item where
  /-- Truth of `item->folder != NULL`. -/
  folder : Bool
  file_as : Option (List Nat)
  contact : Bool
  email : Bool
  journal : Bool
  appointment : Bool
  message_store : Bool
  type : pst_type

/-- One descriptor of a sibling chain, as far as `process` reads it. -/
structure pst_desc_tree where
  /-- Truth of `d_ptr->desc != NULL`. -/
  desc : Bool
  /-- The item `pst_parse_item` returns for the descriptor, `none` for `NULL`. -/
  item : Option pst_item
  /-- Truth of `d_ptr->child != NULL`. -/
  child : Bool
  /-- Whether `try_fork`, when `process` calls it for this descriptor, forks a child process
  (the work is then done by the child, in which `try_fork` returns 0). -/
  forked : Bool

/-- The global settings `process` reads. -/
structure settings where
  mode : Nat
  mode_EX : Bool
  mode_MSG : Bool
  output_type_mode : Nat
  /-- Truth of `deleted_mode == DMODE_INCLUDE`. -/
  deleted_include : Bool

/-- The counters of `struct file_ll` that `process` updates. -/
structure file_ll where
  item_count : Nat
  skip_count : Nat
  deriving DecidableEq, Repr

/-- What `process` does for a descriptor, apart from counting. -/
inductive Act where
  /-- The call `process(item, d_ptr->child)` for the folder of that name, made by this
  process or, when `in_child` is set, by the child forked for it. -/
  | descend (name : List Nat) (in_child : Bool)
  /-- A file of that name, set up by `mk_separate_file`, is written. -/
  | file (name : List Nat) (in_child : Bool)
  /-- The item is written to the open file of its bucket. -/
  | write
  deriving DecidableEq, Repr

/-- The file name `mk_separate_file` sets up for the count and the extension; `none` when it
ends the process. -/
def separate_name (item_count : Nat) (extension : List Nat) : Option (List Nat) :=
  match mk_separate_file item_count extension with
  | some (some name) => some name
  | _ => none

/-- The body of the loop `for (; d_ptr; d_ptr = d_ptr->next)` of `process` for one
descriptor: the counters afterwards and what was done; `none` when the process ends in
`DIE`. -/
def process_item (s : settings) (ff : file_ll) (d : pst_desc_tree) :
    Option (file_ll × List Act) :=
  let skip : Option (file_ll × List Act) := some (⟨ff.item_count, ff.skip_count + 1⟩, [])
  let ff1 : file_ll := ⟨ff.item_count + 1, ff.skip_count⟩
  let single (enabled : Nat) (ext : List Nat) : Option (file_ll × List Act) :=
    if s.output_type_mode &&& enabled = 0 then skip
    else if s.mode = MODE_SEPARATE then
      match separate_name ff1.item_count (if s.mode_EX then ext else []) with
      | some name => some (ff1, [Act.file name false])
      | none => none
    else some (ff1, [Act.write])
  if !d.desc then skip
  else
    match d.item with
    | none => skip
    | some item =>
      match item.folder, item.file_as with
      | true, some name =>
        if d.child && (s.deleted_include || !strcasecmp_eq name (str "Deleted Items")) then
          some (ff1, [Act.descend name d.forked])
        else some (ff1, [])
      | _, _ =>
        if item.contact && item.type = pst_type.contact then single 8 (str ".vcf")
        else if item.email && (item.type = pst_type.note || item.type = pst_type.schedule
            || item.type = pst_type.report) then
          if s.output_type_mode &&& 1 = 0 then skip
          else if s.mode = MODE_SEPARATE then
            match separate_name ff1.item_count (if s.mode_EX then str ".eml" else []) with
            | some name =>
              if s.mode_MSG then
                match separate_name ff1.item_count (str ".msg") with
                | some msg => some (ff1, [Act.file name d.forked, Act.file msg d.forked])
                | none => if d.forked then some (ff1, [Act.file name true]) else none
              else some (ff1, [Act.file name d.forked])
            | none => if d.forked then some (ff1, []) else none
          else some (ff1, [Act.write])
        else if item.journal && item.type = pst_type.journal then single 4 (str ".ics")
        else if item.appointment && item.type = pst_type.appointment then
          single 2 (str ".ics")
        else if item.message_store then skip
        else skip

/-- The loop of `process` over a sibling chain, from the counters `ff`: the counters when the
chain has been walked and what was done, in order. -/
def process_loop (s : settings) : file_ll → List pst_desc_tree → Option (file_ll × List Act)
  | ff, [] => some (ff, [])
  | ff, d :: rest =>
    match process_item s ff d with
    | none => none
    | some (ff1, acts) =>
      match process_loop s ff1 rest with
      | none => none
      | some (ff2, acts2) => some (ff2, acts ++ acts2)

/-- The function `process` for one sibling chain: `create_enter_dir` has just zeroed the
counters. -/
def process (s : settings) (chain : List pst_desc_tree) : Option (file_ll × List Act) :=
  process_loop s ⟨0, 0⟩ chain

/-- A descriptor of a mail: it has a `desc`, its item is parsed, is not a folder and has
`email` with the type of a note. -/
def mail_desc : pst_desc_tree :=
  ⟨true, some ⟨false, some (str "m"), false, true, false, false, false, pst_type.note⟩,
    false, false⟩

/-- A descriptor that `process` handles as a mail: it has a `desc`, its item is parsed, is
not taken as a folder, and has `email` with the type of a note, a schedule or a report. -/
def IsMail (d : pst_desc_tree) : Prop :=
  d.desc = true ∧ ∃ it, d.item = some it ∧ (it.folder = false ∨ it.file_as = none) ∧
    it.email = true ∧
    (it.type = pst_type.note ∨ it.type = pst_type.schedule ∨ it.type = pst_type.report)

/-- A descriptor that `process` handles as the folder of the given name. -/
def IsFolder (d : pst_desc_tree) (name : List Nat) : Prop :=
  d.desc = true ∧ ∃ it, d.item = some it ∧ it.folder = true ∧ it.file_as = some name

/-! ## removeCR on the buffer -/

/-- The loop `while (*a) { *b = *a; if (*a != '\r') b++; a++; }` of `removeCR` and the
`*b = '\0'` after it, on the buffer itself: `a` and `b` are offsets into `buf`.  The result
is the buffer afterwards; `none` is fuel running out. -/
def removeCR_loop : Nat → List Nat → Nat → Nat → Option (List Nat)
  | 0, _, _, _ => none
  | fuel + 1, buf, a, b =>
    if buf.getD a 0 ≠ 0 then
      removeCR_loop fuel (buf.set b (buf.getD a 0)) (a + 1)
        (if buf.getD a 0 ≠ 13 then b + 1 else b)
    else some (buf.set b 0)

/-- The function `removeCR(c)` run in place on the buffer that holds the string `c` and its
NUL: the string the buffer holds afterwards. -/
def removeCR_inplace (c : List Nat) : Option (List Nat) :=
  (removeCR_loop (c.length + 1) (c ++ [0]) 0 0).map cstr

/-- An LF at offset `e` of `field` that is not immediately followed by a blank or a tab: the
line feed that ends a header field rather than introducing a folded continuation line. -/
def IsFieldEnd (field : List Nat) (e : Nat) : Prop :=
  e < field.length ∧ field.getD e 0 = 10 ∧
    field.getD (e + 1) 0 ≠ 32 ∧ field.getD (e + 1) 0 ≠ 9

/-- The text `;BYDAY=` followed by the names of the days whose bit is set in the mask, bit `i`
selecting the `i`-th of SU, MO, TU, WE, TH, FR, SA, joined by `;`; no text at all when none
of the seven bits is set. -/
def bydayText (bydaymask : Nat) : List Nat :=
  let names := ((List.range 7).filter (fun i => bydaymask.testBit i)).map
    (fun i => days.getD i [])
  if names = [] then [] else str ";BYDAY=" ++ (str ";").intercalate names

/-! ## Child processes: grim_reaper and try_fork -/

/-- How a call ends: the process is ended by `exit(status)`, or the call returns. -/
inductive Ran (α : Type) where
  | exited (status : Nat)
  | returned (a : α)
  deriving DecidableEq, Repr

/-- The exit code the parent of a process sees when the process calls `exit(status)`: the low
8 bits of `status`. -/
def exit_code_seen (status : Nat) : Nat := status % 256

/-- The globals one process has for its children, and the semaphore all processes share. -/
structure proc_state where
  /-- The result of `getpid()`. -/
  pid : Nat
  max_children : Int
  active_children : Int
  /-- The array `child_processes`. -/
  child_processes : List Nat
  /-- The value of the semaphore `global_children`; `none` when the pointer is `NULL`. -/
  global_children : Option Nat
  deriving DecidableEq, Repr

/-- The loop `for (j=i; j<active_children-1; j++) child_processes[j] = child_processes[j+1];`
of `grim_reaper`: the array after the given number of rounds, starting at `j`. -/
def grim_reaper_shift : Nat → Nat → List Nat → List Nat
  | 0, _, cp => cp
  | n + 1, j, cp => grim_reaper_shift n (j + 1) (cp.set j (cp.getD (j + 1) 0))

/-- The loop `for (i=0; i<active_children; i++)` of `grim_reaper` from index `i` on.
`waitpid child waitall` is the wait status when `waitpid(child, &status, ...)` returns
`child`, and `none` when it returns anything else.  The result is `active_children` and the
array afterwards, unless `exit(status)` is called; the outer `none` is fuel running out. -/
def grim_reaper_loop (waitpid : Nat → Bool → Option Nat) (waitall : Bool) :
    Nat → Nat → Int → List Nat → Option (Ran (Int × List Nat))
  | 0, i, active_children, cp =>
    if (i : Int) < active_children then none else some (Ran.returned (active_children, cp))
  | fuel + 1, i, active_children, cp =>
    if (i : Int) < active_children then
      match waitpid (cp.getD i 0) waitall with
      | some status =>
        if status ≠ 0 then some (Ran.exited status)
        else
          grim_reaper_loop waitpid waitall fuel i (active_children - 1)
            (grim_reaper_shift (active_children - 1 - i).toNat i cp)
      | none => grim_reaper_loop waitpid waitall fuel (i + 1) active_children cp
    else some (Ran.returned (active_children, cp))

/-- The function `grim_reaper(waitall)`: the state afterwards and the value returned
(`available`), unless the process is ended by `exit(status)`. -/
def grim_reaper (waitpid : Nat → Bool → Option Nat) (waitall : Bool) (p : proc_state) :
    Option (Ran (proc_state × Nat)) :=
  match p.global_children with
  | none => some (Ran.returned (p, 0))
  | some available =>
    match grim_reaper_loop waitpid waitall p.active_children.toNat 0 p.active_children
        p.child_processes with
    | none => none
    | some (Ran.exited status) => some (Ran.exited status)
    | some (Ran.returned (a, cp)) =>
      some (Ran.returned ({ p with active_children := a, child_processes := cp }, available))

/-- What `fork()` gives: a negative value, 0 in the new process (whose pid is `me`), or the
pid of the child in the parent. -/
inductive fork_result where
  | failed
  | child (me : Nat)
  | parent (child : Nat)
  deriving DecidableEq, Repr

/-- The function `try_fork`: the state afterwards, in the process that goes on, and the value
returned, unless `grim_reaper` ends the process.  `none` also stands for a write outside the
array `child_processes`. -/
def try_fork (waitpid : Nat → Bool → Option Nat) (fork : fork_result) (p : proc_state) :
    Option (Ran (proc_state × Nat)) :=
  match grim_reaper waitpid false p with
  | none => none
  | some (Ran.exited status) => some (Ran.exited status)
  | some (Ran.returned (p1, available)) =>
    if available ≠ 0 ∧ p1.active_children < p1.max_children then
      let p2 : proc_state := { p1 with global_children := p1.global_children.map (· - 1) }
      match fork with
      | fork_result.failed => some (Ran.returned (p2, 0))
      | fork_result.child me =>
        some (Ran.returned ({ p2 with
          pid := me
          active_children := 0
          child_processes := List.replicate p2.max_children.toNat 0 ++
            p2.child_processes.drop p2.max_children.toNat }, 0))
      | fork_result.parent child =>
        if 0 ≤ p2.active_children ∧ p2.active_children < p2.child_processes.length then
          some (Ran.returned ({ p2 with
            child_processes := p2.child_processes.set p2.active_children.toNat child
            active_children := p2.active_children + 1 }, child))
        else none
    else some (Ran.returned (p1, 0))

/-- The lines of `process` that descend into a folder, from `pid_t parent = getpid();` on.
`inner` is the call `process(item, d_ptr->child)`, as far as it changes the state. -/
def process_descend (waitpid : Nat → Bool → Option Nat) (fork : fork_result)
    (inner : proc_state → Option (Ran proc_state)) (p : proc_state) :
    Option (Ran proc_state) :=
  let parent := p.pid
  match try_fork waitpid fork p with
  | none => none
  | some (Ran.exited status) => some (Ran.exited status)
  | some (Ran.returned (p1, child)) =>
    if child = 0 then
      let me := p1.pid
      match inner p1 with
      | none => none
      | some (Ran.exited status) => some (Ran.exited status)
      | some (Ran.returned p2) =>
        if me ≠ parent then
          match grim_reaper waitpid true
              { p2 with global_children := p2.global_children.map (· + 1) } with
          | none => none
          | some (Ran.exited status) => some (Ran.exited status)
          | some (Ran.returned _) => some (Ran.exited 0)
        else some (Ran.returned p2)
    else some (Ran.returned p1)

/-! ## write_separate_attachment -/

/-- What `write_separate_attachment` does. -/
inductive Stored where
  /-- It returned before a file name was built: the attachment has no data and its `i_id` is
  not found. -/
  | skipped
  /-- It ended the process in `DIE`. -/
  | died
  /-- It called `fopen(temp, "w")` for this name. -/
  | opened (temp : List Nat)
  deriving DecidableEq, Repr

/-- The name `sprintf` puts into `temp` for the counter `x` in the loop of
`write_separate_attachment`. -/
def write_separate_attachment_temp (f_name attach_filename : List Nat) (x : Nat) : List Nat :=
  if x = 0 then f_name ++ str "-" ++ attach_filename
  else f_name ++ str "-" ++ attach_filename ++ str "-" ++ dec x

/-- The loop `do { ... } while ((fp = fopen(temp, "r")) && ++x < 99999999);` of
`write_separate_attachment` from the counter `x` on: `temp` and `x` after the loop.
`readable name` is the truth of `fopen(name, "r") != NULL`; `none` is fuel running out. -/
def write_separate_attachment_loop (readable : List Nat → Bool)
    (f_name attach_filename : List Nat) : Nat → Nat → Option (List Nat × Nat)
  | 0, _ => none
  | fuel + 1, x =>
    if readable (write_separate_attachment_temp f_name attach_filename x) then
      if x + 1 < 99999999 then
        write_separate_attachment_loop readable f_name attach_filename fuel (x + 1)
      else some (write_separate_attachment_temp f_name attach_filename x, x + 1)
    else some (write_separate_attachment_temp f_name attach_filename x, x)

/-- The function `write_separate_attachment(f_name, attach, attach_num, pst)`. -/
def write_separate_attachment (readable : List Nat → Bool) (f_name : List Nat)
    (attach : attach_info) (attach_num : Nat) : Option Stored :=
  if !attach.has_data && !attach.id_found then some Stored.skipped
  else
    match check_filename_buf f_name with
    | none => none
    | some f_name1 =>
      match attach_filename attach.names with
      | none => some (Stored.opened (f_name1 ++ str "-attach" ++ dec attach_num))
      | some name =>
        match write_separate_attachment_loop readable f_name1 name 100000000 0 with
        | none => none
        | some (temp, x) =>
          if x > 99999999 then some Stored.died else some (Stored.opened temp)

/-! ## write_vcard -/

/-- The strings of `pst_item_contact` that `write_vcard` reads, after `pst_convert_utf8_null`;
`none` is a `NULL` pointer.  `birthday` is the time stamp, `none` for `NULL`. -/
structure pst_item_contact where
  fullname : Option (List Nat)
  surname : Option (List Nat)
  first_name : Option (List Nat)
  middle_name : Option (List Nat)
  display_name_prefix : Option (List Nat)
  suffix : Option (List Nat)
  nickname : Option (List Nat)
  address1 : Option (List Nat)
  address2 : Option (List Nat)
  address3 : Option (List Nat)
  birthday : Option Nat
  home_address : Option (List Nat)
  home_po_box : Option (List Nat)
  home_street : Option (List Nat)
  home_city : Option (List Nat)
  home_state : Option (List Nat)
  home_postal_code : Option (List Nat)
  home_country : Option (List Nat)
  business_address : Option (List Nat)
  business_po_box : Option (List Nat)
  business_street : Option (List Nat)
  business_city : Option (List Nat)
  business_state : Option (List Nat)
  business_postal_code : Option (List Nat)
  business_country : Option (List Nat)
  other_address : Option (List Nat)
  other_po_box : Option (List Nat)
  other_street : Option (List Nat)
  other_city : Option (List Nat)
  other_state : Option (List Nat)
  other_postal_code : Option (List Nat)
  other_country : Option (List Nat)
  business_fax : Option (List Nat)
  business_phone : Option (List Nat)
  business_phone2 : Option (List Nat)
  car_phone : Option (List Nat)
  home_fax : Option (List Nat)
  home_phone : Option (List Nat)
  home_phone2 : Option (List Nat)
  isdn_phone : Option (List Nat)
  mobile_phone : Option (List Nat)
  other_phone : Option (List Nat)
  pager_phone : Option (List Nat)
  primary_fax : Option (List Nat)
  primary_phone : Option (List Nat)
  radio_phone : Option (List Nat)
  telex : Option (List Nat)
  job_title : Option (List Nat)
  profession : Option (List Nat)
  assistant_name : Option (List Nat)
  assistant_phone : Option (List Nat)
  company_name : Option (List Nat)

/-- The argument `(!p) ? "" : pst_rfc2426_escape(p, ...)` of a `fprintf` in `write_vcard`. -/
def write_vcard_component (escape : List Nat → List Nat) (p : Option (List Nat)) : List Nat :=
  match p with
  | none => []
  | some s => escape s

/-- The `fprintf` calls of `write_vcard` for one postal address: nothing when the address is
`NULL`, else the seven calls of the `ADR` line and the `LABEL` line. -/
def write_vcard_adr (escape : List Nat → List Nat) (adr_tag label_tag : List Nat)
    (address po_box street city state postal_code country : Option (List Nat)) :
    List (List Nat) :=
  match address with
  | none => []
  | some a =>
    [adr_tag ++ write_vcard_component escape po_box ++ str ";",
      str ";",
      write_vcard_component escape street ++ str ";",
      write_vcard_component escape city ++ str ";",
      write_vcard_component escape state ++ str ";",
      write_vcard_component escape postal_code ++ str ";",
      write_vcard_component escape country ++ str "\n",
      label_tag ++ escape a ++ str "\n"]

/-- The `fprintf` calls of `write_vcard` from `BEGIN:VCARD` to the end of the `N` line.
`escape` is `pst_rfc2426_escape` of libpst, `null_text` is what `fprintf` writes for the `%s`
of the `FN` line when `fullname.str` is `NULL`. -/
def write_vcard_name (escape : List Nat → List Nat) (null_text : List Nat)
    (contact : pst_item_contact) : List (List Nat) :=
  [str "BEGIN:VCARD\n",
    str "FN:" ++ (match contact.fullname with
      | some s => escape s
      | none => null_text) ++ str "\n",
    str "N:" ++ write_vcard_component escape contact.surname ++ str ";",
    write_vcard_component escape contact.first_name ++ str ";",
    write_vcard_component escape contact.middle_name ++ str ";",
    write_vcard_component escape contact.display_name_prefix ++ str ";",
    write_vcard_component escape contact.suffix ++ str "\n"]

/-- The `fprintf` calls of `write_vcard` for the three mail addresses. -/
def write_vcard_email (escape : List Nat → List Nat) (contact : pst_item_contact) :
    List (List Nat) :=
  opt_line (str "EMAIL:") (contact.address1.map escape) ++
  opt_line (str "EMAIL:") (contact.address2.map escape) ++
  opt_line (str "EMAIL:") (contact.address3.map escape)

/-- The `fprintf` calls of `write_vcard` for the three postal addresses. -/
def write_vcard_addresses (escape : List Nat → List Nat) (contact : pst_item_contact) :
    List (List Nat) :=
  write_vcard_adr escape (str "ADR;TYPE=home:") (str "LABEL;TYPE=home:")
    contact.home_address contact.home_po_box contact.home_street contact.home_city
    contact.home_state contact.home_postal_code contact.home_country ++
  write_vcard_adr escape (str "ADR;TYPE=work:") (str "LABEL;TYPE=work:")
    contact.business_address contact.business_po_box contact.business_street
    contact.business_city contact.business_state contact.business_postal_code
    contact.business_country ++
  write_vcard_adr escape (str "ADR;TYPE=postal:") (str "LABEL;TYPE=postal:")
    contact.other_address contact.other_po_box contact.other_street contact.other_city
    contact.other_state contact.other_postal_code contact.other_country

/-- The `fprintf` calls of `write_vcard` for the telephone numbers, from `business_fax` to
`home_phone2`. -/
def write_vcard_tel1 (escape : List Nat → List Nat) (contact : pst_item_contact) :
    List (List Nat) :=
  opt_line (str "TEL;TYPE=work,fax:") (contact.business_fax.map escape) ++
  opt_line (str "TEL;TYPE=work,voice:") (contact.business_phone.map escape) ++
  opt_line (str "TEL;TYPE=work,voice:") (contact.business_phone2.map escape) ++
  opt_line (str "TEL;TYPE=car,voice:") (contact.car_phone.map escape) ++
  opt_line (str "TEL;TYPE=home,fax:") (contact.home_fax.map escape) ++
  opt_line (str "TEL;TYPE=home,voice:") (contact.home_phone.map escape) ++
  opt_line (str "TEL;TYPE=home,voice:") (contact.home_phone2.map escape)

/-- The `fprintf` calls of `write_vcard` for the telephone numbers, from `isdn_phone` to
`telex`. -/
def write_vcard_tel2 (escape : List Nat → List Nat) (contact : pst_item_contact) :
    List (List Nat) :=
  opt_line (str "TEL;TYPE=isdn:") (contact.isdn_phone.map escape) ++
  opt_line (str "TEL;TYPE=cell,voice:") (contact.mobile_phone.map escape) ++
  opt_line (str "TEL;TYPE=msg:") (contact.other_phone.map escape) ++
  opt_line (str "TEL;TYPE=pager:") (contact.pager_phone.map escape) ++
  opt_line (str "TEL;TYPE=fax,pref:") (contact.primary_fax.map escape) ++
  opt_line (str "TEL;TYPE=phone,pref:") (contact.primary_phone.map escape) ++
  opt_line (str "TEL;TYPE=pcs:") (contact.radio_phone.map escape) ++
  opt_line (str "TEL;TYPE=bbs:") (contact.telex.map escape)

/-- The `fprintf` calls of `write_vcard` from `job_title` to the body of the item. -/
def write_vcard_org (escape : List Nat → List Nat) (body : Option (List Nat))
    (contact : pst_item_contact) (comment : Option (List Nat)) : List (List Nat) :=
  opt_line (str "TITLE:") (contact.job_title.map escape) ++
  opt_line (str "ROLE:") (contact.profession.map escape) ++
  (if contact.assistant_name.isSome || contact.assistant_phone.isSome then
    [str "AGENT:BEGIN:VCARD\n"] ++
    opt_line (str "FN:") (contact.assistant_name.map escape) ++
    opt_line (str "TEL:") (contact.assistant_phone.map escape)
  else []) ++
  opt_line (str "ORG:") (contact.company_name.map escape) ++
  opt_line (str "NOTE:") (comment.map escape) ++
  opt_line (str "NOTE:") (body.map escape)

/-- The `fprintf` calls of `write_vcard` after the mail addresses and before `VERSION:3.0`.
`datetime_format` is `pst_rfc2425_datetime_format`. -/
def write_vcard_rest (escape : List Nat → List Nat) (datetime_format : Nat → List Nat)
    (body : Option (List Nat)) (extra_fields : List (List Nat × List Nat))
    (contact : pst_item_contact) (comment : Option (List Nat)) : List (List Nat) :=
  opt_line (str "BDAY:") (contact.birthday.map datetime_format) ++
  write_vcard_addresses escape contact ++
  write_vcard_tel1 escape contact ++
  write_vcard_tel2 escape contact ++
  write_vcard_org escape body contact comment ++
  (write_extra_categories escape extra_fields).1

/-- The `fprintf` calls of `write_vcard(f_output, item, contact, comment)`, one list entry per
call; `body` and `extra_fields` are those of `item`. -/
def write_vcard (escape : List Nat → List Nat) (null_text : List Nat)
    (datetime_format : Nat → List Nat) (body : Option (List Nat))
    (extra_fields : List (List Nat × List Nat)) (contact : pst_item_contact)
    (comment : Option (List Nat)) : List (List Nat) :=
  write_vcard_name escape null_text contact ++
  opt_line (str "NICKNAME:") (contact.nickname.map escape) ++
  write_vcard_email escape contact ++
  write_vcard_rest escape datetime_format body extra_fields contact comment ++
  [str "VERSION:3.0\n", str "END:VCARD\n\n"]

/-- The text of a list of lines, each followed by its LF. -/
def unlines (ls : List (List Nat)) : List Nat := (ls.map (· ++ [10])).flatten

/-- A line of a vCard that is neither an `N` line nor an `EMAIL` line. -/
def OtherLine (l : List Nat) : Prop :=
  10 ∉ l ∧ (str "N:").isPrefixOf l = false ∧ (str "EMAIL:").isPrefixOf l = false

/-- Output that is made of whole lines, none of them an `N` line or an `EMAIL` line. -/
def OtherLines (chunks : List (List Nat)) : Prop :=
  ∃ ls : List (List Nat), chunks.flatten = unlines ls ∧ ∀ l ∈ ls, OtherLine l

/-- A tag that begins a line other than an `N` line or an `EMAIL` line. -/
def PlainTag (tag : List Nat) : Prop :=
  10 ∉ tag ∧ 2 ≤ tag.length ∧ tag.take 2 ≠ str "N:" ∧ tag.take 2 ≠ str "EM"

instance decPlainTag (tag : List Nat) : Decidable (PlainTag tag) := by
  unfold PlainTag
  infer_instance

/-- A contact that has no string at all and no birthday. -/
def empty_contact : pst_item_contact :=
  ⟨none, none, none, none, none, none, none, none, none, none, none, none, none, none, none,
    none, none, none, none, none, none, none, none, none, none, none, none, none, none, none,
    none, none, none, none, none, none, none, none, none, none, none, none, none, none, none,
    none, none, none, none, none, none, none⟩

/-- The number of offsets of a text at which `pat` occurs. -/
def countOccurrences (pat : List Nat) : List Nat → Nat
  | [] => 0
  | c :: t => (if pat.isPrefixOf (c :: t) then 1 else 0) + countOccurrences pat t
/-! ## item_type_to_name and reduced_item_type -/

/-- The constants `PST_TYPE_*` of libpst.h that `item_type_to_name`, `reduced_item_type` and
`create_enter_dir` use. -/
structure pst_types where
  NOTE : Int
  APPOINTMENT : Int
  CONTACT : Int
  JOURNAL : Int
  STICKYNOTE : Int
  TASK : Int
  OTHER : Int
  REPORT : Int
  MAX : Nat

/-- The function `item_type_to_name(item_type)`; the case labels of a `switch` are distinct,
so the order in which they are compared does not matter. -/
def item_type_to_name (k : pst_types) (item_type : Int) : List Nat :=
  if item_type = k.APPOINTMENT then str "calendar"
  else if item_type = k.CONTACT then str "contacts"
  else if item_type = k.JOURNAL then str "journal"
  else str "mbox"

/-- The function `reduced_item_type(item_type)`. -/
def reduced_item_type (k : pst_types) (item_type : Int) : Int :=
  if item_type = k.APPOINTMENT ∨ item_type = k.CONTACT ∨ item_type = k.JOURNAL then item_type
  else k.NOTE

/-- The array `f->name` after the first half of `create_enter_dir`: `memset` has set every
slot to `NULL` (`none`), and the loop `for (t=0; t<PST_TYPE_MAX; t++)` of the mode gives a
name to the slots with `t == reduced_item_type(t)`. -/
def create_enter_dir_names (k : pst_types) (mode : Nat) (file_as : List Nat) :
    List (Option (List Nat)) :=
  (List.range k.MAX).map (fun (t : Nat) =>
    if (t : Int) = reduced_item_type k t then
      some (create_enter_dir_name mode file_as (item_type_to_name k t))
    else none)

/-- Undoing the mboxrd quoting of one line: a line that begins with one or more `>` followed
by `From ` loses its first `>`, any other line is kept. -/
def unquote_from (l : List Nat) : List Nat :=
  if l.head? = some 62 ∧ strncmp_eq (skip_gt l) (str "From ") 5 = true then l.tail else l

/-- Lines as `bodyLines` gives them: every line but the last is ended by its only LF, the
last line holds no LF. -/
def ProperLines : List (List Nat) → Prop
  | [] => False
  | [l] => 10 ∉ l
  | l :: l2 :: ls => (∃ l0, l = l0 ++ [10] ∧ 10 ∉ l0) ∧ ProperLines (l2 :: ls)

/-- The bits of the output-type mask (`OTMODE_*`) of the kinds whose content an item has and
whose type it has: contact 8, mail 1, journal 4, appointment 2.  The types exclude each
other, so there is at most one. -/
def kind_bits (it : pst_item) : List Nat :=
  (if it.contact = true ∧ it.type = pst_type.contact then [8] else []) ++
  (if it.email = true ∧ (it.type = pst_type.note ∨ it.type = pst_type.schedule ∨
      it.type = pst_type.report) then [1] else []) ++
  (if it.journal = true ∧ it.type = pst_type.journal then [4] else []) ++
  (if it.appointment = true ∧ it.type = pst_type.appointment then [2] else [])

/-- The descriptors that are to be counted as skipped: no payload, no item, or an item that
is not a folder with a name and has no kind whose bit is set in the output-type mask (its
kind is disabled, or it is a message store, or of unknown kind, or lacks the content of its
kind). -/
def counts_as_skipped (s : settings) (d : pst_desc_tree) : Bool :=
  match d.desc, d.item with
  | false, _ => true
  | true, none => true
  | true, some it =>
    !(it.folder && it.file_as.isSome) &&
      (kind_bits it).all (fun bit => s.output_type_mode &&& bit = 0)

/-! ## write_inline_attachment -/

/-- The `fprintf` calls of `write_inline_attachment`, one list entry per call, and the output
of `pst_attach_to_file_base64` (`base64`) as one entry.  `mimetype` and `content_id` are the
strings of the attachment, `none` for `NULL`. -/
def write_inline_attachment (a : attach_info) (mimetype content_id : Option (List Nat))
    (boundary base64 : List Nat) : List (List Nat) :=
  if !a.has_data && !a.id_found then []
  else
    [str "\n--" ++ boundary ++ str "\n",
      (match mimetype with
        | none => str "Content-Type: " ++ str "application/octet-stream" ++ str "\n"
        | some m => str "Content-Type: " ++ m ++ str "\n"),
      str "Content-Transfer-Encoding: base64\n"] ++
    (match content_id with
      | some c => [str "Content-ID: <" ++ c ++ str ">\n"]
      | none => []) ++
    (match a.names.filename2, a.names.filename1 with
      | some f2, _ =>
        [str "Content-Disposition: attachment; \n        filename*=" ++ rfc2231_string f2 ++
            str ";\n",
          str "        filename=\"" ++ quote_string f2 ++ str "\"\n\n"]
      | none, some f1 =>
        [str "Content-Disposition: attachment; filename=\"" ++ f1 ++ str "\"\n\n"]
      | none, none => [str "Content-Disposition: inline\n\n"]) ++
    [base64, str "\n\n"]

/-! ## find_rfc822_headers -/

/-- Offset of the first occurrence of `pat` in `s`, as `strstr(s, pat)`. -/
def strstr : List Nat → List Nat → Option Nat
  | [], pat => if pat = [] then some 0 else none
  | c :: t, pat => if pat.isPrefixOf (c :: t) then some 0 else (strstr t pat).map (· + 1)

/-- The call `strstr(s + i, pat)` as an offset in `s`. -/
def strstr_from (s : List Nat) (i : Nat) (pat : List Nat) : Option Nat :=
  (strstr (s.drop i) pat).map (· + i)

/-- The string `RFC822`. -/
def RFC822 : List Nat := str "message/rfc822"

/-- The test `find_rfc822_headers` makes on one sub-block (the text from `headers` up to the
NUL written at `temp[1]`): whether the sub-block is taken as the `message/rfc822` one.  A
`NULL` among the pointers compared makes the comparison fail. -/
def find_rfc822_headers_test (block : List Nat) : Bool :=
  match header_get_field block (str "\nContent-Type:") with
  | none => false
  | some t0 =>
    let t := t0 + 1
    let n := strchr_from block t 10
    let s := strstr_from block t (str ": ")
    let e := strchr_from block t 59
    let e1 : Option Nat :=
      match e, n with
      | none, _ => n
      | some _, none => none
      | some ev, some nv => if ev > nv then some nv else some ev
    match s, e1 with
    | some sv, some ev =>
      if sv < ev then strncasecmp_eq (block.drop (sv + 2)) RFC822 (ev - (sv + 2)) else false
    | _, _ => false

/-- The loop of `find_rfc822_headers`: the text `headers` points to when the loop ends;
`none` is fuel running out. -/
def find_rfc822_headers_loop : Nat → List Nat → Option (List Nat)
  | 0, _ => none
  | fuel + 1, headers =>
    match strstr headers (str "\n\n") with
    | none => some headers
    | some i =>
      if find_rfc822_headers_test (headers.take (i + 1)) then some (headers.drop (i + 2))
      else find_rfc822_headers_loop fuel (headers.drop (i + 2))

/-- The function `find_rfc822_headers(extra_mime_headers)`: the text `*extra_mime_headers`
points to afterwards, inner `none` for `NULL`. -/
def find_rfc822_headers (extra_mime_headers : Option (List Nat)) :
    Option (Option (List Nat)) :=
  match extra_mime_headers with
  | none => some none
  | some h => (find_rfc822_headers_loop (h.length + 1) h).map some

/-! ## write_normal_email: the separator line and the header section -/

/-- What `write_normal_email` reads of the item for the separator line and the header
section, after the conversions to UTF-8; `none` is a `NULL` pointer. -/
structure email_item where
  header : Option (List Nat)
  sender_address : Option (List Nat)
  outlook_sender_name : Option (List Nat)
  subject : Option (List Nat)
  sentto_address : Option (List Nat)
  cc_address : Option (List Nat)
  sent_date : Option Nat
  messageid : Option (List Nat)
  /-- Truth of `(item->flags & PST_FLAG_READ) == PST_FLAG_READ`. -/
  read : Bool

/-- The header block `write_normal_email` selects, after `removeCR` and the cut behind the
first LF of the first blank line. -/
def write_normal_email_headers (item_header extra_mime_headers : Option (List Nat)) :
    Option (List Nat) :=
  let headers := if valid_headers item_header ≠ 0 then item_header
    else if valid_headers extra_mime_headers ≠ 0 then extra_mime_headers else none
  match headers with
  | none => none
  | some h =>
    match strstr (removeCR h) (str "\n\n") with
    | some i => some ((removeCR h).take (i + 1))
    | none => some (removeCR h)

/-- The buffer `sender` of `write_normal_email` when the separator line is written;
`headers` is the selected header block. -/
def write_normal_email_sender (sender_address headers : Option (List Nat)) : List Nat :=
  let sender_known : Bool :=
    match sender_address with
    | some a => (strchr a 64).isSome
    | none => false
  let sender := (if sender_known then sender_address.getD [] else str "MAILER-DAEMON").take 59
  match headers with
  | none => sender
  | some h =>
    if !sender_known then
      match header_get_field h (str "\nFrom:") with
      | none => sender
      | some t0 =>
        match strchr_from h (t0 + 1) 10, strchr_from h (t0 + 1) 60,
            strchr_from h (t0 + 1) 62 with
        | some n, some s, some e =>
          if s < e ∧ e < n then ((h.drop (s + 1)).take (e - (s + 1))).take 59 else sender
        | _, _, _ => sender
    else sender

/-- The seven calls of `header_strip_field` in `write_normal_email`. -/
def write_normal_email_strip (headers : List Nat) : Option (List Nat) :=
  (((((((some headers).bind
    (fun h => header_strip_field h (str "\nMicrosoft Mail Internet Headers"))).bind
    (fun h => header_strip_field h (str "\nMIME-Version:"))).bind
    (fun h => header_strip_field h (str "\nContent-Type:"))).bind
    (fun h => header_strip_field h (str "\nContent-Transfer-Encoding:"))).bind
    (fun h => header_strip_field h (str "\nContent-class:"))).bind
    (fun h => header_strip_field h (str "\nX-MimeOLE:"))).bind
    (fun h => header_strip_field h (str "\nX-From_:"))

/-- The text `c_time` of the separator line.  `ctime d` is what `ctime` gives for the sent
date `d` (`none` for `NULL`), with its LF at the end. -/
def write_normal_email_ctime (ctime : Nat → Option (List Nat)) (sent_date : Option Nat) :
    List Nat :=
  match sent_date with
  | some d =>
    match ctime d with
    | some c => c.dropLast
    | none => str "Thu Jan 1 00:00:00 1970"
  | none => str "Thu Jan 1 00:00:00 1970"

/-- The `fprintf` call for the separator line in `write_normal_email`. -/
def write_normal_email_separator (mode : Nat) (embedding : Bool) (sender c_time : List Nat) :
    List (List Nat) :=
  if mode ≠ MODE_SEPARATE then
    [(if embedding then str ">" else []) ++ str "From \"" ++ sender ++ str "\" " ++ c_time ++
      str "\n"]
  else []

/-- The `fprintf` calls of `write_normal_email` that create the header fields which are not
already written.  The flags are those `header_has_field` has set; `rfc2047 s q` is the string
`pst_rfc2047` leaves for `s`, `strftime d` is the date text for the sent date. -/
def write_normal_email_created (rfc2047 : List Nat → Bool → List Nat)
    (strftime : Nat → List Nat) (item : email_item) (sender : List Nat)
    (has_from has_subject has_to has_cc has_date has_msgid : Nat) : List (List Nat) :=
  (if has_from = 0 then
    [match item.outlook_sender_name with
      | some n => str "From: " ++ rfc2047 n true ++ str " <" ++ sender ++ str ">\n"
      | none => str "From: <" ++ sender ++ str ">\n"]
   else []) ++
  (if has_subject = 0 then
    [match item.subject with
      | some s => str "Subject: " ++ rfc2047 s false ++ str "\n"
      | none => str "Subject: \n"]
   else []) ++
  (if has_to = 0 then opt_line (str "To: ") (item.sentto_address.map (rfc2047 · false))
    else []) ++
  (if has_cc = 0 then opt_line (str "Cc: ") (item.cc_address.map (rfc2047 · false))
    else []) ++
  (if has_date = 0 then opt_line (str "Date: ") (item.sent_date.map strftime) else []) ++
  (if has_msgid = 0 then opt_line (str "Message-Id: ") item.messageid else [])

/-- The value `header_has_field(headers, field, &flag)` leaves in a flag that was 0, when
`headers` may be `NULL` (then the call is not made). -/
def write_normal_email_flag (headers : Option (List Nat)) (field : List Nat) : Nat :=
  match headers with
  | some h => header_has_field h field 0
  | none => 0

/-- The `fprintf` calls of `write_normal_email` behind the separator line, up to the created
header fields: the header block that is left (`stripped`, `none` when no block was
selected), `Status: RO`, and the created fields.  `headers` is the selected block before the
fields are stripped. -/
def write_normal_email_fields (rfc2047 : List Nat → Bool → List Nat)
    (strftime : Nat → List Nat) (item : email_item) (headers stripped : Option (List Nat))
    (sender : List Nat) : List (List Nat) :=
  (match stripped with
    | some h =>
      if h.length > 0 then [h] ++ (if h.getLast? ≠ some 10 then [str "\n"] else [])
      else []
    | none => []) ++
  (if item.read then [str "Status: RO\n"] else []) ++
  write_normal_email_created rfc2047 strftime item sender
    (write_normal_email_flag headers (str "\nFrom:"))
    (write_normal_email_flag headers (str "\nSubject:"))
    (write_normal_email_flag headers (str "\nTo:"))
    (write_normal_email_flag headers (str "\nCC:"))
    (write_normal_email_flag headers (str "\nDate:"))
    (write_normal_email_flag headers (str "\nMessage-Id:"))

/-- The `fprintf` calls of `write_normal_email` from the separator line to the created
header fields, one list entry per call; `none` is fuel running out in
`header_strip_field`. -/
def write_normal_email_head (rfc2047 : List Nat → Bool → List Nat)
    (ctime : Nat → Option (List Nat)) (strftime : Nat → List Nat) (mode : Nat)
    (embedding : Bool) (item : email_item) (extra_mime_headers : Option (List Nat)) :
    Option (List (List Nat)) :=
  let headers := write_normal_email_headers item.header extra_mime_headers
  let sender := write_normal_email_sender item.sender_address headers
  let stripped : Option (Option (List Nat)) :=
    match headers with
    | none => some none
    | some h => (write_normal_email_strip h).map some
  match stripped with
  | none => none
  | some hs =>
    some (write_normal_email_separator mode embedding sender
        (write_normal_email_ctime ctime item.sent_date) ++
      write_normal_email_fields rfc2047 strftime item headers hs sender)

/-! ## Theorems -/

theorem strncmp_eq_begins (q : List Nat) : ∀ p : List Nat,
    strncmp_eq p q q.length = true ↔ ∃ rest, p = q ++ rest := by
  induction q with
  | nil => intro p; simp [strncmp_eq]
  | cons y q ih =>
    intro p
    cases p with
    | nil => simp [strncmp_eq]
    | cons x p =>
      simp only [List.length_cons, strncmp_eq, Bool.and_eq_true, beq_iff_eq, ih, List.cons_append,
        List.cons.injEq]
      constructor
      · rintro ⟨h, r, hr⟩; exact ⟨r, h, hr⟩
      · rintro ⟨r, h, hr⟩; exact ⟨h, r, hr⟩

theorem skip_gt_replicate (k : Nat) (m : List Nat) (hm : m.head? ≠ some 62) :
    skip_gt (List.replicate k 62 ++ m) = m := by
  induction k with
  | zero =>
    cases m with
    | nil => rfl
    | cons c t =>
      have hc : c ≠ 62 := by intro h; apply hm; simp [h]
      simp [skip_gt, hc]
  | succ k ih => simpa [List.replicate_succ, skip_gt] using ih

theorem skip_gt_spec (l : List Nat) :
    ∃ k, l = List.replicate k 62 ++ skip_gt l ∧ (skip_gt l).head? ≠ some 62 := by
  induction l with
  | nil => exact ⟨0, by simp [skip_gt]⟩
  | cons c t ih =>
    by_cases hc : c = 62
    · obtain ⟨k, h1, h2⟩ := ih
      refine ⟨k + 1, ?_, ?_⟩
      · simp only [skip_gt, hc, if_true, List.replicate_succ, List.cons_append]
        rw [← h1]
      · simpa [skip_gt, hc] using h2
    · exact ⟨0, by simp [skip_gt, hc]⟩

theorem from_test_iff (l : List Nat) :
    strncmp_eq (skip_gt l) (str "From ") 5 = true ↔ IsFromLine l := by
  have h5 : (str "From ").length = 5 := by decide
  rw [← h5, strncmp_eq_begins]
  constructor
  · rintro ⟨rest, h⟩
    obtain ⟨k, hk, _⟩ := skip_gt_spec l
    exact ⟨k, rest, by rw [List.append_assoc, ← h, ← hk]⟩
  · rintro ⟨k, rest, h⟩
    refine ⟨rest, ?_⟩
    rw [h, List.append_assoc]
    have hF : str "From " = [70, 114, 111, 109, 32] := by decide
    exact skip_gt_replicate k _ (by simp [hF])

theorem strncmp_eq_first_line (r p : List Nat) (hp : 10 ∉ p) : ∀ (n : Nat) (m : List Nat),
    10 ∈ m → strncmp_eq (m ++ r) p n = strncmp_eq m p n := by
  induction p with
  | nil =>
    intro n m hm
    cases n with
    | zero => simp [strncmp_eq]
    | succ n =>
      cases m with
      | nil => simp at hm
      | cons x m => simp [strncmp_eq]
  | cons y p ih =>
    intro n m hm
    cases n with
    | zero => simp [strncmp_eq]
    | succ n =>
      cases m with
      | nil => simp at hm
      | cons x m =>
        simp only [List.cons_append, strncmp_eq]
        have hy : y ≠ 10 := fun h => hp (by simp [h])
        have hp' : 10 ∉ p := fun h => hp (by simp [h])
        by_cases hx : x = y
        · have hm' : 10 ∈ m := by
            rcases List.mem_cons.mp hm with h | h
            · exact absurd (h.trans hx) (Ne.symm hy)
            · exact h
          have h := ih hp' n m hm'
          simp only [HAppend.hAppend, Append.append] at h ⊢
          rw [h]
        · have hb : (x == y) = false := by simpa using hx
          simp [hb]

theorem skip_gt_first_line (r : List Nat) : ∀ l : List Nat, 10 ∈ l →
    strncmp_eq (skip_gt (l ++ r)) (str "From ") 5 = strncmp_eq (skip_gt l) (str "From ") 5 := by
  intro l
  induction l with
  | nil => intro h; simp at h
  | cons c t ih =>
    intro h
    by_cases hc : c = 62
    · have ht : 10 ∈ t := by
        rcases List.mem_cons.mp h with h | h
        · omega
        · exact h
      simpa [skip_gt, hc] using ih ht
    · simp only [List.cons_append, skip_gt, hc, if_false]
      exact strncmp_eq_first_line r _ (by decide) 5 (c :: t) h

theorem bodyLines_ne_nil (body : List Nat) : bodyLines body ≠ [] := by
  cases body with
  | nil => simp [bodyLines]
  | cons c t =>
    simp only [bodyLines]
    split
    · simp
    · split <;> simp

theorem bodyLines_strchr_none : ∀ body : List Nat, strchr body 10 = none →
    bodyLines body = [body] := by
  intro body
  induction body with
  | nil => intro _; rfl
  | cons c t ih =>
    intro h
    by_cases hc : c = 10
    · simp [strchr, hc] at h
    · simp only [strchr, hc, if_false, Option.map_eq_none'] at h
      simp [bodyLines, hc, ih h]

theorem bodyLines_strchr_some : ∀ (body : List Nat) (i : Nat), strchr body 10 = some i →
    bodyLines body = body.take (i + 1) :: bodyLines (body.drop (i + 1)) ∧
      10 ∈ body.take (i + 1) ∧ i < body.length := by
  intro body
  induction body with
  | nil => intro i h; simp [strchr] at h
  | cons c t ih =>
    intro i h
    by_cases hc : c = 10
    · simp only [strchr, hc, if_true, Option.some.injEq] at h
      subst h
      simp [bodyLines, hc]
    · simp only [strchr, hc, if_false, Option.map_eq_some'] at h
      obtain ⟨j, hj, rfl⟩ := h
      obtain ⟨h1, h2, h3⟩ := ih j hj
      refine ⟨?_, ?_, ?_⟩
      · simp [bodyLines, hc, h1]
      · simp only [List.take_succ_cons, List.mem_cons]
        exact Or.inr h2
      · simp only [List.length_cons]; omega

theorem write_email_body_loop_spec : ∀ (fuel : Nat) (body out : List Nat), body.length < fuel →
    ∃ rest out', write_email_body_loop fuel body out = some (rest, out') ∧
      out' ++ rest = out ++ ((bodyLines body).map quote_line).flatten := by
  intro fuel
  induction fuel with
  | zero => intro body out h; omega
  | succ fuel ih =>
    intro body out h
    simp only [write_email_body_loop]
    cases hs : strchr body 10 with
    | none =>
      refine ⟨body, _, rfl, ?_⟩
      rw [bodyLines_strchr_none body hs]
      simp only [List.map_cons, List.map_nil, List.flatten_cons, List.flatten_nil, List.append_nil,
        quote_line]
      split <;> simp
    | some i =>
      obtain ⟨h1, h2, h3⟩ := bodyLines_strchr_some body i hs
      have hlen : (body.drop (i + 1)).length < fuel := by
        simp only [List.length_drop]; omega
      obtain ⟨rest, out', hr, ho⟩ := ih (body.drop (i + 1))
        ((if strncmp_eq (skip_gt body) (str "From ") 5 then out ++ [62] else out)
          ++ body.take (i + 1)) hlen
      refine ⟨rest, out', hr, ?_⟩
      rw [ho, h1]
      have hb : strncmp_eq (skip_gt body) (str "From ") 5
          = strncmp_eq (skip_gt (body.take (i + 1))) (str "From ") 5 := by
        conv_lhs => rw [← List.take_append_drop (i + 1) body]
        exact skip_gt_first_line _ _ h2
      simp only [List.map_cons, List.flatten_cons, quote_line, hb]
      split <;> simp

theorem bodyLines_join : ∀ body : List Nat, (bodyLines body).flatten = body := by
  intro body
  induction body with
  | nil => rfl
  | cons c t ih =>
    by_cases hc : c = 10
    · simp [bodyLines, hc, ih]
    · simp only [bodyLines, hc, if_false]
      cases hb : bodyLines t with
      | nil => exact absurd hb (bodyLines_ne_nil t)
      | cons l ls =>
        rw [hb] at ih
        simp only [List.flatten_cons] at ih ⊢
        simp [ih]

theorem quote_line_mboxrd (l : List Nat) : MboxrdLine l (quote_line l) := by
  unfold MboxrdLine quote_line
  by_cases h : strncmp_eq (skip_gt l) (str "From ") 5 = true
  · exact Or.inl ⟨(from_test_iff l).mp h, by simp [h]⟩
  · exact Or.inr ⟨fun hl => h ((from_test_iff l).mpr hl), by simp [h]⟩

/-- C1: outside `separate` mode `write_email_body` emits the body line by line, a line that
begins with zero or more `>` followed by `From ` with exactly one extra leading `>` and every
other line unchanged; in `separate` mode the body is emitted byte for byte.  The lines are the
LF-delimited pieces of the body, the last one possibly unterminated. -/
theorem write_email_body_mboxrd (mode : Nat) (body : List Nat) :
    (bodyLines body).flatten = body ∧
    (mode ≠ MODE_SEPARATE → ∃ outLines : List (List Nat),
        List.Forall₂ MboxrdLine (bodyLines body) outLines ∧
        write_email_body mode body = some outLines.flatten) ∧
    (mode = MODE_SEPARATE → write_email_body mode body = some body) := by
  refine ⟨bodyLines_join body, ?_, ?_⟩
  · intro hm
    refine ⟨(bodyLines body).map quote_line, ?_, ?_⟩
    · rw [List.forall₂_map_right_iff]
      exact List.forall₂_same.mpr (fun l _ => quote_line_mboxrd l)
    · obtain ⟨rest, out', hr, ho⟩ :=
        write_email_body_loop_spec (body.length + 1) body [] (Nat.lt_succ_self _)
      simp only [write_email_body, hm, ne_eq, not_false_eq_true, if_true, hr]
      simpa using ho
  · intro hm
    simp [write_email_body, hm]

theorem write_email_body_mboxrd_witness :
    (∃ outLines : List (List Nat),
      List.Forall₂ MboxrdLine (bodyLines (str "a\n>From b\nc")) outLines ∧
      write_email_body MODE_RECURSE (str "a\n>From b\nc") = some outLines.flatten) ∧
    write_email_body MODE_RECURSE (str "a\n>From b\nc") = some (str "a\n>>From b\nc") :=
  ⟨(write_email_body_mboxrd MODE_RECURSE (str "a\n>From b\nc")).2.1 (by decide), by decide⟩

theorem mem_bad_iff (b : Nat) : b ∈ str "/\\:" ↔ (b = 47 ∨ b = 92 ∨ b = 58) := by
  have h : str "/\\:" = [47, 92, 58] := by decide
  simp [h]

theorem strpbrk_none : ∀ (rest acc : List Nat), strpbrk rest acc = none →
    ∀ b ∈ rest, b ∉ acc := by
  intro rest acc
  induction rest with
  | nil => intro _ b hb; simp at hb
  | cons c t ih =>
    intro h b hb
    by_cases hc : c ∈ acc
    · simp [strpbrk, hc] at h
    · simp only [strpbrk, hc, if_false, Option.map_eq_none'] at h
      rcases List.mem_cons.mp hb with rfl | hb
      · exact hc
      · exact ih h b hb

theorem strpbrk_some : ∀ (rest acc : List Nat) (k : Nat), strpbrk rest acc = some k →
    ∃ b, rest = rest.take k ++ b :: rest.drop (k + 1) ∧ b ∈ acc ∧
      ∀ c ∈ rest.take k, c ∉ acc := by
  intro rest acc
  induction rest with
  | nil => intro k h; simp [strpbrk] at h
  | cons c t ih =>
    intro k h
    by_cases hc : c ∈ acc
    · simp only [strpbrk, hc, if_true, Option.some.injEq] at h
      subst h
      exact ⟨c, by simp, hc, by simp⟩
    · simp only [strpbrk, hc, if_false, Option.map_eq_some'] at h
      obtain ⟨j, hj, rfl⟩ := h
      obtain ⟨b, h1, h2, h3⟩ := ih j hj
      refine ⟨b, ?_, h2, ?_⟩
      · simp only [List.take_succ_cons, List.drop_succ_cons, List.cons_append]
        rw [← h1]
      · intro d hd
        simp only [List.take_succ_cons, List.mem_cons] at hd
        rcases hd with rfl | hd
        · exact hc
        · exact h3 d hd

theorem map_sanitize_of_not_bad : ∀ l : List Nat, (∀ c ∈ l, c ∉ str "/\\:") →
    l.map sanitize_byte = l := by
  intro l h
  have : ∀ c ∈ l, sanitize_byte c = c := by
    intro c hc
    have := h c hc
    rw [mem_bad_iff] at this
    simp [sanitize_byte, this]
  calc l.map sanitize_byte = l.map id := List.map_congr_left this
    _ = l := List.map_id l

theorem check_filename_loop_spec : ∀ (fuel : Nat) (done rest : List Nat),
    rest.countP (· ∈ str "/\\:") < fuel →
    check_filename_loop fuel done rest = some (done ++ rest.map sanitize_byte) := by
  intro fuel
  induction fuel with
  | zero => intro done rest h; omega
  | succ fuel ih =>
    intro done rest h
    simp only [check_filename_loop]
    cases hs : strpbrk rest (str "/\\:") with
    | none =>
      simp only
      rw [map_sanitize_of_not_bad rest (strpbrk_none rest _ hs)]
    | some k =>
      simp only
      obtain ⟨b, h1, h2, h3⟩ := strpbrk_some rest _ k hs
      have hcnt : (95 :: rest.drop (k + 1)).countP (· ∈ str "/\\:") < fuel := by
        have h95 : (95 : Nat) ∉ str "/\\:" := by rw [mem_bad_iff]; omega
        rw [h1, List.countP_append, List.countP_cons_of_pos _ _ (by simpa using h2)] at h
        rw [List.countP_cons_of_neg _ _ (by simpa using h95)]
        omega
      rw [ih _ _ hcnt]
      have hb : sanitize_byte b = 95 := by
        have := (mem_bad_iff b).mp h2
        simp [sanitize_byte, this]
      have h95 : sanitize_byte 95 = 95 := by decide
      conv_rhs => rw [h1]
      simp only [List.map_append, List.map_cons, hb, h95, List.append_assoc,
        map_sanitize_of_not_bad _ h3]

theorem check_filename_buf_eq (s : List Nat) :
    check_filename_buf s = some (s.map sanitize_byte) := by
  unfold check_filename_buf
  rw [check_filename_loop_spec]
  · simp
  · exact Nat.lt_succ_of_le (List.countP_le_length _)

theorem sanitized_map (s : List Nat) : Sanitized (s.map sanitize_byte) := by
  intro b hb
  obtain ⟨a, _, rfl⟩ := List.mem_map.mp hb
  unfold sanitize_byte
  split <;> omega

theorem create_enter_dir_bump_fuel (files : List (List Nat)) (name : List Nat) :
    ∀ (fuel : Nat) (temp : List Nat) (x : Nat), x < 99999999 → 99999999 ≤ x + fuel →
      create_enter_dir_bump files name fuel temp x ≠ Bump.nofuel := by
  intro fuel
  induction fuel with
  | zero => intro temp x h1 h2; omega
  | succ fuel ih =>
    intro temp x h1 h2
    simp only [create_enter_dir_bump]
    by_cases hf : temp ∈ files
    · by_cases hx : x + 1 = 99999999
      · simp [hf, hx]
      · simp only [hf, hx, if_true, if_false]
        exact ih _ _ (by omega) (by omega)
    · simp [hf]

theorem create_enter_dir_total (mode : Nat) (overwrite : Bool) (files : List (List Nat))
    (file_as kind : List Nat) :
    create_enter_dir mode overwrite files file_as kind ≠ Opened.nofuel := by
  unfold create_enter_dir
  simp only [check_filename_buf_eq]
  split
  · split
    · have hb := create_enter_dir_bump_fuel files (create_enter_dir_name mode file_as kind)
        100000000 ((create_enter_dir_name mode file_as kind).map sanitize_byte) 0
        (by omega) (by omega)
      split
      · next h => exact absurd h hb
      · simp
      · simp
    · simp
  · simp

theorem create_enter_dir_sanitized (mode : Nat) (overwrite : Bool) (files : List (List Nat))
    (file_as kind n : List Nat)
    (h : create_enter_dir mode overwrite files file_as kind = Opened.file n) : Sanitized n := by
  unfold create_enter_dir at h
  simp only [check_filename_buf_eq] at h
  split at h
  · split at h
    · split at h
      · simp at h
      · simp at h
      · simp only [Opened.file.injEq] at h
        rw [← h]; exact sanitized_map _
    · simp only [Opened.file.injEq] at h
      rw [← h]; exact sanitized_map _
  · simp at h

/-- C2: `check_filename` keeps the length of the string, replaces every `/`, `\` and `:` by
`_` and leaves every other byte unchanged, so the result has none of the three; a NULL
argument is a no-op.  Every name that `mk_kmail_dir`, `mk_recurse_dir`, `mk_separate_dir`
and `mk_separate_file` pass to `mkdir` or open for writing, and every name that
`create_enter_dir` opens for writing, is free of the three characters. -/
theorem check_filename_sanitizes :
    check_filename none = some none ∧
    (∀ s : List Nat, check_filename (some s) = some (some (s.map sanitize_byte)) ∧
      (s.map sanitize_byte).length = s.length ∧ Sanitized (s.map sanitize_byte)) ∧
    (∀ fname : List Nat, ∃ n, mk_kmail_dir fname = some n ∧ Sanitized n) ∧
    (∀ dir : List Nat, ∃ n, mk_recurse_dir dir = some n ∧ Sanitized n) ∧
    (∀ (dir : List Nat) (y : Nat), ∃ n, mk_separate_dir dir y = some n ∧ Sanitized n) ∧
    (∀ (item_count : Nat) (extension : List Nat), item_count ≤ 999999999 →
      ∃ n, mk_separate_file item_count extension = some (some n) ∧ Sanitized n) ∧
    (∀ (mode : Nat) (overwrite : Bool) (files : List (List Nat)) (file_as kind : List Nat),
      create_enter_dir mode overwrite files file_as kind ≠ Opened.nofuel ∧
      ∀ n, create_enter_dir mode overwrite files file_as kind = Opened.file n →
        Sanitized n) := by
  refine ⟨rfl, ?_, ?_, ?_, ?_, ?_, ?_⟩
  · intro s
    exact ⟨by simp [check_filename, check_filename_buf_eq], by simp, sanitized_map s⟩
  · intro fname
    exact ⟨_, check_filename_buf_eq _, sanitized_map _⟩
  · intro dir
    exact ⟨_, check_filename_buf_eq _, sanitized_map _⟩
  · intro dir y
    exact ⟨_, check_filename_buf_eq _, sanitized_map _⟩
  · intro item_count extension h
    refine ⟨_, ?_, sanitized_map (dec item_count ++ extension)⟩
    have : ¬ item_count > 999999999 := by omega
    simp [mk_separate_file, this, check_filename_buf_eq]
  · intro mode overwrite files file_as kind
    exact ⟨create_enter_dir_total mode overwrite files file_as kind,
      fun n h => create_enter_dir_sanitized mode overwrite files file_as kind n h⟩

theorem check_filename_sanitizes_witness :
    create_enter_dir MODE_NORMAL false [] (str "a/b") (str "mbox")
        = Opened.file (str "a_b.mbox") ∧ Sanitized (str "a_b.mbox") :=
  ⟨by decide, (check_filename_sanitizes.2.2.2.2.2.2 MODE_NORMAL false [] (str "a/b")
    (str "mbox")).2 (str "a_b.mbox") (by decide)⟩

/-- C3: in normal mode with overwrite off, for the folder name `a:b` and the existing files
`a_b.mbox` and `a_b.mbox00000001`, `create_enter_dir` probes `a_b.mbox` (taken), then the
unchecked name `a:b.mbox00000001` (free), and finally opens the checked name
`a_b.mbox00000001` for writing, which is one of the existing files. -/
theorem create_enter_dir_opens_existing_file :
    create_enter_dir MODE_NORMAL false [str "a_b.mbox", str "a_b.mbox00000001"]
        (str "a:b") (str "mbox") = Opened.file (str "a_b.mbox00000001") ∧
      str "a_b.mbox00000001" ∈ [str "a_b.mbox", str "a_b.mbox00000001"] := by
  decide

/-- C4: for the one-byte string holding LF (0x0A), a byte outside the attr-char set,
`rfc2231_string` returns `utf-8''% a`: the conversion `%2x` pads with a blank, so the byte
is not rendered as `%0a`. -/
theorem rfc2231_string_pads_with_blank :
    rfc2231_string [10] = str "utf-8''% a" ∧ rfc2231_string [10] ≠ str "utf-8''%0a" := by
  decide

theorem snprintf_2x_length (v : Nat) : (snprintf_2x v).length = 2 := by
  unfold snprintf_2x
  split <;> rfl

theorem rfc2231_needs_eq_countP (s : List Nat) :
    rfc2231_needs s = s.countP (fun b => is_attribute_char (int8 b) = 0) := by
  induction s with
  | nil => rfl
  | cons b t ih =>
    by_cases h : is_attribute_char (int8 b) = 0
    · simp [rfc2231_needs, h, ih]
    · simp [rfc2231_needs, h, ih]

theorem rfc2231_loop_length (s : List Nat) :
    (rfc2231_loop s).length = s.length + 2 * rfc2231_needs s := by
  induction s with
  | nil => rfl
  | cons b t ih =>
    by_cases h : is_attribute_char (int8 b) = 0
    · simp only [rfc2231_loop, rfc2231_needs, h, if_true, List.length_cons, List.length_append,
        snprintf_2x_length, ih]
      omega
    · simp only [rfc2231_loop, rfc2231_needs, h, if_false, List.length_cons, ih]
      omega

theorem is_attribute_char_iff (b : Nat) (hb : b < 256) :
    is_attribute_char (int8 b) = 1 ↔
      ((65 ≤ b ∧ b ≤ 90) ∨ (97 ≤ b ∧ b ≤ 122) ∨ (48 ≤ b ∧ b ≤ 57) ∨
        b ∈ str "!#$&+-.^_`|~") := by
  have hs : str "!#$&+-.^_`|~" = [33, 35, 36, 38, 43, 45, 46, 94, 95, 96, 124, 126] := by
    decide
  rw [hs]
  have hm : b % 256 = b := Nat.mod_eq_of_lt hb
  simp only [is_attribute_char, int8, hm, List.mem_cons, List.mem_singleton, List.not_mem_nil,
    or_false]
  split_ifs
  all_goals constructor <;> intro h <;> first | rfl | contradiction | omega

theorem is_attribute_char_zero_or_one (x : Int) :
    is_attribute_char x = 0 ∨ is_attribute_char x = 1 := by
  unfold is_attribute_char
  split_ifs <;> simp

/-- C5: `rfc2231_string(s)` begins with the seven characters `utf-8''`, its length is
`7 + len(s) + 2*k` where `k`, the counter of the first loop, is the number of bytes of `s`
that `is_attribute_char` rejects, and it fits (with its NUL) the `len(s) + 2*k + 15` bytes
allocated.  `is_attribute_char` accepts exactly A-Z, a-z, 0-9 and the twelve punctuation
bytes, and rejects every other byte: blank, `%`, `*`, both quotes and every byte from 0x80. -/
theorem rfc2231_string_shape :
    (∀ s : List Nat,
      (rfc2231_string s).take 7 = str "utf-8''" ∧
      rfc2231_needs s = s.countP (fun b => is_attribute_char (int8 b) = 0) ∧
      (rfc2231_string s).length = 7 + s.length + 2 * rfc2231_needs s ∧
      (rfc2231_string s).length + 1 ≤ rfc2231_alloc s) ∧
    (∀ b : Nat, b < 256 →
      (is_attribute_char (int8 b) = 1 ↔
        ((65 ≤ b ∧ b ≤ 90) ∨ (97 ≤ b ∧ b ≤ 122) ∨ (48 ≤ b ∧ b ≤ 57) ∨
          b ∈ str "!#$&+-.^_`|~")) ∧
      (is_attribute_char (int8 b) = 0 ∨ is_attribute_char (int8 b) = 1)) ∧
    (∀ b ∈ str " %*'\"", is_attribute_char (int8 b) = 0) ∧
    (∀ b : Nat, 128 ≤ b → b < 256 → is_attribute_char (int8 b) = 0) := by
  refine ⟨?_, ?_, ?_, ?_⟩
  · intro s
    have h7 : (str "utf-8''").length = 7 := by decide
    refine ⟨?_, rfc2231_needs_eq_countP s, ?_, ?_⟩
    · unfold rfc2231_string
      rw [← h7, List.take_left]
    · unfold rfc2231_string
      rw [List.length_append, h7, rfc2231_loop_length]
      omega
    · unfold rfc2231_string rfc2231_alloc
      rw [List.length_append, h7, rfc2231_loop_length]
      omega
  · intro b hb
    exact ⟨is_attribute_char_iff b hb, is_attribute_char_zero_or_one _⟩
  · decide
  · intro b h1 h2
    have hm : b % 256 = b := Nat.mod_eq_of_lt h2
    simp only [is_attribute_char, int8, hm]
    split_ifs <;> omega

theorem rfc2231_string_shape_witness :
    is_attribute_char (int8 233) = 0 ∧ (rfc2231_string [233]).length = 7 + 1 + 2 * 1 :=
  ⟨rfc2231_string_shape.2.2.2 233 (by decide) (by decide), by decide⟩

theorem quote_string_count_eq (s : List Nat) :
    quote_string_count s = (s.length, s.countP (fun c => c = 34 ∨ c = 92)) := by
  induction s with
  | nil => rfl
  | cons c t ih =>
    by_cases h : c = 34 ∨ c = 92
    · simp [quote_string_count, ih, h]
    · simp [quote_string_count, ih, h]

theorem quote_string_length (s : List Nat) :
    (quote_string s).length = s.length + s.countP (fun c => c = 34 ∨ c = 92) := by
  induction s with
  | nil => rfl
  | cons c t ih =>
    by_cases h : c = 34 ∨ c = 92
    · simp [quote_string, ih, h]; omega
    · simp [quote_string, ih, h]; omega

theorem quote_string_flatMap (s : List Nat) :
    quote_string s = s.flatMap (fun c => if c = 34 ∨ c = 92 then [92, c] else [c]) := by
  induction s with
  | nil => rfl
  | cons c t ih =>
    by_cases h : c = 34 ∨ c = 92
    · simp [quote_string, ih, h]
    · simp [quote_string, ih, h]

theorem unquote_quote_string (s : List Nat) : unquote (quote_string s) = s := by
  induction s with
  | nil => rfl
  | cons c t ih =>
    by_cases h : c = 34 ∨ c = 92
    · simp [quote_string, h, unquote, ih]
    · have hc : c ≠ 92 := fun h' => h (Or.inr h')
      simp only [quote_string, h, if_false]
      cases hq : quote_string t with
      | nil =>
        rw [hq] at ih
        simp only [unquote] at ih ⊢
        rw [← ih]
      | cons d r =>
        rw [hq] at ih
        simp only [unquote, hc, if_false, ih]

/-- C6: `quote_string(s)` is `s` with one backslash put before each `"` and each `\` and
nothing else changed; its length is `len(s)` plus the number of those bytes, which with the
NUL is what the first loop allocates; reading it back by dropping the backslash of every
backslash pair returns `s`. -/
theorem quote_string_spec (s : List Nat) :
    quote_string s = s.flatMap (fun c => if c = 34 ∨ c = 92 then [92, c] else [c]) ∧
    (quote_string s).length = s.length + s.countP (fun c => c = 34 ∨ c = 92) ∧
    (quote_string s).length + 1 = quote_string_alloc s ∧
    unquote (quote_string s) = s := by
  refine ⟨quote_string_flatMap s, quote_string_length s, ?_, unquote_quote_string s⟩
  rw [quote_string_length]
  simp [quote_string_alloc, quote_string_count_eq]

theorem pst_stricmp_eq_iff : ∀ a b : List Nat,
    pst_stricmp_eq a b = true ↔ a.map toupper = b.map toupper := by
  intro a
  induction a with
  | nil => intro b; cases b <;> simp [pst_stricmp_eq]
  | cons x a ih =>
    intro b
    cases b with
    | nil => simp [pst_stricmp_eq]
    | cons y b => simp [pst_stricmp_eq, ih]

theorem commaEntries_ne_nil (l : List Nat) : commaEntries l ≠ [] := by
  cases l with
  | nil => simp [commaEntries]
  | cons c t =>
    simp only [commaEntries]
    split
    · simp
    · split <;> simp

theorem main_a_loop_entries : ∀ optarg : List Nat,
    main_a_loop optarg ++ [0] = (commaEntries optarg).flatMap (· ++ [0]) := by
  intro optarg
  induction optarg with
  | nil => rfl
  | cons c t ih =>
    by_cases hc : c = 44
    · simp [main_a_loop, commaEntries, hc, ih]
    · simp only [main_a_loop, commaEntries, hc, if_false, List.cons_append, ih]
      cases hE : commaEntries t with
      | nil => exact absurd hE (commaEntries_ne_nil t)
      | cons l ls => simp

theorem commaEntries_mem : ∀ (optarg : List Nat), ∀ en ∈ commaEntries optarg, ∀ b ∈ en,
    b ∈ optarg := by
  intro optarg
  induction optarg with
  | nil => intro en hen b hb; simp [commaEntries] at hen; subst hen; simp at hb
  | cons c t ih =>
    intro en hen b hb
    by_cases hc : c = 44
    · simp only [commaEntries, hc, if_true, List.mem_cons] at hen
      rcases hen with rfl | hen
      · simp at hb
      · exact List.mem_cons_of_mem _ (ih en hen b hb)
    · simp only [commaEntries, hc, if_false] at hen
      cases hE : commaEntries t with
      | nil => exact absurd hE (commaEntries_ne_nil t)
      | cons l ls =>
        rw [hE] at hen ih
        simp only [List.mem_cons] at hen
        rcases hen with rfl | hen
        · rcases List.mem_cons.mp hb with rfl | hb
          · simp
          · exact List.mem_cons_of_mem _ (ih l (by simp) b hb)
        · exact List.mem_cons_of_mem _ (ih en (by simp [hen]) b hb)

theorem cstr_append_nul : ∀ (en r : List Nat), 0 ∉ en → cstr (en ++ 0 :: r) = en := by
  intro en r
  induction en with
  | nil => intro _; simp [cstr]
  | cons x en ih =>
    intro h
    have hx : x ≠ 0 := fun h' => h (by simp [h'])
    have hen : 0 ∉ en := fun h' => h (by simp [h'])
    have := ih hen
    simp only [cstr] at this ⊢
    rw [List.cons_append, List.takeWhile_cons]
    have hd : decide (x ≠ 0) = true := by simpa using hx
    simp only [hd, if_true]
    rw [this]

theorem acceptable_ext_loop_spec (e : List Nat) : ∀ (E : List (List Nat)),
    (∀ en ∈ E, en ≠ [] ∧ 0 ∉ en) → ∀ fuel : Nat, E.length < fuel →
    acceptable_ext_loop e fuel (E.flatMap (· ++ [0]) ++ [0]) =
      some (if ∃ en ∈ E, pst_stricmp_eq en e = true then 1 else 0) := by
  intro E
  induction E with
  | nil =>
    intro _ fuel hf
    cases fuel with
    | zero => simp at hf
    | succ fuel => simp [acceptable_ext_loop]
  | cons en E ih =>
    intro hE fuel hf
    cases fuel with
    | zero => simp at hf
    | succ fuel =>
      obtain ⟨hne, h0⟩ := hE en (by simp)
      have hE' : ∀ en' ∈ E, en' ≠ [] ∧ 0 ∉ en' := fun en' h => hE en' (by simp [h])
      have hbuf : (en :: E).flatMap (· ++ [0]) ++ [0]
          = en ++ 0 :: (E.flatMap (· ++ [0]) ++ [0]) := by simp
      rw [hbuf]
      have hcs := cstr_append_nul en (E.flatMap (· ++ [0]) ++ [0]) h0
      have hhead : (en ++ 0 :: (E.flatMap (· ++ [0]) ++ [0])).headD 0 ≠ 0 := by
        cases en with
        | nil => exact absurd rfl hne
        | cons x en' =>
          simp only [List.cons_append, List.headD_cons]
          exact fun h' => h0 (by simp [h'])
      simp only [acceptable_ext_loop, hhead, if_false, hcs]
      by_cases hm : pst_stricmp_eq en e = true
      · simp [hm]
      · have hdrop : (en ++ 0 :: (E.flatMap (· ++ [0]) ++ [0])).drop (en.length + 1)
            = E.flatMap (· ++ [0]) ++ [0] := by
          rw [List.drop_append_eq_append_drop]
          simp
        simp only [hm, hdrop]
        rw [ih hE' fuel (by simpa using hf)]
        simp [hm]

theorem strrchr_none : ∀ (l : List Nat) (c : Nat), c ∉ l → strrchr l c = none := by
  intro l c
  induction l with
  | nil => intro _; rfl
  | cons b t ih =>
    intro h
    have hb : b ≠ c := fun h' => h (by simp [h'])
    have ht : c ∉ t := fun h' => h (by simp [h'])
    simp [strrchr, ih ht, hb]

theorem strrchr_last : ∀ (pre ext : List Nat) (c : Nat), c ∉ ext →
    strrchr (pre ++ c :: ext) c = some pre.length := by
  intro pre ext c h
  induction pre with
  | nil => simp [strrchr, strrchr_none ext c h]
  | cons b t ih => simp [strrchr, ih]

theorem flatMap_length_ge : ∀ E : List (List Nat),
    E.length ≤ (E.flatMap (· ++ [0])).length := by
  intro E
  induction E with
  | nil => simp
  | cons en E ih => simp only [List.flatMap_cons, List.length_append, List.length_cons]; omega

theorem acceptable_ext_general (optarg : List Nat) (attach : pst_item_attach)
    (pre ext : List Nat) (h0 : ∀ b ∈ optarg, b ≠ 0)
    (hne : ∀ en ∈ commaEntries optarg, en ≠ [])
    (hname : attach_filename attach = some (pre ++ 46 :: ext)) (hext : 46 ∉ ext) :
    acceptable_ext (some (main_a_option optarg)) attach =
      some (if ∃ en ∈ commaEntries optarg, en.map toupper = (46 :: ext).map toupper
        then 1 else 0) := by
  have hbuf : main_a_option optarg = (commaEntries optarg).flatMap (· ++ [0]) ++ [0] := by
    unfold main_a_option
    rw [← main_a_loop_entries]
    simp
  have hE : ∀ en ∈ commaEntries optarg, en ≠ [] ∧ 0 ∉ en := by
    intro en hen
    exact ⟨hne en hen, fun h => h0 0 (commaEntries_mem optarg en hen 0 h) rfl⟩
  have hhead : (main_a_option optarg).headD 0 ≠ 0 := by
    rw [hbuf]
    cases hC : commaEntries optarg with
    | nil => exact absurd hC (commaEntries_ne_nil optarg)
    | cons en E =>
      have := hE en (by simp [hC])
      cases en with
      | nil => exact absurd rfl this.1
      | cons x en' =>
        simp only [List.flatMap_cons, List.cons_append, List.headD_cons]
        exact fun h' => this.2 (by simp [h'])
  simp only [acceptable_ext, hhead, if_false, hname, strrchr_last pre ext 46 hext,
    List.drop_left]
  rw [hbuf, acceptable_ext_loop_spec _ _ hE]
  · simp only [pst_stricmp_eq_iff]
  · have := flatMap_length_ge (commaEntries optarg)
    simp only [List.length_append, List.length_cons, List.length_nil]
    omega

/-- C7 as stated fails: with `-a txt,pdf` the attachment `a.txt` is discarded, although `txt`,
the part of the name after its last `.`, is an entry of the list. -/
theorem acceptable_ext_bare_extension_discarded :
    acceptable_ext (some (main_a_option (str "txt,pdf"))) ⟨none, some (str "a.txt")⟩ = some 0 ∧
      str "txt" ∈ commaEntries (str "txt,pdf") := by
  decide

/-- C7 amended: with `-a` given a comma-separated list of non-empty entries, `acceptable_ext`
keeps an attachment whose file name has a `.` if and only if the suffix of the name that
starts at its last `.`, the dot included, equals some entry of the list ignoring case, and
discards it otherwise; with the list `.txt,.pdf` the attachments `a.txt` and `c.PDF` are kept
and `b.exe` is discarded. -/
theorem acceptable_ext_dotted_suffix :
    (∀ (optarg : List Nat) (attach : pst_item_attach) (pre ext : List Nat),
      (∀ b ∈ optarg, b ≠ 0) → (∀ en ∈ commaEntries optarg, en ≠ []) →
      attach_filename attach = some (pre ++ 46 :: ext) → 46 ∉ ext →
      (acceptable_ext (some (main_a_option optarg)) attach = some 1 ↔
        ∃ en ∈ commaEntries optarg, en.map toupper = (46 :: ext).map toupper) ∧
      (acceptable_ext (some (main_a_option optarg)) attach = some 0 ↔
        ¬ ∃ en ∈ commaEntries optarg, en.map toupper = (46 :: ext).map toupper)) ∧
    acceptable_ext (some (main_a_option (str ".txt,.pdf"))) ⟨none, some (str "a.txt")⟩
      = some 1 ∧
    acceptable_ext (some (main_a_option (str ".txt,.pdf"))) ⟨none, some (str "c.PDF")⟩
      = some 1 ∧
    acceptable_ext (some (main_a_option (str ".txt,.pdf"))) ⟨none, some (str "b.exe")⟩
      = some 0 := by
  refine ⟨?_, by decide, by decide, by decide⟩
  intro optarg attach pre ext h0 hne hname hext
  rw [acceptable_ext_general optarg attach pre ext h0 hne hname hext]
  by_cases h : ∃ en ∈ commaEntries optarg, en.map toupper = (46 :: ext).map toupper
  · simp only [h, if_true]
    exact ⟨by simp, by simp⟩
  · simp only [h, if_false]
    exact ⟨by simp, by simp⟩

theorem acceptable_ext_dotted_suffix_witness :
    acceptable_ext (some (main_a_option (str ".txt,.pdf"))) ⟨none, some (str "c.PDF")⟩
      = some 1 :=
  ((acceptable_ext_dotted_suffix.1 (str ".txt,.pdf") ⟨none, some (str "c.PDF")⟩ (str "c")
    (str "PDF") (by decide) (by decide) (by decide) (by decide)).1).mpr
    ⟨str ".pdf", by decide, by decide⟩

/-- C8: whatever the list holds, `acceptable_ext` returns 1 for an attachment with neither a
long nor a short file name and for an attachment whose chosen file name (the long one when
present, otherwise the short one) has no `.`; it returns 1 for every attachment when no list
is configured and when the list is empty (its first byte is NUL, as after `-a ""`). -/
theorem acceptable_ext_always_passes :
    (∀ (exts : Option (List Nat)) (attach : pst_item_attach),
      attach.filename1 = none → attach.filename2 = none →
      acceptable_ext exts attach = some 1) ∧
    (∀ (exts : Option (List Nat)) (attach : pst_item_attach) (name : List Nat),
      attach_filename attach = some name → 46 ∉ name →
      acceptable_ext exts attach = some 1) ∧
    (∀ attach : pst_item_attach, acceptable_ext none attach = some 1) ∧
    (∀ (buf : List Nat) (attach : pst_item_attach), buf.headD 0 = 0 →
      acceptable_ext (some buf) attach = some 1) ∧
    (∀ attach : pst_item_attach, acceptable_ext (some (main_a_option [])) attach = some 1) := by
  refine ⟨?_, ?_, ?_, ?_, ?_⟩
  · intro exts attach h1 h2
    cases exts with
    | none => rfl
    | some buf =>
      have hn : attach_filename attach = none := by simp [attach_filename, h1, h2]
      simp only [acceptable_ext, hn]
      split <;> rfl
  · intro exts attach name hname hdot
    cases exts with
    | none => rfl
    | some buf =>
      simp only [acceptable_ext, hname, strrchr_none name 46 hdot]
      split <;> rfl
  · intro attach; rfl
  · intro buf attach h
    simp only [acceptable_ext, h, if_true]
  · intro attach; rfl

theorem acceptable_ext_always_passes_witness :
    acceptable_ext (some (main_a_option (str ".txt,.pdf"))) ⟨some (str "noext"), none⟩
      = some 1 :=
  acceptable_ext_always_passes.2.1 (some (main_a_option (str ".txt,.pdf")))
    ⟨some (str "noext"), none⟩ (str "noext") (by decide) (by decide)

theorem header_field_name_iff : ∀ t v : List Nat,
    header_field_name t = some v ↔ ∃ name, t = name ++ 58 :: v ∧ ∀ c ∈ name, IsNameByte c := by
  intro t
  induction t with
  | nil =>
    intro v
    simp only [header_field_name]
    constructor
    · intro h; cases h
    · rintro ⟨name, h, _⟩
      cases name <;> simp at h
  | cons c t ih =>
    intro v
    by_cases hc : (65 ≤ c ∧ c ≤ 90) ∨ (97 ≤ c ∧ c ≤ 122) ∨ (48 ≤ c ∧ c ≤ 57) ∨ c = 45
    · simp only [header_field_name, hc, if_true, ih]
      constructor
      · rintro ⟨name, h1, h2⟩
        refine ⟨c :: name, by simp [h1], ?_⟩
        intro d hd
        rcases List.mem_cons.mp hd with rfl | hd
        · exact hc
        · exact h2 d hd
      · rintro ⟨name, h1, h2⟩
        cases name with
        | nil =>
          simp only [List.nil_append, List.cons.injEq] at h1
          omega
        | cons d name =>
          simp only [List.cons_append, List.cons.injEq] at h1
          exact ⟨name, h1.2, fun e he => h2 e (by simp [he])⟩
    · simp only [header_field_name, hc, if_false]
      by_cases h58 : c = 58
      · simp only [h58, if_true, Option.some.injEq]
        constructor
        · rintro rfl
          exact ⟨[], by simp, by simp⟩
        · rintro ⟨name, h1, h2⟩
          cases name with
          | nil =>
            simp only [List.nil_append, List.cons.injEq] at h1
            exact h1.2
          | cons d name =>
            simp only [List.cons_append, List.cons.injEq] at h1
            have := h2 d (by simp)
            unfold IsNameByte at this
            omega
      · simp only [h58, if_false]
        constructor
        · intro h; cases h
        rintro ⟨name, h1, h2⟩
        cases name with
        | nil =>
          simp only [List.nil_append, List.cons.injEq] at h1
          exact absurd h1.1 h58
        | cons d name =>
          simp only [List.cons_append, List.cons.injEq] at h1
          have := h2 d (by simp)
          rw [← h1.1] at this
          exact absurd this hc

theorem header_field_value_cons (c : Nat) (t : List Nat) :
    header_field_value (c :: t) =
      if (33 ≤ c ∧ c ≤ 126) ∨ (c = 32 ∨ c = 9) then header_field_value t
      else if c = 13 then
        match t with
        | [] => 0
        | [n] => if n = 10 then 1 else 0
        | n :: d :: u =>
          if n = 10 then
            if d = 32 ∨ d = 9 then header_field_value u else 1
          else 0
      else 0 := by
  rcases t with _ | ⟨n, _ | ⟨d, u⟩⟩ <;> simp [header_field_value]

theorem header_field_value_complete : ∀ value : List Nat, FieldValue value →
    ∀ rest : List Nat, rest.head? ≠ some 32 → rest.head? ≠ some 9 →
    header_field_value (value ++ 13 :: 10 :: rest) = 1 := by
  intro value hv
  induction hv with
  | nil =>
    intro rest h1 h2
    cases rest with
    | nil => simp [header_field_value_cons]
    | cons d u =>
      have hd : ¬ (d = 32 ∨ d = 9) := by
        intro h
        rcases h with rfl | rfl
        · exact h1 rfl
        · exact h2 rfl
      simp [header_field_value_cons, hd]
  | byte c v hc _ ih =>
    intro rest h1 h2
    have hc' : (33 ≤ c ∧ c ≤ 126) ∨ (c = 32 ∨ c = 9) := hc
    rw [List.cons_append, header_field_value_cons]
    simp only [hc', if_true]
    exact ih rest h1 h2
  | fold w v hw _ ih =>
    intro rest h1 h2
    rw [List.cons_append, header_field_value_cons]
    simp only [List.cons_append, hw, if_true]
    simpa using ih rest h1 h2

theorem header_field_value_sound : ∀ (n : Nat) (v : List Nat), v.length ≤ n →
    header_field_value v = 1 →
    ∃ value rest, v = value ++ 13 :: 10 :: rest ∧ FieldValue value ∧
      rest.head? ≠ some 32 ∧ rest.head? ≠ some 9 := by
  intro n
  induction n with
  | zero =>
    intro v hl h
    have : v = [] := List.length_eq_zero.mp (Nat.le_zero.mp hl)
    subst this
    simp [header_field_value] at h
  | succ n ih =>
    intro v hl h
    cases v with
    | nil => simp [header_field_value] at h
    | cons c t =>
      simp only [List.length_cons] at hl
      by_cases hc : (33 ≤ c ∧ c ≤ 126) ∨ (c = 32 ∨ c = 9)
      · rw [header_field_value_cons] at h
        simp only [hc, if_true] at h
        obtain ⟨value, rest, h1, h2, h3⟩ := ih t (by omega) h
        exact ⟨c :: value, rest, by simp [h1], FieldValue.byte c value hc h2, h3⟩
      · rw [header_field_value_cons] at h
        simp only [hc, if_false] at h
        by_cases h13 : c = 13
        · subst h13
          simp only [if_true] at h
          cases t with
          | nil => simp at h
          | cons m t' =>
            cases t' with
            | nil =>
              simp only at h
              by_cases hm : m = 10
              · subst hm
                exact ⟨[], [], by simp, FieldValue.nil, by simp, by simp⟩
              · simp [hm] at h
            | cons d u =>
              simp only at h
              by_cases hm : m = 10
              · subst hm
                simp only [if_true] at h
                by_cases hd : d = 32 ∨ d = 9
                · simp only [hd, if_true] at h
                  simp only [List.length_cons] at hl
                  obtain ⟨value, rest, h1, h2, h3⟩ := ih u (by omega) h
                  exact ⟨13 :: 10 :: d :: value, rest, by simp [h1],
                    FieldValue.fold d value hd h2, h3⟩
                · refine ⟨[], d :: u, by simp, FieldValue.nil, ?_, ?_⟩
                  · simp only [List.head?_cons, ne_eq, Option.some.injEq]
                    exact fun h' => hd (Or.inl h')
                  · simp only [List.head?_cons, ne_eq, Option.some.injEq]
                    exact fun h' => hd (Or.inr h')
              · simp [hm] at h
        · simp [h13] at h

theorem header_field_value_zero_or_one : ∀ (n : Nat) (v : List Nat), v.length ≤ n →
    header_field_value v = 0 ∨ header_field_value v = 1 := by
  intro n
  induction n with
  | zero =>
    intro v hl
    have : v = [] := List.length_eq_zero.mp (Nat.le_zero.mp hl)
    subst this
    simp [header_field_value]
  | succ n ih =>
    intro v hl
    cases v with
    | nil => simp [header_field_value]
    | cons c t =>
      simp only [List.length_cons] at hl
      rw [header_field_value_cons]
      split_ifs
      · exact ih t (by omega)
      · cases t with
        | nil => simp
        | cons m t' =>
          cases t' with
          | nil => simp only; split_ifs <;> simp
          | cons d u =>
            simp only [List.length_cons] at hl
            simp only
            split_ifs
            · exact ih u (by omega)
            · simp
            · simp
      · simp

theorem header_is_reasonable_iff (h : List Nat) :
    header_is_reasonable (some h) = 1 ↔ ReasonableHeader h := by
  constructor
  · intro hr
    cases h with
    | nil => simp [header_is_reasonable] at hr
    | cons u t =>
      by_cases hu : 65 ≤ u ∧ u ≤ 90
      · simp only [header_is_reasonable, hu, and_self, if_true] at hr
        cases hn : header_field_name t with
        | none => simp [hn] at hr
        | some v =>
          simp only [hn] at hr
          obtain ⟨name, h1, h2⟩ := (header_field_name_iff t v).mp hn
          obtain ⟨value, rest, h3, h4, h5, h6⟩ := header_field_value_sound v.length v le_rfl hr
          refine ⟨u, name, value, rest, ?_, hu, h2, h4, h5, h6⟩
          rw [h1, h3]
          simp
      · simp [header_is_reasonable, hu] at hr
  · rintro ⟨u, name, value, rest, h1, hu, h2, h3, h4, h5⟩
    have hn : header_field_name (name ++ 58 :: (value ++ 13 :: 10 :: rest))
        = some (value ++ 13 :: 10 :: rest) :=
      (header_field_name_iff _ _).mpr ⟨name, rfl, h2⟩
    have ht : h = u :: (name ++ 58 :: (value ++ 13 :: 10 :: rest)) := by
      rw [h1]; simp
    rw [ht]
    simp only [header_is_reasonable, hu, and_self, if_true, hn]
    exact header_field_value_complete value h3 rest h4 h5

theorem firstLFAfterCR_cons (c : Nat) (l : List Nat) (hc : c ≠ 10) (hl : FirstLFAfterCR l) :
    FirstLFAfterCR (c :: l) := by
  intro pre post h hpre
  cases pre with
  | nil =>
    simp only [List.nil_append, List.cons.injEq] at h
    exact absurd h.1 hc
  | cons p pre' =>
    simp only [List.cons_append, List.cons.injEq] at h
    have h10 : 10 ∉ pre' := fun h' => hpre (by simp [h'])
    have := hl pre' post h.2 h10
    cases pre' with
    | nil => simp at this
    | cons q pre'' => rw [List.getLast?_cons_cons]; exact this

theorem firstLFAfterCR_crlf (l : List Nat) : FirstLFAfterCR (13 :: 10 :: l) := by
  intro pre post h hpre
  cases pre with
  | nil => simp at h
  | cons p pre' =>
    simp only [List.cons_append, List.cons.injEq] at h
    cases pre' with
    | nil => simp [h.1]
    | cons q pre'' =>
      simp only [List.cons_append, List.cons.injEq] at h
      exact absurd (by simp [← h.2.1]) hpre

theorem firstLFAfterCR_value : ∀ value : List Nat, FieldValue value → ∀ rest : List Nat,
    FirstLFAfterCR (value ++ 13 :: 10 :: rest) := by
  intro value hv
  induction hv with
  | nil => intro rest; exact firstLFAfterCR_crlf rest
  | byte c v hc _ ih =>
    intro rest
    exact firstLFAfterCR_cons c _ (by omega) (ih rest)
  | fold w v _ _ _ =>
    intro rest
    exact firstLFAfterCR_crlf _

theorem firstLFAfterCR_name : ∀ (name l : List Nat), (∀ c ∈ name, IsNameByte c) →
    FirstLFAfterCR l → FirstLFAfterCR (name ++ 58 :: l) := by
  intro name l
  induction name with
  | nil => intro _ hl; exact firstLFAfterCR_cons 58 l (by omega) hl
  | cons c name ih =>
    intro hn hl
    have hc := hn c (by simp)
    unfold IsNameByte at hc
    exact firstLFAfterCR_cons c _ (by omega) (ih (fun d hd => hn d (by simp [hd])) hl)

theorem reasonableHeader_firstLF (h : List Nat) (hr : ReasonableHeader h) :
    FirstLFAfterCR h := by
  obtain ⟨u, name, value, rest, h1, hu, h2, h3, _, _⟩ := hr
  have ht : h = u :: (name ++ 58 :: (value ++ 13 :: 10 :: rest)) := by
    rw [h1]; simp
  rw [ht]
  exact firstLFAfterCR_cons u _ (by omega)
    (firstLFAfterCR_name name _ h2 (firstLFAfterCR_value value h3 rest))

theorem header_is_reasonable_zero_or_one (h : Option (List Nat)) :
    header_is_reasonable h = 0 ∨ header_is_reasonable h = 1 := by
  cases h with
  | none => simp [header_is_reasonable]
  | some l =>
    cases l with
    | nil => simp [header_is_reasonable]
    | cons c t =>
      simp only [header_is_reasonable]
      split_ifs
      · cases header_field_name t with
        | none => simp
        | some v => exact header_field_value_zero_or_one v.length v le_rfl
      · simp

/-- C9: `header_is_reasonable` is a total function (its two loops consume the block byte by
byte), returns 0 for NULL, and returns 1 exactly for the blocks that begin with an upper-case
letter, then bytes of `[A-Za-z0-9-]`, then `:`, then a value of bytes 0x21..0x7E, SP, HT and
folds (CR LF followed by SP or HT), then CR LF followed by a byte that is neither SP nor HT
or by the end of the string; every other block gets 0, in particular every block whose
first line ends in a bare LF. -/
theorem header_is_reasonable_spec :
    header_is_reasonable none = 0 ∧
    ∀ h : List Nat,
      (header_is_reasonable (some h) = 1 ↔ ReasonableHeader h) ∧
      (header_is_reasonable (some h) = 0 ↔ ¬ ReasonableHeader h) ∧
      (FirstLineBareLF h → header_is_reasonable (some h) = 0) := by
  refine ⟨rfl, fun h => ?_⟩
  have h01 := header_is_reasonable_zero_or_one (some h)
  have hiff := header_is_reasonable_iff h
  have hzero : header_is_reasonable (some h) = 0 ↔ ¬ ReasonableHeader h := by
    rw [← hiff]
    omega
  refine ⟨hiff, hzero, ?_⟩
  rintro ⟨pre, post, h1, h2, h3⟩
  rw [hzero]
  intro hr
  exact h3 (reasonableHeader_firstLF h hr pre post h1 h2)

theorem header_is_reasonable_spec_witness :
    header_is_reasonable (some (str "X-Mailer: a\nb")) = 0 ∧
    header_is_reasonable (some (str "X-Mailer: a\r\n b\r\nc")) = 1 :=
  ⟨(header_is_reasonable_spec.2 (str "X-Mailer: a\nb")).2.2
      ⟨str "X-Mailer: a", str "b", by decide, by decide, by decide⟩,
    by decide⟩

theorem strncasecmp_eq_begins (q : List Nat) : ∀ p h : List Nat,
    strncasecmp_eq h (p ++ q) p.length = true ↔ BeginsIgnoringCase h p := by
  intro p
  induction p with
  | nil =>
    intro h
    simp only [List.nil_append, List.length_nil, strncasecmp_eq, true_iff]
    exact ⟨[], h, by simp, rfl⟩
  | cons y p ih =>
    intro h
    cases h with
    | nil =>
      simp only [List.cons_append, List.length_cons]
      simp only [strncasecmp_eq]
      constructor
      · intro h; cases h
      · rintro ⟨pre, rest, h1, h2⟩
        have : pre = [] := by
          cases pre with
          | nil => rfl
          | cons a b => simp at h1
        subst this
        simp at h2
    | cons x h =>
      simp only [List.cons_append, List.length_cons]
      simp only [strncasecmp_eq, Bool.and_eq_true, beq_iff_eq, ih]
      constructor
      · rintro ⟨hx, pre, rest, h1, h2⟩
        exact ⟨x :: pre, rest, by simp [h1], by simp [hx, h2]⟩
      · rintro ⟨pre, rest, h1, h2⟩
        cases pre with
        | nil => simp at h2
        | cons a pre =>
          simp only [List.cons_append, List.cons.injEq] at h1
          simp only [List.map_cons, List.cons.injEq] at h2
          exact ⟨by rw [h1.1]; exact h2.1, pre, rest, h1.2, h2.2⟩

theorem strncasecmp_eq_split (q : List Nat) (k : Nat) : ∀ p h : List Nat,
    strncasecmp_eq h (p ++ q) (p.length + k) =
      (strncasecmp_eq h (p ++ q) p.length && strncasecmp_eq (h.drop p.length) q k) := by
  intro p
  induction p with
  | nil =>
    intro h
    simp [strncasecmp_eq]
  | cons y p ih =>
    intro h
    cases h with
    | nil =>
      have : (y :: p).length + k = (p.length + k) + 1 := by simp; omega
      rw [this]
      simp only [List.cons_append, List.length_cons]
      simp [strncasecmp_eq]
    | cons x h =>
      have : (y :: p).length + k = (p.length + k) + 1 := by simp; omega
      rw [this]
      simp only [List.cons_append, List.length_cons]
      simp only [strncasecmp_eq, List.drop_succ_cons, ih, Bool.and_assoc]

theorem begins_append_iff (name tail h : List Nat) :
    BeginsIgnoringCase h (name ++ tail) ↔
      (strncasecmp_eq h (name ++ [32]) name.length = true ∧
        strncasecmp_eq (h.drop name.length) tail tail.length = true) := by
  have h1 := strncasecmp_eq_begins [] (name ++ tail) h
  rw [List.append_nil, List.length_append, strncasecmp_eq_split] at h1
  rw [← h1, Bool.and_eq_true]
  have h2 : strncasecmp_eq h (name ++ tail) name.length
      = strncasecmp_eq h (name ++ [32]) name.length := by
    rw [Bool.eq_iff_iff, strncasecmp_eq_begins, strncasecmp_eq_begins]
  rw [h2]

theorem header_match_zero_or_one (h f : List Nat) :
    header_match h f = 0 ∨ header_match h f = 1 := by
  unfold header_match
  simp only
  split_ifs <;> simp

theorem header_match_space (name h : List Nat) :
    header_match h (name ++ [32]) ≠ 0 ↔
      (BeginsIgnoringCase h (name ++ [32]) ∨ BeginsIgnoringCase h (name ++ str "\r\n ") ∨
        BeginsIgnoringCase h (name ++ str "\r\n\t")) := by
  have hlen : (name ++ [32]).length - 1 = name.length := by simp
  have hlast : (name ++ [32]).getD ((name ++ [32]).length - 1) 0 = 32 := by
    rw [hlen]; simp [List.getD_eq_getElem?_getD]
  have h3a : (str "\r\n ").length = 3 := by decide
  have h3b : (str "\r\n\t").length = 3 := by decide
  have hlen2 : (name ++ [32]).length = name.length + 1 := by simp
  have hfull := strncasecmp_eq_begins [] (name ++ [32]) h
  rw [List.append_nil, hlen2] at hfull
  rw [← hfull, begins_append_iff name (str "\r\n ") h, begins_append_iff name (str "\r\n\t") h,
    h3a, h3b]
  unfold header_match
  simp only [hlen, hlast, true_and, hlen2]
  by_cases hA : strncasecmp_eq h (name ++ [32]) (name.length + 1) = true
  · simp [hA]
  · by_cases hB : strncasecmp_eq h (name ++ [32]) name.length = true
    · by_cases hC : strncasecmp_eq (List.drop name.length h) (str "\r\n\t") 3 = true
      · simp [hA, hB, hC]
      · by_cases hD : strncasecmp_eq (List.drop name.length h) (str "\r\n ") 3 = true
        · simp [hA, hB, hC, hD]
        · simp [hA, hB, hC, hD]
    · simp [hA, hB]

theorem header_match_bare (f h : List Nat) (hf : f.getD (f.length - 1) 0 ≠ 32) :
    header_match h f ≠ 0 ↔ BeginsIgnoringCase h f := by
  have hfull := strncasecmp_eq_begins [] f h
  rw [List.append_nil] at hfull
  rw [← hfull]
  unfold header_match
  simp only [hf, false_and, if_false]
  split_ifs with hA <;> simp [hA]

theorem ite_one_iff (a : Prop) [Decidable a] (r : Nat) (R : Prop) (hr : r = 1 ↔ R) :
    (if a then 1 else r) = 1 ↔ a ∨ R := by
  by_cases h : a
  · simp [h]
  · simp [h, hr]

theorem ite_one_base (a : Prop) [Decidable a] : (if a then 1 else 0) = 1 ↔ a := by
  by_cases h : a <;> simp [h]

theorem ite_one_zero_or_one (a : Prop) [Decidable a] (r : Nat) (hr : r = 0 ∨ r = 1) :
    (if a then 1 else r) = 0 ∨ (if a then 1 else r) = 1 := by
  by_cases h : a
  · simp [h]
  · simpa [h] using hr

theorem valid_headers_unfold (h : List Nat) :
    valid_headers (some h) = 1 ↔
      (header_match h (str "Content-Language: ") ≠ 0 ∨
       header_match h (str "Content-Type: ") ≠ 0 ∨
       header_match h (str "DKIM-Signature: ") ≠ 0 ∨
       header_match h (str "Date: ") ≠ 0 ∨
       header_match h (str "Delivered-To: ") ≠ 0 ∨
       header_match h (str "From: ") ≠ 0 ∨
       header_match h (str "MIME-Version: ") ≠ 0 ∨
       header_match h (str "Microsoft Mail Internet Headers") ≠ 0 ∨
       header_match h (str "Received: ") ≠ 0 ∨
       header_match h (str "Return-Path: ") ≠ 0 ∨
       header_match h (str "Subject: ") ≠ 0 ∨
       header_match h (str "To: ") ≠ 0 ∨
       header_match h (str "User-Agent: ") ≠ 0 ∨
       header_match h (str "X-ASG-Debug-ID: ") ≠ 0 ∨
       header_match h (str "X-Barracuda-URL: ") ≠ 0 ∨
       header_match h (str "X-x: ") ≠ 0 ∨
       header_is_reasonable (some h) ≠ 0) := by
  show valid_headers_checks h = 1 ↔ _
  unfold valid_headers_checks
  exact ite_one_iff _ _ _ (ite_one_iff _ _ _ (ite_one_iff _ _ _ (ite_one_iff _ _ _ (ite_one_iff _ _
      _ (ite_one_iff _ _ _ (ite_one_iff _ _ _ (ite_one_iff _ _ _ (ite_one_iff _ _ _ (ite_one_iff _
      _ _ (ite_one_iff _ _ _ (ite_one_iff _ _ _ (ite_one_iff _ _ _ (ite_one_iff _ _ _ (ite_one_iff
      _ _ _ (ite_one_iff _ _ _ (ite_one_base _))))))))))))))))

theorem valid_headers_zero_or_one (h : Option (List Nat)) :
    valid_headers h = 0 ∨ valid_headers h = 1 := by
  cases h with
  | none => exact Or.inl rfl
  | some l =>
    show valid_headers_checks l = 0 ∨ valid_headers_checks l = 1
    unfold valid_headers_checks
    exact ite_one_zero_or_one _ _ (ite_one_zero_or_one _ _ (ite_one_zero_or_one _ _
      (ite_one_zero_or_one _ _ (ite_one_zero_or_one _ _ (ite_one_zero_or_one _ _
      (ite_one_zero_or_one _ _ (ite_one_zero_or_one _ _ (ite_one_zero_or_one _ _
      (ite_one_zero_or_one _ _ (ite_one_zero_or_one _ _ (ite_one_zero_or_one _ _
      (ite_one_zero_or_one _ _ (ite_one_zero_or_one _ _ (ite_one_zero_or_one _ _
      (ite_one_zero_or_one _ _ (ite_one_zero_or_one _ 0 (Or.inl rfl)))))))))))))))))

theorem or_move_out (a0 a1 a2 a3 a4 a5 a6 a7 a8 a9 a10 a11 a12 a13 a14 m r : Prop) :
    (a0 ∨ a1 ∨ a2 ∨ a3 ∨ a4 ∨ a5 ∨ a6 ∨ m ∨ a7 ∨ a8 ∨ a9 ∨ a10 ∨ a11 ∨ a12 ∨ a13 ∨ a14 ∨ r) ↔
      ((a0 ∨ a1 ∨ a2 ∨ a3 ∨ a4 ∨ a5 ∨ a6 ∨ a7 ∨ a8 ∨ a9 ∨ a10 ∨ a11 ∨ a12 ∨ a13 ∨ a14) ∨ m ∨ r) := by
  tauto

theorem valid_headers_iff (h : List Nat) :
    valid_headers (some h) = 1 ↔
      ((∃ name ∈ allowedFieldNames,
          BeginsIgnoringCase h (name ++ [32]) ∨ BeginsIgnoringCase h (name ++ str "\r\n ") ∨
            BeginsIgnoringCase h (name ++ str "\r\n\t")) ∨
        BeginsIgnoringCase h (str "Microsoft Mail Internet Headers") ∨
        header_is_reasonable (some h) = 1) := by
  have e0 : str "Content-Language: " = str "Content-Language:" ++ [32] := by decide
  have e1 : str "Content-Type: " = str "Content-Type:" ++ [32] := by decide
  have e2 : str "DKIM-Signature: " = str "DKIM-Signature:" ++ [32] := by decide
  have e3 : str "Date: " = str "Date:" ++ [32] := by decide
  have e4 : str "Delivered-To: " = str "Delivered-To:" ++ [32] := by decide
  have e5 : str "From: " = str "From:" ++ [32] := by decide
  have e6 : str "MIME-Version: " = str "MIME-Version:" ++ [32] := by decide
  have e7 : str "Received: " = str "Received:" ++ [32] := by decide
  have e8 : str "Return-Path: " = str "Return-Path:" ++ [32] := by decide
  have e9 : str "Subject: " = str "Subject:" ++ [32] := by decide
  have e10 : str "To: " = str "To:" ++ [32] := by decide
  have e11 : str "User-Agent: " = str "User-Agent:" ++ [32] := by decide
  have e12 : str "X-ASG-Debug-ID: " = str "X-ASG-Debug-ID:" ++ [32] := by decide
  have e13 : str "X-Barracuda-URL: " = str "X-Barracuda-URL:" ++ [32] := by decide
  have e14 : str "X-x: " = str "X-x:" ++ [32] := by decide
  have hms : (str "Microsoft Mail Internet Headers").getD
      ((str "Microsoft Mail Internet Headers").length - 1) 0 ≠ 32 := by decide
  have hr : header_is_reasonable (some h) ≠ 0 ↔ header_is_reasonable (some h) = 1 := by
    have := header_is_reasonable_zero_or_one (some h)
    omega
  rw [valid_headers_unfold, e0, e1, e2, e3, e4, e5, e6, e7, e8, e9, e10, e11, e12, e13, e14, hr]
  simp only [header_match_space, header_match_bare _ h hms, allowedFieldNames, List.mem_cons,
    List.mem_singleton, List.not_mem_nil, or_false, exists_eq_or_imp, exists_eq_left]
  exact or_move_out _ _ _ _ _ _ _ _ _ _ _ _ _ _ _ _ _

/-- C10: `valid_headers` returns 0 for NULL; for a block `h` it returns 1 exactly when `h`
begins, ignoring case, with one of the fifteen allow-listed field names followed by a space
or by CR LF and SP or HT, or with `Microsoft Mail Internet Headers`, or when
`header_is_reasonable(h)` holds, and 0 otherwise.  A block that begins with `From: `,
`Date: `, `Subject: `, `To: `, `Received: ` or `Content-Type: ` in any letter case is accepted
whatever follows. -/
theorem valid_headers_spec :
    valid_headers none = 0 ∧
    (∀ h : List Nat,
      (valid_headers (some h) = 1 ↔
        ((∃ name ∈ allowedFieldNames,
            BeginsIgnoringCase h (name ++ [32]) ∨ BeginsIgnoringCase h (name ++ str "\r\n ") ∨
              BeginsIgnoringCase h (name ++ str "\r\n\t")) ∨
          BeginsIgnoringCase h (str "Microsoft Mail Internet Headers") ∨
          header_is_reasonable (some h) = 1)) ∧
      (valid_headers (some h) = 0 ∨ valid_headers (some h) = 1)) ∧
    (∀ p ∈ [str "From: ", str "Date: ", str "Subject: ", str "To: ", str "Received: ",
        str "Content-Type: "], ∀ h : List Nat,
      BeginsIgnoringCase h p → valid_headers (some h) = 1) := by
  refine ⟨rfl, fun h => ⟨valid_headers_iff h, valid_headers_zero_or_one (some h)⟩, ?_⟩
  intro p hp h hb
  rw [valid_headers_iff]
  left
  simp only [List.mem_cons, List.mem_singleton, List.not_mem_nil, or_false] at hp
  rcases hp with rfl | rfl | rfl | rfl | rfl | rfl
  · exact ⟨str "From:", by decide, Or.inl hb⟩
  · exact ⟨str "Date:", by decide, Or.inl hb⟩
  · exact ⟨str "Subject:", by decide, Or.inl hb⟩
  · exact ⟨str "To:", by decide, Or.inl hb⟩
  · exact ⟨str "Received:", by decide, Or.inl hb⟩
  · exact ⟨str "Content-Type:", by decide, Or.inl hb⟩

theorem valid_headers_spec_witness :
    valid_headers (some (str "fRoM: \x01\x02")) = 1 :=
  valid_headers_spec.2.2 (str "From: ") (by decide) (str "fRoM: \x01\x02")
    ⟨str "fRoM: ", [1, 2], by decide, by decide⟩

/-- C11: for the header block `From: a`, `To`, `To: b` (three LF-terminated lines) and the
pattern `"\nTo:"`, the pattern occurs in the block, yet `my_stristr` returns NULL (after the
partial match `"\nTo"` it restarts one byte too late), so `header_has_field` leaves the flag
at 0 and `header_get_field` returns NULL. -/
theorem header_has_field_misses_occurrence :
    header_has_field (str "From: a\nTo\nTo: b\n") (str "\nTo:") 0 = 0 ∧
    header_get_field (str "From: a\nTo\nTo: b\n") (str "\nTo:") = none ∧
    my_stristr (some (str "From: a\nTo\nTo: b\n")) (some (str "\nTo:")) = none ∧
    str "From: a\nTo\nTo: b\n" = str "From: a\nTo" ++ str "\nTo:" ++ str " b\n" := by
  decide

/-- C12: for the block `From: a`, `To`, `To: b` (three LF-terminated lines) and the pattern
`"\nTo:"`, `header_strip_field` returns the block unchanged: the field `To: b` is not
removed, because `header_get_field` does not find it. -/
theorem header_strip_field_keeps_named_field :
    header_strip_field (str "From: a\nTo\nTo: b\n") (str "\nTo:")
      = some (str "From: a\nTo\nTo: b\n") ∧
    header_get_field (str "From: a\nTo\nTo: b\n") (str "\nTo:") = none := by
  decide

/-- C13: with two blanks before `charset=` the key ` charset=` occurs in the field before
its terminating LF, yet `header_get_subfield` leaves the output buffer unchanged
(`my_stristr` misses the occurrence); and for an unquoted value in a folded field with no
later `;` the output runs past the first LF up to the end of the field. -/
theorem header_get_subfield_misses_key :
    header_get_subfield (some (str "\nContent-Type: text/plain;  charset=utf-8\nS: x\n"))
      (str "charset") (str "us-ascii") 30 = some (str "us-ascii") ∧
    header_get_subfield
      (some (str "\nContent-Type: text/plain; charset=utf-8\n format=flowed\nS: x\n"))
      (str "charset") (str "us-ascii") 30 = some (str "utf-8\n format=flowed") := by
  decide

theorem write_email_body_total (mode : Nat) (body : List Nat) :
    ∃ w, write_email_body mode body = some w ∧ (mode = MODE_SEPARATE → w = body) := by
  by_cases hm : mode = MODE_SEPARATE
  · exact ⟨body, by simp [write_email_body, hm], fun _ => rfl⟩
  · obtain ⟨rest, out', hr, _⟩ :=
      write_email_body_loop_spec (body.length + 1) body [] (Nat.lt_succ_self _)
    exact ⟨out' ++ rest, by simp [write_email_body, hm, hr], fun h => absurd h hm⟩

theorem getD_tail (b : List Nat) (i : Nat) : b.tail.getD i 0 = b.getD (i + 1) 0 := by
  cases b <;> simp

theorem headD_eq_getD (b : List Nat) : b.headD 0 = b.getD 0 0 := by
  cases b <;> simp

theorem test_base64_iff : ∀ (len : Nat) (body : List Nat),
    test_base64 body len = 1 ↔ ∃ i, i < len ∧ IsBinaryByte (body.getD i 0) := by
  intro len
  induction len with
  | zero => intro body; simp [test_base64]
  | succ len ih =>
    intro body
    by_cases h : body.headD 0 < 32 ∧ body.headD 0 ≠ 9 ∧ body.headD 0 ≠ 10
    · rw [test_base64, if_pos h]
      exact ⟨fun _ => ⟨0, by omega, by rw [← headD_eq_getD]; exact h⟩, fun _ => rfl⟩
    · rw [test_base64, if_neg h, ih]
      constructor
      · rintro ⟨i, hi, hb⟩
        exact ⟨i + 1, by omega, by rw [← getD_tail]; exact hb⟩
      · rintro ⟨i, hi, hb⟩
        cases i with
        | zero => rw [← headD_eq_getD] at hb; exact absurd hb h
        | succ i => exact ⟨i, by omega, by rw [getD_tail]; exact hb⟩

theorem test_base64_zero_or_one : ∀ (len : Nat) (body : List Nat),
    test_base64 body len = 0 ∨ test_base64 body len = 1 := by
  intro len
  induction len with
  | zero => intro body; simp [test_base64]
  | succ len ih =>
    intro body
    rw [test_base64]
    split_ifs
    · exact Or.inr rfl
    · exact ih _

/-- C14 as stated fails: in normal mode the body `From x` has no byte that asks for base64,
yet it is not emitted verbatim: `write_email_body` puts a `>` in front of the line. -/
theorem write_body_part_quotes_from_line :
    test_base64 (str "From x\n") 7 = 0 ∧
    write_body_part MODE_NORMAL false (fun _ _ => none) (fun _ => none)
      ⟨str "From x\n", false⟩ (str "text/plain") (str "us-ascii") (str "B")
      = some (str "\n--B\nContent-Type: text/plain; charset=\"us-ascii\"\n\n>From x\n") := by
  decide

/-- C14 amended: `test_base64(body, len)` returns 1 if and only if one of the first `len`
bytes is below 32 and neither TAB nor LF, and 0 otherwise.  With `s` the body after
`removeCR` and recoding, `write_body_part` emits the part delimiter and the `Content-Type`
line; when `test_base64` returns 1 it emits the `Content-Transfer-Encoding: base64` line, a
blank line and, if the encoder returns a string, what `write_email_body` writes for the
base64 form followed by LF; otherwise it emits a blank line and what `write_email_body`
writes for `s`, which is `s` itself in separate mode. -/
theorem write_body_part_base64_choice :
    (∀ (body : List Nat) (len : Nat),
      (test_base64 body len = 1 ↔ ∃ i, i < len ∧ IsBinaryByte (body.getD i 0)) ∧
      (test_base64 body len = 0 ↔ ¬ ∃ i, i < len ∧ IsBinaryByte (body.getD i 0))) ∧
    (∀ (mode : Nat) (prefer_utf8 : Bool) (utf8to8bit : List Nat → List Nat → Option (List Nat))
        (base64_encode : List Nat → Option (List Nat)) (body : pst_string)
        (mime charset boundary s cs : List Nat),
      write_body_part_recode prefer_utf8 utf8to8bit body charset = (s, cs) →
      (test_base64 s s.length = 1 →
        (∀ enc, base64_encode s = some enc → ∃ w, write_email_body mode enc = some w ∧
          write_body_part mode prefer_utf8 utf8to8bit base64_encode body mime charset boundary
            = some (str "\n--" ++ boundary ++ str "\n" ++
                (str "Content-Type: " ++ mime ++ str "; charset=\"" ++ cs ++ str "\"\n") ++
                str "Content-Transfer-Encoding: base64\n" ++ str "\n" ++ w ++ str "\n")) ∧
        (base64_encode s = none →
          write_body_part mode prefer_utf8 utf8to8bit base64_encode body mime charset boundary
            = some (str "\n--" ++ boundary ++ str "\n" ++
                (str "Content-Type: " ++ mime ++ str "; charset=\"" ++ cs ++ str "\"\n") ++
                str "Content-Transfer-Encoding: base64\n" ++ str "\n"))) ∧
      (test_base64 s s.length = 0 →
        ∃ w, write_email_body mode s = some w ∧ (mode = MODE_SEPARATE → w = s) ∧
          write_body_part mode prefer_utf8 utf8to8bit base64_encode body mime charset boundary
            = some (str "\n--" ++ boundary ++ str "\n" ++
                (str "Content-Type: " ++ mime ++ str "; charset=\"" ++ cs ++ str "\"\n") ++
                str "\n" ++ w))) := by
  refine ⟨?_, ?_⟩
  · intro body len
    have h1 := test_base64_iff len body
    have h01 := test_base64_zero_or_one len body
    refine ⟨h1, ?_⟩
    rw [← h1]
    omega
  · intro mode prefer_utf8 utf8to8bit base64_encode body mime charset boundary s cs hconv
    refine ⟨?_, ?_⟩
    · intro hb
      refine ⟨?_, ?_⟩
      · intro enc henc
        obtain ⟨w, hw, _⟩ := write_email_body_total mode enc
        refine ⟨w, hw, ?_⟩
        simp [write_body_part, hconv, hb, henc, hw]
      · intro henc
        simp [write_body_part, hconv, hb, henc]
    · intro hb
      obtain ⟨w, hw, hsep⟩ := write_email_body_total mode s
      refine ⟨w, hw, hsep, ?_⟩
      simp [write_body_part, hconv, hb, hw]

theorem write_body_part_base64_choice_witness :
    ∃ w, write_email_body MODE_SEPARATE (str "From x\n") = some w ∧
      (MODE_SEPARATE = MODE_SEPARATE → w = str "From x\n") ∧
      write_body_part MODE_SEPARATE false (fun _ _ => none) (fun _ => none)
        ⟨str "From x\r\n", false⟩ (str "text/plain") (str "us-ascii") (str "B")
        = some (str "\n--" ++ str "B" ++ str "\n" ++
            (str "Content-Type: " ++ str "text/plain" ++ str "; charset=\"" ++ str "us-ascii"
              ++ str "\"\n") ++ str "\n" ++ w) :=
  (write_body_part_base64_choice.2 MODE_SEPARATE false (fun _ _ => none) (fun _ => none)
    ⟨str "From x\r\n", false⟩ (str "text/plain") (str "us-ascii") (str "B") (str "From x\n")
    (str "us-ascii") (by decide)).2 (by decide)

theorem undec_foldl (l : List Nat) : ∀ a : Nat,
    l.foldl (fun a c => 10 * a + (c - 48)) a
      = a * 10 ^ l.length + l.foldl (fun a c => 10 * a + (c - 48)) 0 := by
  induction l with
  | nil => intro a; simp
  | cons c l ih =>
    intro a
    simp only [List.foldl_cons, List.length_cons]
    rw [ih (10 * a + (c - 48)), ih (10 * 0 + (c - 48))]
    ring

theorem digitChar_toNat (d : Nat) (hd : d < 10) : (Nat.digitChar d).toNat - 48 = d := by
  interval_cases d <;> rfl

theorem undec_toDigitsCore : ∀ (fuel n : Nat) (ds : List Char), n < fuel →
    undec ((Nat.toDigitsCore 10 fuel n ds).map Char.toNat)
      = n * 10 ^ ds.length + undec (ds.map Char.toNat) := by
  intro fuel
  induction fuel with
  | zero => intro n ds h; omega
  | succ fuel ih =>
    intro n ds h
    have hd := digitChar_toNat (n % 10) (Nat.mod_lt _ (by decide))
    have hcons : undec ((Nat.digitChar (n % 10) :: ds).map Char.toNat)
        = (n % 10) * 10 ^ ds.length + undec (ds.map Char.toNat) := by
      simp only [undec, List.map_cons, List.foldl_cons]
      rw [undec_foldl, hd, List.length_map]
      ring
    simp only [Nat.toDigitsCore]
    by_cases h0 : n / 10 = 0
    · simp only [h0, if_true]
      rw [hcons]
      have : n % 10 = n := Nat.mod_eq_of_lt (by omega)
      rw [this]
    · simp only [h0, if_false]
      rw [ih (n / 10) _ (by omega), hcons, List.length_cons]
      have := Nat.div_add_mod n 10
      calc n / 10 * 10 ^ (ds.length + 1) + (n % 10 * 10 ^ ds.length + undec (ds.map Char.toNat))
          = (10 * (n / 10) + n % 10) * 10 ^ ds.length + undec (ds.map Char.toNat) := by ring
        _ = n * 10 ^ ds.length + undec (ds.map Char.toNat) := by rw [this]

theorem undec_dec (n : Nat) : undec (dec n) = n := by
  unfold dec Nat.toDigits
  rw [undec_toDigitsCore (n + 1) n [] (Nat.lt_succ_self n)]
  simp [undec]

theorem dec_injective (a b : Nat) (h : dec a = dec b) : a = b := by
  have := congrArg undec h
  rwa [undec_dec, undec_dec] at this

theorem dec_length_le (n : Nat) (h : n < 2 ^ 64) : (dec n).length ≤ 20 := by
  unfold dec Nat.toDigits
  rw [List.length_map]
  exact Nat.toDigitsCore_length 10 (by decide) (n + 1) n 20 (by omega) (by decide)

theorem boundary_eq (b : Nat) (hb : b < 2 ^ 64) :
    boundary b = str "--boundary-LibPST-iamunique-" ++ dec b ++ str "_-_-" := by
  unfold boundary
  apply List.take_of_length_le
  have h1 : (str "--boundary-LibPST-iamunique-").length = 28 := by decide
  have h2 : (str "_-_-").length = 4 := by decide
  have := dec_length_le b hb
  simp only [List.length_append, h1, h2]
  omega

theorem boundary_length (b : Nat) (hb : b < 2 ^ 64) : (boundary b).length ≤ 52 := by
  rw [boundary_eq b hb]
  have h1 : (str "--boundary-LibPST-iamunique-").length = 28 := by decide
  have h2 : (str "_-_-").length = 4 := by decide
  have := dec_length_le b hb
  simp only [List.length_append, h1, h2]
  omega

theorem altboundary_eq (b : Nat) (hb : b < 2 ^ 64) :
    altboundary b = str "alt-" ++ boundary b := by
  unfold altboundary
  apply List.take_of_length_le
  have h1 : (str "alt-").length = 4 := by decide
  have := boundary_length b hb
  simp only [List.length_append, h1]
  omega

theorem boundary_head (b : Nat) : (boundary b).head? = some 45 := by
  have h : str "--boundary-LibPST-iamunique-" = 45 :: (str "-boundary-LibPST-iamunique-") := by
    decide
  simp [boundary, h]

theorem altboundary_head (b : Nat) : (altboundary b).head? = some 97 := by
  have h : str "alt-" = 97 :: (str "lt-") := by decide
  simp [altboundary, h]

theorem boundary_ne_altboundary (b : Nat) : boundary b ≠ altboundary b := by
  intro h
  have h1 := boundary_head b
  rw [h, altboundary_head] at h1
  simp at h1

/-- C15: for every 64-bit `block_id` the outer boundary is exactly
`--boundary-LibPST-iamunique-` + decimal(block_id) + `_-_-` and the inner one is `alt-`
followed by the outer one; both fit their 60- and 66-byte buffers with the NUL, they differ
from each other, and two different block ids give different outer and different inner
boundaries. -/
theorem boundary_unique (b : Nat) (hb : b < 2 ^ 64) :
    boundary b = str "--boundary-LibPST-iamunique-" ++ dec b ++ str "_-_-" ∧
    altboundary b = str "alt-" ++ boundary b ∧
    (boundary b).length + 1 ≤ 60 ∧ (altboundary b).length + 1 ≤ 66 ∧
    boundary b ≠ altboundary b ∧
    ∀ b' : Nat, b' < 2 ^ 64 → b' ≠ b →
      boundary b' ≠ boundary b ∧ altboundary b' ≠ altboundary b := by
  have hlen := boundary_length b hb
  have halt := altboundary_eq b hb
  refine ⟨boundary_eq b hb, halt, by omega, ?_, boundary_ne_altboundary b, ?_⟩
  · rw [halt]
    have h1 : (str "alt-").length = 4 := by decide
    simp only [List.length_append, h1]
    omega
  · intro b' hb' hne
    have key : boundary b' ≠ boundary b := by
      intro h
      rw [boundary_eq b hb, boundary_eq b' hb', List.append_assoc, List.append_assoc] at h
      have h2 := List.append_cancel_right (List.append_cancel_left h)
      exact hne (dec_injective b' b h2)
    refine ⟨key, ?_⟩
    rw [halt, altboundary_eq b' hb']
    intro h
    exact key (List.append_cancel_left h)

theorem boundary_unique_witness :
    boundary 1234 = str "--boundary-LibPST-iamunique-1234_-_-" ∧
    altboundary 1234 = str "alt---boundary-LibPST-iamunique-1234_-_-" ∧
    boundary 1235 ≠ boundary 1234 :=
  ⟨by decide, by decide,
    ((boundary_unique 1234 (by decide)).2.2.2.2.2 1235 (by decide) (by decide)).1⟩

theorem acceptable_ext_loop_total (e : List Nat) : ∀ (fuel : Nat) (a : List Nat),
    a.length < fuel → ∃ r, acceptable_ext_loop e fuel a = some r := by
  intro fuel
  induction fuel with
  | zero => intro a h; omega
  | succ fuel ih =>
    intro a h
    simp only [acceptable_ext_loop]
    split_ifs with h1 h2
    · exact ⟨0, rfl⟩
    · exact ⟨1, rfl⟩
    · apply ih
      cases a with
      | nil => simp at h1
      | cons x t =>
        simp only [List.length_cons, List.drop_succ_cons, List.length_drop] at h ⊢
        omega

theorem acceptable_ext_total (exts : Option (List Nat)) (attach : pst_item_attach) :
    ∃ r, acceptable_ext exts attach = some r := by
  unfold acceptable_ext
  cases exts with
  | none => exact ⟨1, rfl⟩
  | some buf =>
    simp only
    split_ifs
    · exact ⟨1, rfl⟩
    · cases attach_filename attach with
      | none => exact ⟨1, rfl⟩
      | some name =>
        simp only
        cases strrchr name 46 with
        | none => exact ⟨1, rfl⟩
        | some i => exact acceptable_ext_loop_total _ _ _ (Nat.lt_succ_self _)

theorem plain_not_close (l : List Ev) (h : l.all Ev.plain = true) (x : List Nat) :
    Ev.close x ∉ l := by
  intro hm
  have := List.all_eq_true.mp h _ hm
  simp [Ev.plain] at this

theorem plain_not_althead (l : List Ev) (h : l.all Ev.plain = true) (x : List Nat) :
    Ev.althead x ∉ l := by
  intro hm
  have := List.all_eq_true.mp h _ hm
  simp [Ev.plain] at this

theorem write_normal_email_attach_loop_plain (exts : Option (List Nat)) (current_mode : Nat)
    (mode_MH : Bool) (boundary : List Nat) : ∀ l : List attach_info,
    ∃ atts, write_normal_email_attach_loop exts current_mode mode_MH boundary l = some atts ∧
      atts.all Ev.plain = true := by
  intro l
  induction l with
  | nil => exact ⟨[], rfl, rfl⟩
  | cons a rest ih =>
    obtain ⟨tail, ht, hp⟩ := ih
    obtain ⟨ok, hok⟩ := acceptable_ext_total exts a.names
    simp only [write_normal_email_attach_loop, ht, hok]
    have hemb : (write_embedded_message_ev a boundary).all Ev.plain = true := by
      unfold write_embedded_message_ev
      split_ifs <;> simp [Ev.plain]
    have hinl : (write_inline_attachment_ev a boundary).all Ev.plain = true := by
      unfold write_inline_attachment_ev
      split_ifs <;> simp [Ev.plain]
    split_ifs
    · exact ⟨_, rfl, by rw [List.all_append, hemb, hp]; rfl⟩
    · exact ⟨_, rfl, hp⟩
    · exact ⟨_, rfl, by rw [List.all_append, hinl, hp]; rfl⟩
    · exact ⟨_, rfl, hp⟩
    · exact ⟨_, rfl, hp⟩

/-- C16: the output of `write_normal_email` ends with the closing delimiter of the outer
boundary, which is written nowhere before, so every part delimiter precedes it; the
`multipart/alternative` header is written exactly when both a plain and an HTML body exist,
the closing delimiter of the inner `alt-` boundary is then written exactly once and
otherwise not at all, and no other closing delimiter is written. -/
theorem write_normal_email_balanced (exts : Option (List Nat)) (current_mode : Nat)
    (mode_MH save_rtf : Bool) (item : mail_item) :
    ∃ pre : List Ev,
      write_normal_email_ev exts current_mode mode_MH save_rtf item
        = some (pre ++ [Ev.close (boundary item.block_id)]) ∧
      Ev.close (boundary item.block_id) ∉ pre ∧
      (∀ b, Ev.part b ∈ pre ++ [Ev.close (boundary item.block_id)] → Ev.part b ∈ pre) ∧
      (Ev.althead (altboundary item.block_id) ∈ pre ↔
        (item.has_body = true ∧ item.has_htmlbody = true)) ∧
      pre.count (Ev.close (altboundary item.block_id))
        = (if item.has_body = true ∧ item.has_htmlbody = true then 1 else 0) ∧
      (∀ b, Ev.close b ∈ pre → b = altboundary item.block_id) := by
  rcases item with ⟨id, rep, sch, rt, bd, html, rtf, rtfd, eb, eh, app, att⟩
  simp only
  obtain ⟨atts, hatts, hplain⟩ := write_normal_email_attach_loop_plain exts current_mode mode_MH
    (boundary id) (write_normal_email_attachments save_rtf
      ⟨id, rep, sch, rt, bd, html, rtf, rtfd, eb, eh, app, att⟩)
  have hne : altboundary id ≠ boundary id :=
    fun h => boundary_ne_altboundary id h.symm
  have hne2 : boundary id ≠ altboundary id :=
    boundary_ne_altboundary id
  have hc := plain_not_close atts hplain
  have ha := plain_not_althead atts hplain
  have hcnt : ∀ x, atts.count (Ev.close x) = 0 :=
    fun x => List.count_eq_zero_of_not_mem (hc x)
  simp only [write_normal_email_ev, hatts]
  refine ⟨_, rfl, ?_, ?_, ?_, ?_, ?_⟩
  · cases bd <;> cases html <;> cases rep <;> cases rt <;> cases sch <;> cases app <;>
      simp [write_body_part_ev, write_schedule_part_ev, hc, hne, hne2]
  · intro b hb
    simpa using hb
  · cases bd <;> cases html <;> cases rep <;> cases rt <;> cases sch <;> cases app <;>
      simp [write_body_part_ev, write_schedule_part_ev, ha]
  · cases bd <;> cases html <;> cases rep <;> cases rt <;> cases sch <;> cases app <;>
      simp [write_body_part_ev, write_schedule_part_ev, hcnt, List.count_cons, hne, hne2]
  · intro b
    cases bd <;> cases html <;> cases rep <;> cases rt <;> cases sch <;> cases app <;>
      simp [write_body_part_ev, write_schedule_part_ev, hc]

theorem write_normal_email_balanced_witness :
    ∃ pre : List Ev,
      write_normal_email_ev none MODE_NORMAL false true
          ⟨7, false, false, false, true, true, false, false, false, false, false,
            [⟨false, true, 0, false, ⟨none, some (str "a.txt")⟩, false⟩]⟩
        = some (pre ++ [Ev.close (boundary 7)]) ∧
      Ev.close (boundary 7) ∉ pre ∧ pre.count (Ev.close (altboundary 7)) = 1 :=
  (write_normal_email_balanced none MODE_NORMAL false true
    ⟨7, false, false, false, true, true, false, false, false, false, false,
      [⟨false, true, 0, false, ⟨none, some (str "a.txt")⟩, false⟩]⟩).imp
    (fun _ h => ⟨h.1, h.2.1, h.2.2.2.2.1⟩)

/-- C17: for a weekly recurrence with count 10, interval 1, no month-day, month or position
and the day mask of Monday and Wednesday, `write_appointment` writes the line
`RRULE:FREQ=WEEKLY;COUNT=10;BYDAY=MO;WE`: the days are joined with `;`, not with `,`. -/
theorem write_appointment_rrule_joins_days_with_semicolon :
    (write_appointment_rrule ⟨1, 10, 1, 0, 0, 0, 10⟩).flatten
      = str "RRULE:FREQ=WEEKLY;COUNT=10;BYDAY=MO;WE\n" ∧
    (write_appointment_rrule ⟨1, 10, 1, 0, 0, 0, 10⟩).flatten
      ≠ str "RRULE:FREQ=WEEKLY;COUNT=10;BYDAY=MO,WE\n" := by
  decide

theorem noLeadingB_append (l1 l2 : List (List Nat)) (h1 : NoLeadingB l1) (h2 : NoLeadingB l2) :
    NoLeadingB (l1 ++ l2) := by
  intro c hc
  rcases List.mem_append.mp hc with h | h
  · exact h1 c h
  · exact h2 c h

theorem noLeadingB_nil : NoLeadingB [] := by
  intro c hc; simp at hc

theorem head_append_of_head (tag rest : List Nat) (c : Nat) (h : tag.head? = some c) :
    (tag ++ rest).head? = some c := by
  cases tag with
  | nil => simp at h
  | cons x t => simpa using h

theorem noLeadingB_single (tag rest : List Nat) (c : Nat) (h : tag.head? = some c)
    (hc : c ≠ 66) : NoLeadingB [tag ++ rest] := by
  intro x hx
  simp only [List.mem_singleton] at hx
  subst hx
  rw [head_append_of_head tag rest c h]
  simpa using hc

theorem noLeadingB_opt_line (tag : List Nat) (text : Option (List Nat)) (c : Nat)
    (h : tag.head? = some c) (hc : c ≠ 66) : NoLeadingB (opt_line tag text) := by
  cases text with
  | none => exact noLeadingB_nil
  | some t =>
    simp only [opt_line, List.append_assoc]
    exact noLeadingB_single tag _ c h hc

theorem noLeadingB_ite (p : Prop) [Decidable p] (l : List (List Nat)) (h : NoLeadingB l) :
    NoLeadingB (if p then l else []) := by
  split_ifs
  · exact h
  · exact noLeadingB_nil

theorem head_take_succ (l : List Nat) (n : Nat) : (l.take (n + 1)).head? = l.head? := by
  cases l <;> simp

theorem byday_step_head (mask : Nat) (st : List Nat × Bool) (i : Nat)
    (h : st.1.head? ≠ some 66) : (write_appointment_byday_step mask st i).1.head? ≠ some 66 := by
  obtain ⟨byday, empty⟩ := st
  simp only at h
  have key : ∀ sep : List Nat, sep.head? = some 59 →
      ((byday ++ sep ++ days.getD i []).take 48).head? ≠ some 66 := by
    intro sep hsep
    rw [show (48 : Nat) = 47 + 1 from rfl, head_take_succ]
    cases byday with
    | nil =>
      rw [List.nil_append, head_append_of_head sep _ 59 hsep]
      simp
    | cons x t => simpa using h
  unfold write_appointment_byday_step
  by_cases hb : mask.testBit i = true
  · simp only [hb, if_true]
    cases empty
    · exact key (str ";") (by decide)
    · exact key (str ";BYDAY=") (by decide)
  · simp only [hb]
    exact h

theorem byday_foldl_head (mask : Nat) : ∀ (l : List Nat) (st : List Nat × Bool),
    st.1.head? ≠ some 66 →
    (l.foldl (write_appointment_byday_step mask) st).1.head? ≠ some 66 := by
  intro l
  induction l with
  | nil => intro st h; exact h
  | cons i l ih =>
    intro st h
    exact ih _ (byday_step_head mask st i h)

theorem noLeadingB_rrule (rdata : pst_recurrence) :
    NoLeadingB (write_appointment_rrule rdata) := by
  unfold write_appointment_rrule
  refine noLeadingB_append _ _ (noLeadingB_append _ _ (noLeadingB_append _ _
    (noLeadingB_append _ _ (noLeadingB_append _ _ (noLeadingB_append _ _
    (noLeadingB_append _ _ ?_ ?_) ?_) ?_) ?_) ?_) ?_) ?_
  · exact noLeadingB_single _ _ 82 (by decide) (by decide)
  · exact noLeadingB_ite _ _ (noLeadingB_single _ _ 59 (by decide) (by decide))
  · exact noLeadingB_ite _ _ (noLeadingB_single _ _ 59 (by decide) (by decide))
  · exact noLeadingB_ite _ _ (noLeadingB_single _ _ 59 (by decide) (by decide))
  · exact noLeadingB_ite _ _ (noLeadingB_single _ _ 59 (by decide) (by decide))
  · exact noLeadingB_ite _ _ (noLeadingB_single _ _ 59 (by decide) (by decide))
  · apply noLeadingB_ite
    intro c hc
    simp only [List.mem_singleton] at hc
    subst hc
    exact byday_foldl_head _ _ _ (by simp)
  · intro c hc
    simp only [List.mem_singleton] at hc
    subst hc
    decide

theorem noLeadingB_categories_loop (escape : List Nat → List Nat) :
    ∀ (l : List (List Nat × List Nat)) (started : Bool),
    NoLeadingB (write_extra_categories_loop escape l started).1 := by
  intro l
  induction l with
  | nil => intro started; exact noLeadingB_nil
  | cons ef rest ih =>
    intro started
    by_cases hk : ef.1 = str "Keywords"
    · simp only [write_extra_categories_loop, hk, if_true]
      intro c hc
      simp only [List.mem_cons] at hc
      rcases hc with rfl | hc
      · cases started
        · simp only [Bool.false_eq_true, if_false]
          rw [head_append_of_head (str "CATEGORIES:") _ 67 (by decide)]
          simp
        · simp only [if_true]
          rw [head_append_of_head (str ", ") _ 44 (by decide)]
          simp
      · exact ih true c hc
    · simp only [write_extra_categories_loop, hk, if_false]
      exact ih started

theorem noLeadingB_label (escape : List Nat → List Nat) (item : appointment_item) :
    NoLeadingB (write_appointment_label escape item) := by
  unfold write_appointment_label
  have hnl : NoLeadingB [str "\n"] := by
    intro c hc; simp only [List.mem_singleton] at hc; subst hc; decide
  have hcat : NoLeadingB (write_extra_categories escape item.extra_fields).1 := by
    unfold write_extra_categories
    exact noLeadingB_append _ _ (noLeadingB_categories_loop escape _ _)
      (noLeadingB_ite _ _ hnl)
  cases item.appointment.label
  case none =>
    simp only
    split_ifs
    · refine noLeadingB_append _ _ hcat ?_
      intro c hc; simp only [List.mem_singleton] at hc; subst hc; decide
    · exact hcat
  all_goals
    simp only
    first
      | exact noLeadingB_nil
      | (intro c hc; simp only [List.mem_singleton] at hc; subst hc; decide)

theorem noLeadingB_showas (showas : pst_freebusy) :
    NoLeadingB (write_appointment_showas showas) := by
  cases showas <;> simp only [write_appointment_showas] <;>
    first
      | exact noLeadingB_nil
      | (intro c hc; revert c; decide)

/-- C18: `write_appointment` writes the line `BEGIN:VALARM` if and only if the alarm flag is
set and `0 <= alarm_minutes < 1440`; it then writes the five lines of the block
(`BEGIN:VALARM`, `TRIGGER:-PT<alarm_minutes>M`, `ACTION:DISPLAY`, `DESCRIPTION:Reminder`,
`END:VALARM`) once, right before `END:VEVENT`, which is always the last line written. -/
theorem write_appointment_valarm (escape : List Nat → List Nat) (item : appointment_item) :
    (str "BEGIN:VALARM\n" ∈ write_appointment escape item ↔
      (item.appointment.alarm ≠ 0 ∧ 0 ≤ item.appointment.alarm_minutes ∧
        item.appointment.alarm_minutes < 1440)) ∧
    ((item.appointment.alarm ≠ 0 ∧ 0 ≤ item.appointment.alarm_minutes ∧
        item.appointment.alarm_minutes < 1440) →
      ∃ pre, write_appointment escape item
          = pre ++ valarmBlock item.appointment.alarm_minutes.toNat ++ [str "END:VEVENT\n"] ∧
        str "BEGIN:VALARM\n" ∉ pre) ∧
    (∃ pre, write_appointment escape item = pre ++ [str "END:VEVENT\n"]) := by
  have hpre : NoLeadingB (write_appointment_fields escape item) := by
    unfold write_appointment_fields
    simp only
    refine noLeadingB_append _ _ (noLeadingB_append _ _ (noLeadingB_append _ _
      (noLeadingB_append _ _ (noLeadingB_append _ _ (noLeadingB_append _ _
      (noLeadingB_append _ _ (noLeadingB_append _ _ (noLeadingB_append _ _
      (noLeadingB_append _ _ (noLeadingB_append _ _ ?_ ?_) ?_) ?_) ?_) ?_) ?_) ?_) ?_) ?_)
      (noLeadingB_ite _ _ (noLeadingB_rrule _))) (noLeadingB_label escape item)
    · rw [List.append_assoc]
      exact noLeadingB_single _ _ 85 (by decide) (by decide)
    · rw [List.append_assoc]
      exact noLeadingB_single _ _ 68 (by decide) (by decide)
    · exact noLeadingB_opt_line _ _ 67 (by decide) (by decide)
    · exact noLeadingB_opt_line _ _ 76 (by decide) (by decide)
    · exact noLeadingB_opt_line _ _ 83 (by decide) (by decide)
    · exact noLeadingB_opt_line _ _ 68 (by decide) (by decide)
    · exact noLeadingB_opt_line _ _ 68 (by decide) (by decide)
    · exact noLeadingB_opt_line _ _ 68 (by decide) (by decide)
    · exact noLeadingB_opt_line _ _ 76 (by decide) (by decide)
    · exact noLeadingB_showas _
  have hB : (str "BEGIN:VALARM\n").head? = some 66 := by decide
  have hnot : ∀ l, NoLeadingB l → str "BEGIN:VALARM\n" ∉ l := fun l hl hm => hl _ hm hB
  have hend : str "BEGIN:VALARM\n" ≠ str "END:VEVENT\n" := by decide
  by_cases hc : item.appointment.alarm ≠ 0 ∧ 0 ≤ item.appointment.alarm_minutes ∧
      item.appointment.alarm_minutes < 1440
  · have ha : write_appointment_alarm item.appointment
        = valarmBlock item.appointment.alarm_minutes.toNat := by
      have hc' : item.appointment.alarm ≠ 0 ∧ item.appointment.alarm_minutes ≥ 0 ∧
          item.appointment.alarm_minutes < 1440 := hc
      unfold write_appointment_alarm valarmBlock
      rw [if_pos hc']
    refine ⟨⟨fun _ => hc, fun _ => ?_⟩,
      fun _ => ⟨write_appointment_fields escape item, ?_, hnot _ hpre⟩,
      ⟨write_appointment_fields escape item ++ valarmBlock item.appointment.alarm_minutes.toNat,
        ?_⟩⟩
    · simp only [write_appointment, ha, valarmBlock]
      simp
    · simp only [write_appointment, ha]
    · simp only [write_appointment, ha]
  · have ha : write_appointment_alarm item.appointment = [] := by
      have hc' : ¬ (item.appointment.alarm ≠ 0 ∧ item.appointment.alarm_minutes ≥ 0 ∧
          item.appointment.alarm_minutes < 1440) := hc
      unfold write_appointment_alarm
      rw [if_neg hc']
    refine ⟨⟨fun h => ?_, fun h => absurd h hc⟩, fun h => absurd h hc,
      ⟨write_appointment_fields escape item, ?_⟩⟩
    · exfalso
      simp only [write_appointment, ha, List.append_nil, List.mem_append,
        List.mem_singleton] at h
      rcases h with h | h
      · exact hnot _ hpre h
      · exact hend h
    · simp only [write_appointment, ha, List.append_nil]

theorem write_appointment_valarm_witness :
    ∃ pre, write_appointment id ⟨5, none, none, str "N", some (str "s"), none, [],
        ⟨none, none, none, pst_freebusy.busy, false, ⟨0, 0, 0, 0, 0, 0, 0⟩,
          pst_app_label.none, 1, 15⟩⟩
      = pre ++ valarmBlock 15 ++ [str "END:VEVENT\n"] ∧ str "BEGIN:VALARM\n" ∉ pre :=
  (write_appointment_valarm id ⟨5, none, none, str "N", some (str "s"), none, [],
    ⟨none, none, none, pst_freebusy.busy, false, ⟨0, 0, 0, 0, 0, 0, 0⟩,
      pst_app_label.none, 1, 15⟩⟩).2.1 (by decide)

theorem digitChar_toNat_eq (d : Nat) (hd : d < 10) : (Nat.digitChar d).toNat = 48 + d := by
  interval_cases d <;> rfl

theorem toDigitsCore_digits : ∀ (fuel n : Nat) (ds : List Char),
    (∀ c ∈ ds, 48 ≤ c.toNat ∧ c.toNat ≤ 57) →
    ∀ c ∈ Nat.toDigitsCore 10 fuel n ds, 48 ≤ c.toNat ∧ c.toNat ≤ 57 := by
  intro fuel
  induction fuel with
  | zero => intro n ds h; simpa [Nat.toDigitsCore] using h
  | succ fuel ih =>
    intro n ds h
    have hd := digitChar_toNat_eq (n % 10) (Nat.mod_lt _ (by decide))
    have hcons : ∀ c ∈ Nat.digitChar (n % 10) :: ds, 48 ≤ c.toNat ∧ c.toNat ≤ 57 := by
      intro c hc
      rcases List.mem_cons.mp hc with rfl | hc
      · have := Nat.mod_lt n (show 10 > 0 by decide)
        omega
      · exact h c hc
    simp only [Nat.toDigitsCore]
    split_ifs
    · exact hcons
    · exact ih _ _ hcons

theorem dec_digits (n : Nat) : ∀ c ∈ dec n, 48 ≤ c ∧ c ≤ 57 := by
  intro c hc
  unfold dec Nat.toDigits at hc
  obtain ⟨ch, hch, rfl⟩ := List.mem_map.mp hc
  exact toDigitsCore_digits _ _ [] (by simp) ch hch

theorem separate_name_eq (c : Nat) (ext : List Nat) (hc : c ≤ 999999999)
    (hext : ∀ b ∈ ext, b ∉ str "/\\:") : separate_name c ext = some (dec c ++ ext) := by
  have hnot : ¬ c > 999999999 := by omega
  have hmap : (dec c ++ ext).map sanitize_byte = dec c ++ ext := by
    apply map_sanitize_of_not_bad
    intro b hb
    rcases List.mem_append.mp hb with h | h
    · have := dec_digits c b h
      rw [mem_bad_iff]
      omega
    · exact hext b h
  simp [separate_name, mk_separate_file, hnot, check_filename_buf_eq, hmap]

theorem process_item_mail (s : settings) (ff : file_ll) (d : pst_desc_tree) (hd : IsMail d)
    (hmode : s.mode = MODE_SEPARATE) (hmsg : s.mode_MSG = false)
    (hotm : s.output_type_mode &&& 1 ≠ 0) (hc : ff.item_count + 1 ≤ 999999999) :
    process_item s ff d = some (⟨ff.item_count + 1, ff.skip_count⟩,
      [Act.file (dec (ff.item_count + 1) ++ (if s.mode_EX then str ".eml" else [])) d.forked])
    := by
  obtain ⟨hdesc, it, hit, hfold, hemail, htype⟩ := hd
  have hext : ∀ b ∈ (if s.mode_EX = true then str ".eml" else []), b ∉ str "/\\:" := by
    split_ifs
    · decide
    · simp
  have hname := separate_name_eq (ff.item_count + 1) _ hc hext
  have hcontact : (it.contact && decide (it.type = pst_type.contact)) = false := by
    rcases htype with h | h | h <;> simp [h]
  have hmail : (it.email && (decide (it.type = pst_type.note)
      || decide (it.type = pst_type.schedule) || decide (it.type = pst_type.report))) = true := by
    rcases htype with h | h | h <;> simp [h, hemail]
  unfold process_item
  simp only [hdesc, hit, Bool.not_true, Bool.false_eq_true, if_false]
  rcases hfold with hf | hf
  · simp only [hf, hcontact, hmail, hotm, hmode, hname, hmsg, if_true, if_false,
      Bool.false_eq_true]
  · simp only [hf]
    cases it.folder <;>
      simp only [hcontact, hmail, hotm, hmode, hname, hmsg, if_true, if_false,
        Bool.false_eq_true]

theorem process_loop_mails (s : settings) (hmode : s.mode = MODE_SEPARATE)
    (hmsg : s.mode_MSG = false) (hotm : s.output_type_mode &&& 1 ≠ 0) :
    ∀ (chain : List pst_desc_tree) (c k : Nat), (∀ d ∈ chain, IsMail d) →
    c + chain.length ≤ 999999999 →
    process_loop s ⟨c, k⟩ chain = some (⟨c + chain.length, k⟩,
      (chain.enumFrom (c + 1)).map (fun p =>
        Act.file (dec p.1 ++ (if s.mode_EX then str ".eml" else [])) p.2.forked)) := by
  intro chain
  induction chain with
  | nil => intro c k _ _; rfl
  | cons d rest ih =>
    intro c k hall hlen
    simp only [List.length_cons] at hlen
    have h1 := process_item_mail s ⟨c, k⟩ d (hall d (by simp)) hmode hmsg hotm
      (by simp only; omega)
    simp only at h1
    have h2 := ih (c + 1) k (fun d hd => hall d (by simp [hd])) (by omega)
    simp only [process_loop, h1, h2, List.length_cons, List.enumFrom_cons, List.map_cons,
      List.singleton_append]
    congr 2
    simp only [file_ll.mk.injEq, and_true]
    omega

/-- C19 as stated fails: in separate mode a folder that holds a single mail yields the file
`1`, not `0`: `item_count` is incremented before `mk_separate_file` uses it. -/
theorem process_first_file_is_one :
    process ⟨MODE_SEPARATE, false, false, 255, false⟩ [mail_desc]
      = some (⟨1, 0⟩, [Act.file (str "1") false]) ∧
    process ⟨MODE_SEPARATE, true, false, 255, false⟩ [mail_desc]
      = some (⟨1, 0⟩, [Act.file (str "1.eml") false]) := by
  decide

/-- C19 amended: in separate mode (without the MSG sub-mode, mail output enabled) the mails
written in a folder that holds only mails are named by consecutive numbers starting at 1:
the `i`-th mail gets the file name decimal(i), followed by `.eml` when extensions are
enabled, so a folder holding a single mail yields exactly one file named `1`. -/
theorem process_separate_names (s : settings) (chain : List pst_desc_tree)
    (hmode : s.mode = MODE_SEPARATE) (hmsg : s.mode_MSG = false)
    (hotm : s.output_type_mode &&& 1 ≠ 0) (hall : ∀ d ∈ chain, IsMail d)
    (hlen : chain.length ≤ 999999999) :
    process s chain = some (⟨chain.length, 0⟩,
      (chain.enumFrom 1).map (fun p =>
        Act.file (dec p.1 ++ (if s.mode_EX then str ".eml" else [])) p.2.forked)) := by
  have h := process_loop_mails s hmode hmsg hotm chain 0 0 hall (by omega)
  simpa [process] using h

theorem process_separate_names_witness :
    process ⟨MODE_SEPARATE, true, false, 1, false⟩ [mail_desc, mail_desc]
      = some (⟨2, 0⟩, [Act.file (str "1.eml") false, Act.file (str "2.eml") false]) :=
  process_separate_names ⟨MODE_SEPARATE, true, false, 1, false⟩ [mail_desc, mail_desc]
    rfl rfl (by decide)
    (by
      intro d hd
      simp only [List.mem_cons, List.mem_singleton, List.not_mem_nil, or_false, or_self] at hd
      subst hd
      exact ⟨rfl, _, rfl, Or.inl rfl, rfl, Or.inl rfl⟩)
    (by decide)

theorem process_item_folder (s : settings) (ff : file_ll) (d : pst_desc_tree) (name : List Nat)
    (hd : IsFolder d name) :
    process_item s ff d = some (⟨ff.item_count + 1, ff.skip_count⟩,
      if d.child = true ∧
          (s.deleted_include = true ∨ strcasecmp_eq name (str "Deleted Items") = false)
        then [Act.descend name d.forked] else []) := by
  obtain ⟨hdesc, it, hit, hfold, hname⟩ := hd
  unfold process_item
  simp only [hdesc, hit, hfold, hname, Bool.not_true, Bool.false_eq_true, if_false]
  by_cases hc : d.child = true ∧
      (s.deleted_include = true ∨ strcasecmp_eq name (str "Deleted Items") = false)
  · have : (d.child && (s.deleted_include || !strcasecmp_eq name (str "Deleted Items")))
        = true := by
      rcases hc with ⟨h1, h2 | h2⟩ <;> simp [h1, h2]
    rw [if_pos this, if_pos hc]
  · have : (d.child && (s.deleted_include || !strcasecmp_eq name (str "Deleted Items")))
        = false := by
      cases hch : d.child
      · simp
      · cases hdi : s.deleted_include
        · cases hs : strcasecmp_eq name (str "Deleted Items")
          · exact absurd ⟨hch, Or.inr hs⟩ hc
          · simp
        · exact absurd ⟨hch, Or.inl hdi⟩ hc
    rw [if_neg (by rw [this]; exact Bool.false_ne_true), if_neg hc]

theorem process_item_descend (s : settings) (ff ff1 : file_ll) (d : pst_desc_tree)
    (acts : List Act) (name : List Nat) (f : Bool)
    (h : process_item s ff d = some (ff1, acts)) (hm : Act.descend name f ∈ acts) :
    IsFolder d name ∧ d.forked = f ∧ d.child = true ∧
      (s.deleted_include = true ∨ strcasecmp_eq name (str "Deleted Items") = false) := by
  rcases d with ⟨desc, item, child, forked⟩
  cases desc
  · simp [process_item] at h
    obtain ⟨_, rfl⟩ := h
    simp at hm
  cases item with
  | none =>
    simp [process_item] at h
    obtain ⟨_, rfl⟩ := h
    simp at hm
  | some it =>
    rcases it with ⟨folder, file_as, contact, email, journal, appointment, ms, type⟩
    unfold process_item at h
    simp only [Bool.not_true, Bool.false_eq_true, if_false] at h
    cases folder <;> cases file_as <;> simp only at h
    case true.some nm =>
      split_ifs at h with hc
      · simp only [Option.some.injEq, Prod.mk.injEq] at h
        obtain ⟨_, rfl⟩ := h
        simp only [List.mem_singleton, Act.descend.injEq] at hm
        obtain ⟨rfl, rfl⟩ := hm
        simp only [Bool.and_eq_true, Bool.or_eq_true, Bool.not_eq_true'] at hc
        exact ⟨⟨rfl, _, rfl, rfl, rfl⟩, rfl, hc.1, hc.2⟩
      · simp only [Option.some.injEq, Prod.mk.injEq] at h
        obtain ⟨_, rfl⟩ := h
        simp at hm
    all_goals
      exfalso
      repeat' split at h
      all_goals
        first
          | (simp only [Option.some.injEq, Prod.mk.injEq] at h
             obtain ⟨_, rfl⟩ := h
             simp at hm)
          | simp at h

theorem process_loop_descend (s : settings) : ∀ (chain : List pst_desc_tree) (ff ff1 : file_ll)
    (acts : List Act), process_loop s ff chain = some (ff1, acts) →
    ∀ (name : List Nat) (f : Bool), Act.descend name f ∈ acts ↔
      ∃ d ∈ chain, IsFolder d name ∧ d.forked = f ∧ d.child = true ∧
        (s.deleted_include = true ∨ strcasecmp_eq name (str "Deleted Items") = false) := by
  intro chain
  induction chain with
  | nil =>
    intro ff ff1 acts h name f
    simp only [process_loop, Option.some.injEq, Prod.mk.injEq] at h
    obtain ⟨_, rfl⟩ := h
    simp
  | cons d rest ih =>
    intro ff ff1 acts h name f
    simp only [process_loop] at h
    cases h1 : process_item s ff d with
    | none => simp [h1] at h
    | some r1 =>
      obtain ⟨ffa, actsa⟩ := r1
      simp only [h1] at h
      cases h2 : process_loop s ffa rest with
      | none => simp [h2] at h
      | some r2 =>
        obtain ⟨ffb, actsb⟩ := r2
        simp only [h2, Option.some.injEq, Prod.mk.injEq] at h
        obtain ⟨_, rfl⟩ := h
        rw [List.mem_append, ih ffa ffb actsb h2 name f]
        constructor
        · rintro (hm | ⟨d', hd', hrest⟩)
          · exact ⟨d, by simp, process_item_descend s ff ffa d actsa name f h1 hm⟩
          · exact ⟨d', by simp [hd'], hrest⟩
        · rintro ⟨d', hd', hfold, hfork, hrest⟩
          rcases List.mem_cons.mp hd' with rfl | hd'
          · left
            have := process_item_folder s ff d' name hfold
            rw [h1, if_pos hrest] at this
            simp only [Option.some.injEq, Prod.mk.injEq] at this
            rw [this.2, hfork]
            simp
          · exact Or.inr ⟨d', hd', hfold, hfork, hrest⟩

/-- C20: for a descriptor that `process` handles as a folder, `item_count` is incremented
whatever the name is, and `process` is called for its children (by this process or by the
child forked for it) if and only if the descriptor has children and either the
include-deleted switch is on or the name differs from `Deleted Items` ignoring case; over a
whole sibling chain these are the only descents. -/
theorem process_deleted_items :
    (∀ (s : settings) (ff : file_ll) (d : pst_desc_tree) (name : List Nat), IsFolder d name →
      process_item s ff d = some (⟨ff.item_count + 1, ff.skip_count⟩,
        if d.child = true ∧ (s.deleted_include = true ∨
            strcasecmp_eq name (str "Deleted Items") = false)
          then [Act.descend name d.forked] else [])) ∧
    (∀ (s : settings) (chain : List pst_desc_tree) (ff ff1 : file_ll) (acts : List Act),
      process_loop s ff chain = some (ff1, acts) →
      ∀ (name : List Nat) (f : Bool), Act.descend name f ∈ acts ↔
        ∃ d ∈ chain, IsFolder d name ∧ d.forked = f ∧ d.child = true ∧
          (s.deleted_include = true ∨ strcasecmp_eq name (str "Deleted Items") = false)) ∧
    (∀ name : List Nat, strcasecmp_eq name (str "Deleted Items") = true ↔
      name.map tolower = (str "Deleted Items").map tolower) := by
  refine ⟨process_item_folder, fun s chain => process_loop_descend s chain, ?_⟩
  intro name
  simp [strcasecmp_eq]

theorem process_deleted_items_witness :
    process_item ⟨MODE_NORMAL, false, false, 255, false⟩ ⟨3, 0⟩
      ⟨true, some ⟨true, some (str "DELETED items"), false, false, false, false, false,
        pst_type.other⟩, true, false⟩
      = some (⟨4, 0⟩, []) ∧
    process_item ⟨MODE_NORMAL, false, false, 255, true⟩ ⟨3, 0⟩
      ⟨true, some ⟨true, some (str "DELETED items"), false, false, false, false, false,
        pst_type.other⟩, true, false⟩
      = some (⟨4, 0⟩, [Act.descend (str "DELETED items") false]) :=
  ⟨process_deleted_items.1 ⟨MODE_NORMAL, false, false, 255, false⟩ ⟨3, 0⟩
      ⟨true, some ⟨true, some (str "DELETED items"), false, false, false, false, false,
        pst_type.other⟩, true, false⟩ (str "DELETED items") ⟨rfl, _, rfl, rfl, rfl⟩,
    by decide⟩

theorem removeCR_eq_filter (s : List Nat) : removeCR s = s.filter (· ≠ 13) := by
  induction s with
  | nil => rfl
  | cons a t ih =>
    by_cases h : a = 13
    · simp [removeCR, h, ih]
    · simp [removeCR, h, ih]

theorem cstr_append_zero (pre rest : List Nat) (h : ∀ c ∈ pre, c ≠ 0) :
    cstr (pre ++ 0 :: rest) = pre := by
  induction pre with
  | nil => simp [cstr]
  | cons x pre ih =>
    have hx : x ≠ 0 := h x (List.mem_cons_self _ _)
    have := ih (fun c hc => h c (List.mem_cons_of_mem _ hc))
    unfold cstr at this ⊢
    rw [List.cons_append, List.takeWhile_cons]
    have hd : decide (x ≠ 0) = true := by simpa using hx
    simp only [hd, if_true, this]

theorem getD_append_mid (pre mid rest : List Nat) (x : Nat) :
    (pre ++ (mid ++ x :: rest)).getD (pre.length + mid.length) 0 = x := by
  rw [← List.append_assoc, ← List.length_append, List.getD_eq_getElem?_getD,
    List.getElem?_append_right (le_refl _)]
  simp

theorem removeCR_loop_spec : ∀ (rest : List Nat) (fuel : Nat) (pre mid : List Nat),
    (∀ c ∈ rest, c ≠ 0) → (∀ c ∈ pre, c ≠ 0) → rest.length < fuel →
    (removeCR_loop fuel (pre ++ (mid ++ (rest ++ [0]))) (pre.length + mid.length)
      pre.length).map cstr = some (pre ++ removeCR rest) := by
  intro rest
  induction rest with
  | nil =>
    intro fuel pre mid _ hpre hf
    obtain ⟨f, rfl⟩ : ∃ f, fuel = f + 1 := ⟨fuel - 1, by simp at hf; omega⟩
    have hget : (pre ++ (mid ++ ([] ++ [0]))).getD (pre.length + mid.length) 0 = 0 :=
      getD_append_mid pre mid [] 0
    simp only [removeCR_loop, hget, ne_eq, not_true_eq_false, if_false, Option.map_some',
      removeCR, List.append_nil]
    congr 1
    have : (pre ++ (mid ++ ([] ++ [0]))).set pre.length 0
        = pre ++ 0 :: (mid ++ [0]).tail := by
      rw [List.set_append_right _ _ (le_refl _)]
      cases mid <;> simp
    rw [this]
    exact cstr_append_zero pre _ hpre
  | cons x rest ih =>
    intro fuel pre mid hrest hpre hf
    obtain ⟨f, rfl⟩ : ∃ f, fuel = f + 1 := ⟨fuel - 1, by simp at hf; omega⟩
    have hx : x ≠ 0 := hrest x (List.mem_cons_self _ _)
    have hget : (pre ++ (mid ++ (x :: rest ++ [0]))).getD (pre.length + mid.length) 0 = x := by
      rw [List.cons_append]; exact getD_append_mid pre mid (rest ++ [0]) x
    have hset : (pre ++ (mid ++ (x :: rest ++ [0]))).set pre.length x
        = pre ++ (x :: ((mid ++ [x]).tail ++ (rest ++ [0]))) := by
      rw [List.set_append_right _ _ (le_refl _)]
      cases mid <;> simp
    simp only [removeCR_loop, hget, ne_eq, hx, not_false_eq_true, if_true, hset]
    have hlen : ((mid ++ [x]).tail).length = mid.length := by simp
    by_cases h13 : x = 13
    · have h := ih f pre (x :: (mid ++ [x]).tail) (fun c hc => hrest c (List.mem_cons_of_mem _ hc))
        hpre (by simp at hf; omega)
      simp only [List.length_cons, hlen, List.cons_append] at h
      simp only [h13, not_true_eq_false, if_false, removeCR, ne_eq]
      rw [← h13, ← h, Nat.add_assoc]
    · have h := ih f (pre ++ [x]) ((mid ++ [x]).tail)
        (fun c hc => hrest c (List.mem_cons_of_mem _ hc))
        (by
          intro c hc
          rcases List.mem_append.mp hc with hc | hc
          · exact hpre c hc
          · simp at hc; rw [hc]; exact hx)
        (by simp at hf; omega)
      simp only [List.length_append, List.length_singleton, hlen, List.append_assoc,
        List.singleton_append] at h
      simp only [h13, not_false_eq_true, if_true, removeCR, ne_eq]
      have e : pre.length + 1 + mid.length = pre.length + mid.length + 1 := by omega
      rw [e] at h
      rw [h]

theorem removeCR_inplace_eq (s : List Nat) (hs : ∀ c ∈ s, c ≠ 0) :
    removeCR_inplace s = some (removeCR s) := by
  have h := removeCR_loop_spec s (s.length + 1) [] [] hs (by simp) (by omega)
  simpa [removeCR_inplace] using h

/-- Claim C29: run in place on the buffer of a string `s`, `removeCR` returns and leaves
exactly `s` with every CR byte deleted and all other bytes in their original order; the
result contains no CR, is no longer than `s`, and running `removeCR` on the result changes
nothing. -/
theorem removeCR_deletes_every_CR (s : List Nat) (hs : ∀ c ∈ s, c ≠ 0) :
    removeCR_inplace s = some (s.filter (· ≠ 13)) ∧
    removeCR s = s.filter (· ≠ 13) ∧
    13 ∉ removeCR s ∧
    (removeCR s).length ≤ s.length ∧
    removeCR (removeCR s) = removeCR s ∧
    removeCR_inplace (s.filter (· ≠ 13)) = some (s.filter (· ≠ 13)) := by
  have hf : ∀ c ∈ s.filter (· ≠ 13), c ≠ 0 := fun c hc => hs c (List.mem_filter.mp hc).1
  refine ⟨?_, removeCR_eq_filter s, ?_, ?_, ?_, ?_⟩
  · rw [removeCR_inplace_eq s hs, removeCR_eq_filter]
  · rw [removeCR_eq_filter]; simp
  · rw [removeCR_eq_filter]; exact List.length_filter_le _ _
  · simp [removeCR_eq_filter]
  · rw [removeCR_inplace_eq _ hf, removeCR_eq_filter]; simp

theorem removeCR_deletes_every_CR_witness :
    removeCR_inplace (str "a\r\nb\r") = some (str "a\nb") ∧
    removeCR (str "a\r\nb\r") = str "a\nb" := by
  have h := removeCR_deletes_every_CR (str "a\r\nb\r") (by decide)
  exact ⟨by rw [h.1]; decide, by rw [h.2.1]; decide⟩

theorem strchr_some_spec : ∀ (s : List Nat) (c i : Nat), strchr s c = some i →
    i < s.length ∧ s.getD i 0 = c ∧ ∀ j, j < i → s.getD j 0 ≠ c := by
  intro s c
  induction s with
  | nil => intro i h; simp [strchr] at h
  | cons b t ih =>
    intro i h
    by_cases hb : b = c
    · simp only [strchr, hb, if_true, Option.some.injEq] at h
      subst h
      exact ⟨by simp, by simp [hb], fun j hj => absurd hj (Nat.not_lt_zero j)⟩
    · simp only [strchr, hb, if_false, Option.map_eq_some'] at h
      obtain ⟨k, hk, rfl⟩ := h
      obtain ⟨h1, h2, h3⟩ := ih k hk
      refine ⟨by simp; omega, by simpa using h2, ?_⟩
      intro j hj
      cases j with
      | zero => simpa using hb
      | succ j => simpa using h3 j (by omega)

theorem strchr_none_spec : ∀ (s : List Nat) (c : Nat), strchr s c = none →
    ∀ j, j < s.length → s.getD j 0 ≠ c := by
  intro s c
  induction s with
  | nil => intro _ j hj; simp at hj
  | cons b t ih =>
    intro h j hj
    by_cases hb : b = c
    · simp [strchr, hb] at h
    · simp only [strchr, hb, if_false, Option.map_eq_none'] at h
      cases j with
      | zero => simpa using hb
      | succ j => simpa using ih h j (by simpa using hj)

theorem getD_drop (s : List Nat) (i j : Nat) : (s.drop i).getD j 0 = s.getD (i + j) 0 := by
  simp [List.getD_eq_getElem?_getD, List.getElem?_drop]

theorem strchr_from_some_spec (s : List Nat) (i c k : Nat) (h : strchr_from s i c = some k) :
    i ≤ k ∧ k < s.length ∧ s.getD k 0 = c ∧ ∀ j, i ≤ j → j < k → s.getD j 0 ≠ c := by
  simp only [strchr_from, Option.map_eq_some'] at h
  obtain ⟨m, hm, rfl⟩ := h
  obtain ⟨h1, h2, h3⟩ := strchr_some_spec _ _ _ hm
  rw [List.length_drop] at h1
  rw [getD_drop] at h2
  refine ⟨by omega, by omega, by rw [Nat.add_comm]; exact h2, ?_⟩
  intro j hij hjk
  have := h3 (j - i) (by omega)
  rw [getD_drop] at this
  rwa [show i + (j - i) = j by omega] at this

theorem strchr_from_none_spec (s : List Nat) (i c : Nat) (h : strchr_from s i c = none) :
    ∀ j, i ≤ j → j < s.length → s.getD j 0 ≠ c := by
  simp only [strchr_from, Option.map_eq_none'] at h
  intro j hij hj
  have := strchr_none_spec _ _ h (j - i) (by rw [List.length_drop]; omega)
  rw [getD_drop] at this
  rwa [show i + (j - i) = j by omega] at this

theorem header_end_field_loop_spec (field : List Nat) : ∀ (fuel p : Nat), 1 ≤ p →
    (∀ j, 1 ≤ j → j < p → ¬ IsFieldEnd field j) → field.length < fuel + p →
    ∃ r, header_end_field_loop field fuel (strchr_from field p 10) = some r ∧
      match r with
      | some e => 1 ≤ e ∧ IsFieldEnd field e ∧ ∀ j, 1 ≤ j → j < e → ¬ IsFieldEnd field j
      | none => ∀ j, 1 ≤ j → ¬ IsFieldEnd field j := by
  intro fuel
  induction fuel with
  | zero =>
    intro p hp hbefore hfuel
    cases hs : strchr_from field p 10 with
    | none =>
      refine ⟨none, by simp [header_end_field_loop], ?_⟩
      intro j hj hend
      by_cases hjp : j < p
      · exact hbefore j hj hjp hend
      · exact strchr_from_none_spec _ _ _ hs j (by omega) hend.1 hend.2.1
    | some e =>
      have := strchr_from_some_spec _ _ _ _ hs
      omega
  | succ f ih =>
    intro p hp hbefore hfuel
    cases hs : strchr_from field p 10 with
    | none =>
      refine ⟨none, by simp [header_end_field_loop], ?_⟩
      intro j hj hend
      by_cases hjp : j < p
      · exact hbefore j hj hjp hend
      · exact strchr_from_none_spec _ _ _ hs j (by omega) hend.1 hend.2.1
    | some e =>
      obtain ⟨h1, h2, h3, h4⟩ := strchr_from_some_spec _ _ _ _ hs
      have hbefore_e : ∀ j, 1 ≤ j → j < e → ¬ IsFieldEnd field j := by
        intro j hj hje hend
        by_cases hjp : j < p
        · exact hbefore j hj hjp hend
        · exact h4 j (by omega) hje hend.2.1
      by_cases hc : field.getD (e + 1) 0 = 32 ∨ field.getD (e + 1) 0 = 9
      · simp only [header_end_field_loop, hc, if_true]
        apply ih (e + 1) (by omega) _ (by omega)
        intro j hj hje hend
        by_cases hje2 : j < e
        · exact hbefore_e j hj hje2 hend
        · have : j = e := by omega
          subst this
          rcases hc with hc | hc
          · exact hend.2.2.1 hc
          · exact hend.2.2.2 hc
      · simp only [header_end_field_loop, hc, if_false]
        refine ⟨some e, rfl, by omega, ⟨h2, h3, ?_, ?_⟩, hbefore_e⟩
        · exact fun h => hc (Or.inl h)
        · exact fun h => hc (Or.inr h)

/-- Claim C28: `header_end_field(field)` returns, and what it returns is the position of the
first LF at offset 1 or more of `field` that is not immediately followed by a blank or a tab;
it returns `NULL` if and only if there is no such LF. -/
theorem header_end_field_first_unfolded_LF (field : List Nat) :
    ∃ r, header_end_field field = some r ∧
      (∀ e, r = some e ↔
        (1 ≤ e ∧ IsFieldEnd field e ∧ ∀ j, 1 ≤ j → j < e → ¬ IsFieldEnd field j)) ∧
      (r = none ↔ ∀ j, 1 ≤ j → ¬ IsFieldEnd field j) := by
  obtain ⟨r, hr, hspec⟩ := header_end_field_loop_spec field (field.length + 1) 1 (le_refl _)
    (fun j h1 h2 => by omega) (by omega)
  refine ⟨r, hr, ?_, ?_⟩
  · intro e
    cases r with
    | none =>
      simp only [false_iff, not_and, reduceCtorEq]
      intro he hend
      exact absurd hend (hspec e he)
    | some e0 =>
      simp only at hspec
      obtain ⟨a1, a2, a3⟩ := hspec
      simp only [Option.some.injEq]
      constructor
      · rintro rfl; exact ⟨a1, a2, a3⟩
      · rintro ⟨b1, b2, b3⟩
        rcases Nat.lt_trichotomy e0 e with h | h | h
        · exact absurd a2 (b3 e0 a1 h)
        · exact h
        · exact absurd b2 (a3 e b1 h)
  · cases r with
    | none => simpa using hspec
    | some e0 =>
      simp only at hspec
      simp only [false_iff, reduceCtorEq]
      intro h
      exact h e0 hspec.1 hspec.2.1

theorem byday_step_mod (m : Nat) (st : List Nat × Bool) (i : Nat) (hi7 : i < 7) :
    write_appointment_byday_step m st i = write_appointment_byday_step (m % 128) st i := by
  have : (m % 128).testBit i = m.testBit i := by
    rw [show (128 : Nat) = 2 ^ 7 by norm_num, Nat.testBit_mod_two_pow]
    simp [hi7]
  unfold write_appointment_byday_step
  rw [this]

theorem byday_foldl_mod (m k : Nat) (hk : k ≤ 7) :
    (List.range k).foldl (write_appointment_byday_step m) ([], true) =
      (List.range k).foldl (write_appointment_byday_step (m % 128)) ([], true) :=
  List.foldl_ext _ _ _
    (fun st i hi => byday_step_mod m st i (by have := List.mem_range.mp hi; omega))

theorem bydayText_mod (m : Nat) : bydayText m = bydayText (m % 128) := by
  have : (List.range 7).filter (fun i => m.testBit i)
      = (List.range 7).filter (fun i => (m % 128).testBit i) := by
    apply List.filter_congr
    intro i hi
    have hi7 : i < 7 := List.mem_range.mp hi
    rw [show (128 : Nat) = 2 ^ 7 by norm_num, Nat.testBit_mod_two_pow]
    simp [hi7]
  unfold bydayText
  rw [this]

set_option maxRecDepth 100000 in
theorem write_appointment_byday_small :
    ∀ m < 128, write_appointment_byday m = bydayText m ∧ (bydayText m = [] ↔ m = 0) ∧
      ∀ k < 8, ((List.range k).foldl (write_appointment_byday_step m) ([], true)).1.length
        ≤ 27 := by
  decide

theorem write_appointment_byday_eq (m : Nat) :
    write_appointment_byday m = bydayText m ∧ (bydayText m = [] ↔ m % 128 = 0) ∧
      ∀ k ≤ 7, ((List.range k).foldl (write_appointment_byday_step m) ([], true)).1.length
        ≤ 27 := by
  obtain ⟨h1, h2, h3⟩ := write_appointment_byday_small (m % 128) (Nat.mod_lt _ (by norm_num))
  refine ⟨?_, ?_, ?_⟩
  · unfold write_appointment_byday
    rw [byday_foldl_mod m 7 (le_refl _), bydayText_mod]
    exact h1
  · rw [bydayText_mod]; exact h2
  · intro k hk
    rw [byday_foldl_mod m k hk]
    exact h3 k (by omega)

/-- Claim C30: for a recurrence record with `type` in 0..3, what `write_appointment` writes
for it is one line: `RRULE:FREQ=` and DAILY, WEEKLY, MONTHLY or YEARLY by `type`, then in
this order `;COUNT=n` iff `count` is not 0, `;INTERVAL=n` iff `interval` is neither 0 nor 1,
`;BYMONTHDAY=n` iff `dayofmonth` is not 0, `;BYMONTH=n` iff `monthofyear` is not 0,
`;BYSETPOS=n` iff `position` is not 0, and the BYDAY text, which is empty iff the low seven
bits of the day mask are all zero and otherwise is `;BYDAY=` and the names of the set bits in
the order SU..SA joined by `;`.  The buffer `byday` never holds more than 27 characters
during the loop, so the text fits its 40 bytes. -/
theorem write_appointment_rrule_line (rdata : pst_recurrence) (ht : rdata.type ≤ 3) :
    (write_appointment_rrule rdata).flatten =
      str "RRULE:FREQ=" ++
      (if rdata.type = 0 then str "DAILY" else if rdata.type = 1 then str "WEEKLY"
        else if rdata.type = 2 then str "MONTHLY" else str "YEARLY") ++
      (if rdata.count ≠ 0 then str ";COUNT=" ++ dec rdata.count else []) ++
      (if rdata.interval ≠ 0 ∧ rdata.interval ≠ 1 then str ";INTERVAL=" ++ dec rdata.interval
        else []) ++
      (if rdata.dayofmonth ≠ 0 then str ";BYMONTHDAY=" ++ dec rdata.dayofmonth else []) ++
      (if rdata.monthofyear ≠ 0 then str ";BYMONTH=" ++ dec rdata.monthofyear else []) ++
      (if rdata.position ≠ 0 then str ";BYSETPOS=" ++ dec rdata.position else []) ++
      bydayText rdata.bydaymask ++ str "\n" ∧
    (bydayText rdata.bydaymask = [] ↔ rdata.bydaymask % 128 = 0) ∧
    (∀ k ≤ 7, ((List.range k).foldl (write_appointment_byday_step rdata.bydaymask)
      ([], true)).1.length ≤ 27) ∧
    (bydayText rdata.bydaymask).length ≤ 27 := by
  obtain ⟨type, count, interval, dayofmonth, monthofyear, position, bydaymask⟩ := rdata
  simp only at ht ⊢
  obtain ⟨h1, h2, h3⟩ := write_appointment_byday_eq bydaymask
  refine ⟨?_, h2, h3, ?_⟩
  · have hr : rules.getD type [] =
        (if type = 0 then str "DAILY" else if type = 1 then str "WEEKLY"
          else if type = 2 then str "MONTHLY" else str "YEARLY") := by
      have : type = 0 ∨ type = 1 ∨ type = 2 ∨ type = 3 := by omega
      rcases this with h | h | h | h <;> subst h <;> rfl
    have hb : (if bydaymask ≠ 0 then [write_appointment_byday bydaymask] else []).flatten
        = bydayText bydaymask := by
      by_cases hm : bydaymask = 0
      · subst hm; decide
      · simp [hm, h1]
    have hi : (interval ≠ 1 ∧ interval ≠ 0) ↔ (interval ≠ 0 ∧ interval ≠ 1) := And.comm
    unfold write_appointment_rrule
    simp only [List.flatten_append, hb, hr, hi]
    by_cases c1 : count = 0 <;> by_cases c2 : interval ≠ 0 ∧ interval ≠ 1 <;>
      by_cases c3 : dayofmonth = 0 <;> by_cases c4 : monthofyear = 0 <;>
      by_cases c5 : position = 0 <;>
      simp [c1, c2, c3, c4, c5]
  · have := h3 7 (le_refl _)
    rw [← h1]
    exact this

theorem write_appointment_rrule_line_witness :
    (write_appointment_rrule ⟨1, 0, 2, 0, 0, 0, 10⟩).flatten
      = str "RRULE:FREQ=WEEKLY;INTERVAL=2;BYDAY=MO;WE\n" := by
  rw [(write_appointment_rrule_line ⟨1, 0, 2, 0, 0, 0, 10⟩ (by decide)).1]
  decide

/-- Claim C21: a process whose only child exited with code `c + 1` (wait status
`(c + 1) * 256`) calls `exit` with that wait status when it reaps the child, so the exit code
its own parent sees is 0, not `c + 1`. -/
theorem grim_reaper_exits_with_wait_status (c : Nat) (waitall : Bool) :
    grim_reaper (fun _ _ => some ((c + 1) * 256)) waitall ⟨1, 4, 1, [7, 0, 0, 0], some 3⟩
      = some (Ran.exited ((c + 1) * 256)) ∧
    exit_code_seen ((c + 1) * 256) = 0 := by
  constructor
  · simp [grim_reaper, grim_reaper_loop]
  · simp [exit_code_seen]

/-- Claim C22: in a root process with 4 as the maximum, a `fork()` that fails leaves the
semaphore one short: `try_fork` has done its `sem_wait`, the folder is processed by the root
itself, which does no `sem_post`, and after the final blocking reap the semaphore is at 3. -/
theorem fork_failure_leaks_semaphore :
    process_descend (fun _ _ => none) fork_result.failed (fun p => some (Ran.returned p))
        ⟨1, 4, 0, [0, 0, 0, 0], some 4⟩
      = some (Ran.returned ⟨1, 4, 0, [0, 0, 0, 0], some 3⟩) ∧
    grim_reaper (fun _ _ => none) true ⟨1, 4, 0, [0, 0, 0, 0], some 3⟩
      = some (Ran.returned (⟨1, 4, 0, [0, 0, 0, 0], some 3⟩, 3)) := by
  constructor <;> decide

theorem grim_reaper_shift_length : ∀ (n j : Nat) (cp : List Nat),
    (grim_reaper_shift n j cp).length = cp.length := by
  intro n
  induction n with
  | zero => intro j cp; rfl
  | succ n ih => intro j cp; simp [grim_reaper_shift, ih]

theorem grim_reaper_loop_bounds (waitpid : Nat → Bool → Option Nat) (waitall : Bool) :
    ∀ (fuel i : Nat) (active : Int) (cp : List Nat),
    (active - i).toNat ≤ fuel → (i : Int) ≤ active →
    ∃ r, grim_reaper_loop waitpid waitall fuel i active cp = some r ∧
      ∀ a cp1, r = Ran.returned (a, cp1) →
        (i : Int) ≤ a ∧ a ≤ active ∧ cp1.length = cp.length := by
  intro fuel
  induction fuel with
  | zero =>
    intro i active cp hf hi
    have : ¬ (i : Int) < active := by omega
    refine ⟨Ran.returned (active, cp), by simp [grim_reaper_loop, this], ?_⟩
    intro a cp1 h
    simp only [Ran.returned.injEq, Prod.mk.injEq] at h
    obtain ⟨rfl, rfl⟩ := h
    exact ⟨hi, le_refl _, rfl⟩
  | succ f ih =>
    intro i active cp hf hi
    by_cases hlt : (i : Int) < active
    · simp only [grim_reaper_loop, hlt, if_true]
      cases hw : waitpid (cp.getD i 0) waitall with
      | none =>
        try dsimp only
        obtain ⟨r, hr, hspec⟩ := ih (i + 1) active cp (by omega) (by omega)
        refine ⟨r, hr, ?_⟩
        intro a cp1 h
        obtain ⟨h1, h2, h3⟩ := hspec a cp1 h
        exact ⟨by omega, h2, h3⟩
      | some status =>
        try dsimp only
        by_cases hs : status ≠ 0
        · rw [if_pos hs]
          exact ⟨_, rfl, fun a cp1 h => by simp at h⟩
        · rw [if_neg hs]
          obtain ⟨r, hr, hspec⟩ := ih i (active - 1)
            (grim_reaper_shift (active - 1 - i).toNat i cp) (by omega) (by omega)
          refine ⟨r, hr, ?_⟩
          intro a cp1 h
          obtain ⟨h1, h2, h3⟩ := hspec a cp1 h
          exact ⟨h1, by omega, by rw [h3, grim_reaper_shift_length]⟩
    · refine ⟨Ran.returned (active, cp), by simp [grim_reaper_loop, hlt], ?_⟩
      intro a cp1 h
      simp only [Ran.returned.injEq, Prod.mk.injEq] at h
      obtain ⟨rfl, rfl⟩ := h
      exact ⟨hi, le_refl _, rfl⟩

theorem grim_reaper_bounds (waitpid : Nat → Bool → Option Nat) (waitall : Bool)
    (p : proc_state) (h0 : 0 ≤ p.active_children) :
    ∃ r, grim_reaper waitpid waitall p = some r ∧
      ∀ p1 available, r = Ran.returned (p1, available) →
        0 ≤ p1.active_children ∧ p1.active_children ≤ p.active_children ∧
        p1.max_children = p.max_children ∧
        p1.child_processes.length = p.child_processes.length ∧
        p1.global_children = p.global_children ∧ p1.pid = p.pid ∧
        (available ≠ 0 → p.global_children = some available) := by
  obtain ⟨pid, max, active, cp, sem⟩ := p
  simp only at h0
  cases sem with
  | none =>
    refine ⟨_, rfl, ?_⟩
    intro p1 available h
    simp only [Ran.returned.injEq, Prod.mk.injEq] at h
    obtain ⟨rfl, rfl⟩ := h
    exact ⟨h0, le_refl _, rfl, rfl, rfl, rfl, fun h => absurd rfl h⟩
  | some v =>
    obtain ⟨r, hr, hspec⟩ := grim_reaper_loop_bounds waitpid waitall active.toNat 0 active cp
      (by simp) (by simpa using h0)
    simp only [grim_reaper, hr]
    cases r with
    | exited status => exact ⟨_, rfl, fun p1 available h => by simp at h⟩
    | returned x =>
      obtain ⟨a, cp1⟩ := x
      refine ⟨_, rfl, ?_⟩
      intro p1 available h
      simp only [Ran.returned.injEq, Prod.mk.injEq] at h
      obtain ⟨rfl, rfl⟩ := h
      obtain ⟨h1, h2, h3⟩ := hspec a cp1 rfl
      exact ⟨by simpa using h1, h2, rfl, h3, rfl, rfl, fun _ => rfl⟩

/-- Claim C23: from a state with `0 <= active_children <= max_children` and an array
`child_processes` of `max_children` entries, as `main` sets them up, both `grim_reaper` and
`try_fork` return or end the process, and when they return `active_children` is again between
0 and `max_children` and the array has its size.  `grim_reaper` does not increase the count;
`try_fork` writes into the array only at an index below `max_children`, and raises the count
only when, after its reaping, the count was below `max_children`. -/
theorem active_children_bounded (waitpid : Nat → Bool → Option Nat) (waitall : Bool)
    (fork : fork_result) (p : proc_state) (h0 : 0 ≤ p.active_children)
    (hmax : p.active_children ≤ p.max_children)
    (hlen : (p.child_processes.length : Int) = p.max_children) :
    (∃ r, grim_reaper waitpid waitall p = some r ∧
      ∀ p1 available, r = Ran.returned (p1, available) →
        0 ≤ p1.active_children ∧ p1.active_children ≤ p.active_children ∧
        p1.max_children = p.max_children ∧
        (p1.child_processes.length : Int) = p1.max_children) ∧
    (∃ r, try_fork waitpid fork p = some r ∧
      ∀ p2 child, r = Ran.returned (p2, child) →
        0 ≤ p2.active_children ∧ p2.active_children ≤ p2.max_children ∧
        p2.max_children = p.max_children ∧
        (p2.child_processes.length : Int) = p2.max_children ∧
        ∀ p1 available, grim_reaper waitpid false p = some (Ran.returned (p1, available)) →
          p2.active_children ≤ p1.active_children ∨
          (p1.active_children < p.max_children ∧
            p2.active_children = p1.active_children + 1 ∧
            p2.child_processes = p1.child_processes.set p1.active_children.toNat child)) := by
  constructor
  · obtain ⟨r, hr, hspec⟩ := grim_reaper_bounds waitpid waitall p h0
    refine ⟨r, hr, ?_⟩
    intro p1 available h
    obtain ⟨h1, h2, h3, h4, _⟩ := hspec p1 available h
    exact ⟨h1, h2, h3, by rw [h4, h3]; exact hlen⟩
  · obtain ⟨r, hr, hspec⟩ := grim_reaper_bounds waitpid false p h0
    simp only [try_fork, hr]
    cases r with
    | exited status => exact ⟨_, rfl, fun p2 child h => by simp at h⟩
    | returned x =>
      obtain ⟨p1, available⟩ := x
      obtain ⟨h1, h2, h3, h4, h5, h6, h7⟩ := hspec p1 available rfl
      have hlen1 : (p1.child_processes.length : Int) = p1.max_children := by
        rw [h4, h3]; exact hlen
      try dsimp only
      by_cases hc : available ≠ 0 ∧ p1.active_children < p1.max_children
      · rw [if_pos hc]
        cases fork with
        | failed =>
          refine ⟨_, rfl, ?_⟩
          intro p2 child h
          simp only [Ran.returned.injEq, Prod.mk.injEq] at h
          obtain ⟨rfl, rfl⟩ := h
          refine ⟨h1, by simp only; omega, h3, hlen1, ?_⟩
          intro q av hq
          simp only [Option.some.injEq, Ran.returned.injEq, Prod.mk.injEq] at hq
          obtain ⟨rfl, rfl⟩ := hq
          exact Or.inl (le_refl _)
        | child me =>
          refine ⟨_, rfl, ?_⟩
          intro p2 child h
          simp only [Ran.returned.injEq, Prod.mk.injEq] at h
          obtain ⟨rfl, rfl⟩ := h
          refine ⟨le_refl _, by simp only; omega, h3, ?_, ?_⟩
          · simp only [List.length_append, List.length_replicate, List.length_drop]
            omega
          · intro q av hq
            simp only [Option.some.injEq, Ran.returned.injEq, Prod.mk.injEq] at hq
            obtain ⟨rfl, rfl⟩ := hq
            exact Or.inl h1
        | parent pid =>
          have hb : 0 ≤ p1.active_children ∧
              p1.active_children < (p1.child_processes.length : Int) := ⟨h1, by omega⟩
          try dsimp only
          rw [if_pos hb]
          refine ⟨_, rfl, ?_⟩
          intro p2 child h
          simp only [Ran.returned.injEq, Prod.mk.injEq] at h
          obtain ⟨rfl, rfl⟩ := h
          refine ⟨by simp only; omega, by simp only; omega, h3, ?_, ?_⟩
          · simp only [List.length_set]; exact hlen1
          · intro q av hq
            simp only [Option.some.injEq, Ran.returned.injEq, Prod.mk.injEq] at hq
            obtain ⟨rfl, rfl⟩ := hq
            exact Or.inr ⟨by omega, rfl, rfl⟩
      · rw [if_neg hc]
        refine ⟨_, rfl, ?_⟩
        intro p2 child h
        simp only [Ran.returned.injEq, Prod.mk.injEq] at h
        obtain ⟨rfl, rfl⟩ := h
        refine ⟨h1, by omega, h3, hlen1, ?_⟩
        intro q av hq
        simp only [Option.some.injEq, Ran.returned.injEq, Prod.mk.injEq] at hq
        obtain ⟨rfl, rfl⟩ := hq
        exact Or.inl (le_refl _)

theorem active_children_bounded_witness :
    try_fork (fun _ _ => none) (fork_result.parent 9) ⟨1, 2, 1, [7, 0], some 1⟩
      = some (Ran.returned (⟨1, 2, 2, [7, 9], some 0⟩, 9)) ∧
    ∃ r, try_fork (fun _ _ => none) (fork_result.parent 9) ⟨1, 2, 2, [7, 9], some 0⟩
      = some r ∧ ∀ p2 child, r = Ran.returned (p2, child) →
        0 ≤ p2.active_children ∧ p2.active_children ≤ p2.max_children := by
  refine ⟨by decide, ?_⟩
  obtain ⟨r, hr, h⟩ := (active_children_bounded (fun _ _ => none) false (fork_result.parent 9)
    ⟨1, 2, 2, [7, 9], some 0⟩ (by decide) (by decide) (by decide)).2
  exact ⟨r, hr, fun p2 child e => ⟨(h p2 child e).1, (h p2 child e).2.1⟩⟩

/-- Claim C24: for a message file `1` and an attachment whose long file name is `a/b.txt`
(or `../x`), with no file of that name there yet, `write_separate_attachment` opens
`1-a/b.txt` (or `1-../x`) for writing: the slash of the attachment name is kept. -/
theorem write_separate_attachment_keeps_slash :
    write_separate_attachment (fun _ => false) (str "1")
        ⟨false, true, 0, false, ⟨none, some (str "a/b.txt")⟩, false⟩ 1
      = some (Stored.opened (str "1-a/b.txt")) ∧
    write_separate_attachment (fun _ => false) (str "1")
        ⟨false, true, 0, false, ⟨none, some (str "../x")⟩, false⟩ 1
      = some (Stored.opened (str "1-../x")) ∧
    47 ∈ str "1-a/b.txt" ∧ 47 ∈ str "1-../x" := by
  decide

theorem write_separate_attachment_loop_all_exist (f_name name : List Nat) :
    ∀ (k x fuel : Nat), x + k = 99999998 → k < fuel →
    write_separate_attachment_loop (fun _ => true) f_name name fuel x
      = some (write_separate_attachment_temp f_name name 99999998, 99999999) := by
  intro k
  induction k with
  | zero =>
    intro x fuel hx hf
    obtain ⟨f, rfl⟩ : ∃ f, fuel = f + 1 := ⟨fuel - 1, by omega⟩
    have hx' : x = 99999998 := by omega
    subst hx'
    have h : ¬ (99999998 + 1 < 99999999) := by omega
    simp only [write_separate_attachment_loop, if_true, h, if_false]
  | succ k ih =>
    intro x fuel hx hf
    obtain ⟨f, rfl⟩ : ∃ f, fuel = f + 1 := ⟨fuel - 1, by omega⟩
    have h : x + 1 < 99999999 := by omega
    simp only [write_separate_attachment_loop, if_true, h]
    exact ih (x + 1) f (by omega) (by omega)

theorem write_separate_attachment_named (readable : List Nat → Bool) (f_name : List Nat)
    (attach : attach_info) (attach_num : Nat) (name temp : List Nat) (x : Nat)
    (h1 : (!attach.has_data && !attach.id_found) = false)
    (h2 : attach_filename attach.names = some name)
    (h3 : write_separate_attachment_loop readable (f_name.map sanitize_byte) name 100000000 0
      = some (temp, x)) :
    write_separate_attachment readable f_name attach attach_num
      = if x > 99999999 then some Stored.died else some (Stored.opened temp) := by
  unfold write_separate_attachment
  rw [h1, check_filename_buf_eq]
  simp only [h2, h3, Bool.false_eq_true, if_false]

/-- Claim C25: when every candidate name can be opened for reading, the search of
`write_separate_attachment` stops at the counter 99999999, which is not above 99999999, so
the process is not ended: the name tried last, `<base>-<name>-99999998`, which exists, is
opened for writing. -/
theorem write_separate_attachment_opens_existing (f_name name : List Nat)
    (attach_num : Nat) :
    write_separate_attachment (fun _ => true) f_name
        ⟨false, true, 0, false, ⟨none, some name⟩, false⟩ attach_num
      = some (Stored.opened
          (f_name.map sanitize_byte ++ str "-" ++ name ++ str "-" ++ str "99999998")) ∧
    write_separate_attachment (fun _ => true) f_name
        ⟨false, true, 0, false, ⟨none, some name⟩, false⟩ attach_num ≠ some Stored.died := by
  have hl := write_separate_attachment_loop_all_exist (f_name.map sanitize_byte) name
    99999998 0 100000000 (by omega) (by omega)
  have hd : dec 99999998 = str "99999998" := by decide
  have hx : ¬ (99999999 > 99999999) := by omega
  have h0 : ¬ ((99999998 : Nat) = 0) := by omega
  have h := write_separate_attachment_named (fun _ => true) f_name
    ⟨false, true, 0, false, ⟨none, some name⟩, false⟩ attach_num name _ _ rfl rfl hl
  rw [if_neg hx, write_separate_attachment_temp, if_neg h0, hd] at h
  exact ⟨h, by rw [h]; exact fun e => Stored.noConfusion (Option.some.inj e)⟩
/-- Claim C26, counterexample: a mail whose only attachment has no data and an `i_id` that is
not found is written without a part for the attachment, in separate mode no file is opened
for the attachment, and `process` counts the mail in `item_count` and leaves `skip_count`
at 0. -/
theorem unresolved_attachment_not_counted :
    write_normal_email_ev none MODE_NORMAL false false
        ⟨5, false, false, false, true, false, false, false, false, false, false,
          [⟨false, false, 7, false, ⟨none, some (str "a.txt")⟩, false⟩]⟩
      = some [Ev.text, Ev.text, Ev.part (boundary 5), Ev.text, Ev.close (boundary 5)] ∧
    write_separate_attachment (fun _ => false) (str "1")
        ⟨false, false, 7, false, ⟨none, some (str "a.txt")⟩, false⟩ 1 = some Stored.skipped ∧
    process_item ⟨MODE_NORMAL, false, false, 255, false⟩ ⟨0, 0⟩ mail_desc
      = some (⟨1, 0⟩, [Act.write]) := by
  decide

theorem process_item_mail_counts (s : settings) (ff : file_ll) (d : pst_desc_tree)
    (hd : IsMail d) (hotm : s.output_type_mode &&& 1 ≠ 0) (r : file_ll × List Act)
    (hr : process_item s ff d = some r) :
    r.1 = ⟨ff.item_count + 1, ff.skip_count⟩ := by
  obtain ⟨hdesc, it, hit, hfold, hemail, htype⟩ := hd
  have hcontact : (it.contact && decide (it.type = pst_type.contact)) = false := by
    rcases htype with h | h | h <;> simp [h]
  have hmail : (it.email && (decide (it.type = pst_type.note)
      || decide (it.type = pst_type.schedule) || decide (it.type = pst_type.report))) = true := by
    rcases htype with h | h | h <;> simp [h, hemail]
  unfold process_item at hr
  simp only [hdesc, hit, Bool.not_true, Bool.false_eq_true, if_false] at hr
  have key : (if s.mode = MODE_SEPARATE then
        match separate_name (ff.item_count + 1) (if s.mode_EX then str ".eml" else []) with
        | some name =>
          if s.mode_MSG then
            match separate_name (ff.item_count + 1) (str ".msg") with
            | some msg => some ((⟨ff.item_count + 1, ff.skip_count⟩ : file_ll),
                [Act.file name d.forked, Act.file msg d.forked])
            | none => if d.forked then some (⟨ff.item_count + 1, ff.skip_count⟩,
                [Act.file name true]) else none
          else some (⟨ff.item_count + 1, ff.skip_count⟩, [Act.file name d.forked])
        | none => if d.forked then some (⟨ff.item_count + 1, ff.skip_count⟩, []) else none
      else some (⟨ff.item_count + 1, ff.skip_count⟩, [Act.write])) = some r := by
    rcases hfold with hf | hf
    · simpa only [hf, hcontact, hmail, hotm, if_true, if_false, Bool.false_eq_true] using hr
    · simp only [hf] at hr
      cases hfo : it.folder <;>
        simpa only [hfo, hcontact, hmail, hotm, if_true, if_false, Bool.false_eq_true] using hr
  clear hr
  repeat' split at key
  all_goals first
    | (cases key; rfl)
    | (exact absurd key (by simp))

/-- Claim C26, as the code has it: an attachment with no data in memory and an `i_id` that is
not found is not written, neither as a MIME part nor as a file; nothing is counted for it:
`process` counts the mail in `item_count` and leaves `skip_count` as it was. -/
theorem unresolved_attachment_skipped (a : attach_info) (ha : a.has_data = false)
    (hid : a.id_found = false) :
    (∀ b, write_inline_attachment_ev a b = []) ∧
    (∀ readable f_name attach_num,
      write_separate_attachment readable f_name a attach_num = some Stored.skipped) ∧
    (∀ (s : settings) (ff : file_ll) (d : pst_desc_tree) (r : file_ll × List Act),
      IsMail d → s.output_type_mode &&& 1 ≠ 0 → process_item s ff d = some r →
      r.1.skip_count = ff.skip_count ∧ r.1.item_count = ff.item_count + 1) := by
  refine ⟨?_, ?_, ?_⟩
  · intro b
    simp [write_inline_attachment_ev, ha, hid]
  · intro readable f_name attach_num
    unfold write_separate_attachment
    rw [ha, hid]
    rfl
  · intro s ff d r hd hotm hr
    rw [process_item_mail_counts s ff d hd hotm r hr]
    exact ⟨rfl, rfl⟩

theorem unresolved_attachment_skipped_witness :
    write_inline_attachment_ev ⟨false, false, 7, false, ⟨none, some (str "a.txt")⟩, false⟩
      (boundary 5) = [] ∧
    write_separate_attachment (fun _ => true) (str "1")
      ⟨false, false, 7, false, ⟨none, some (str "a.txt")⟩, false⟩ 1 = some Stored.skipped :=
  ⟨(unresolved_attachment_skipped ⟨false, false, 7, false, ⟨none, some (str "a.txt")⟩, false⟩
      rfl rfl).1 _,
    (unresolved_attachment_skipped ⟨false, false, 7, false, ⟨none, some (str "a.txt")⟩, false⟩
      rfl rfl).2.1 _ _ _⟩

theorem bodyLines_line : ∀ (l rest : List Nat), 10 ∉ l →
    bodyLines (l ++ 10 :: rest) = (l ++ [10]) :: bodyLines rest := by
  intro l
  induction l with
  | nil => intro rest _; simp [bodyLines]
  | cons c l ih =>
    intro rest h
    have hc : c ≠ 10 := fun e => h (by simp [e])
    have hl : 10 ∉ l := fun e => h (by simp [e])
    rw [List.cons_append, bodyLines, if_neg hc, ih rest hl]
    rfl

theorem unlines_append (a b : List (List Nat)) : unlines (a ++ b) = unlines a ++ unlines b := by
  simp [unlines]

theorem unlines_cons (l : List Nat) (ls : List (List Nat)) :
    unlines (l :: ls) = l ++ 10 :: unlines ls := by
  simp [unlines]

theorem bodyLines_unlines : ∀ ls : List (List Nat), (∀ l ∈ ls, 10 ∉ l) →
    bodyLines (unlines ls) = ls.map (· ++ [10]) ++ [[]] := by
  intro ls
  induction ls with
  | nil => intro _; rfl
  | cons l ls ih =>
    intro h
    rw [unlines_cons, bodyLines_line l _ (h l (List.mem_cons_self _ _)),
      ih (fun x hx => h x (List.mem_cons_of_mem _ hx))]
    rfl

theorem isPrefixOf_tag (p tag v : List Nat) (hp : p.length = 2) (ht : 2 ≤ tag.length)
    (hne : tag.take 2 ≠ p) : p.isPrefixOf (tag ++ v) = false := by
  cases h : p.isPrefixOf (tag ++ v) with
  | false => rfl
  | true =>
    exfalso
    obtain ⟨t, ht2⟩ := List.isPrefixOf_iff_prefix.mp h
    apply hne
    have := congrArg (List.take 2) ht2
    rw [List.take_append_of_le_length (by omega), List.take_append_of_le_length ht,
      List.take_of_length_le (by omega)] at this
    exact this.symm

theorem isPrefixOf_tag_long (p q tag v : List Nat) (hq : q.length = 2) (ht : 2 ≤ tag.length)
    (hne : tag.take 2 ≠ q) : (q ++ p).isPrefixOf (tag ++ v) = false := by
  cases h : (q ++ p).isPrefixOf (tag ++ v) with
  | false => rfl
  | true =>
    exfalso
    obtain ⟨t, ht2⟩ := List.isPrefixOf_iff_prefix.mp h
    apply hne
    have := congrArg (List.take 2) ht2
    rw [List.append_assoc, List.take_append_of_le_length (by omega),
      List.take_append_of_le_length ht, List.take_of_length_le (by omega)] at this
    exact this.symm

theorem otherLine_tag (tag v : List Nat) (ht : PlainTag tag) (hv : 10 ∉ v) :
    OtherLine (tag ++ v) := by
  obtain ⟨h1, h2, h3, h4⟩ := ht
  refine ⟨?_, ?_, ?_⟩
  · intro h
    rcases List.mem_append.mp h with h | h
    · exact h1 h
    · exact hv h
  · exact isPrefixOf_tag _ tag v (by decide) h2 h3
  · have : str "EMAIL:" = str "EM" ++ str "AIL:" := by decide
    rw [this]
    exact isPrefixOf_tag_long _ _ tag v (by decide) h2 h4

theorem otherLines_nil : OtherLines [] := ⟨[], rfl, fun _ h => absurd h (List.not_mem_nil _)⟩

theorem otherLines_append (a b : List (List Nat)) (ha : OtherLines a) (hb : OtherLines b) :
    OtherLines (a ++ b) := by
  obtain ⟨la, ha1, ha2⟩ := ha
  obtain ⟨lb, hb1, hb2⟩ := hb
  refine ⟨la ++ lb, by rw [List.flatten_append, ha1, hb1, unlines_append], ?_⟩
  intro l hl
  rcases List.mem_append.mp hl with h | h
  · exact ha2 l h
  · exact hb2 l h

theorem opt_line_flatten (tag : List Nat) (v : Option (List Nat)) :
    (opt_line tag v).flatten = unlines (v.map (fun t => tag ++ t)).toList := by
  cases v with
  | none => rfl
  | some t =>
    have : str "\n" = [10] := by decide
    simp [opt_line, unlines, this]

theorem otherLines_opt_line (tag : List Nat) (v : Option (List Nat)) (ht : PlainTag tag)
    (hv : ∀ t, v = some t → 10 ∉ t) : OtherLines (opt_line tag v) := by
  refine ⟨_, opt_line_flatten tag v, ?_⟩
  intro l hl
  cases v with
  | none => simp at hl
  | some t =>
    simp only [Option.map_some', Option.toList_some, List.mem_singleton] at hl
    subst hl
    exact otherLine_tag tag t ht (hv t rfl)

theorem otherLines_opt_line_map (tag : List Nat) (f : List Nat → List Nat)
    (v : Option (List Nat)) (ht : PlainTag tag) (hf : ∀ s, 10 ∉ f s) :
    OtherLines (opt_line tag (v.map f)) := by
  apply otherLines_opt_line tag _ ht
  intro t h
  cases v with
  | none => simp at h
  | some s =>
    simp only [Option.map_some', Option.some.injEq] at h
    subst h
    exact hf s

theorem write_vcard_component_no_LF (escape : List Nat → List Nat)
    (hesc : ∀ s, 10 ∉ escape s) (p : Option (List Nat)) :
    10 ∉ write_vcard_component escape p := by
  cases p with
  | none => simp [write_vcard_component]
  | some s => exact hesc s

theorem otherLines_adr (escape : List Nat → List Nat) (hesc : ∀ s, 10 ∉ escape s)
    (adr_tag label_tag : List Nat) (h1 : PlainTag adr_tag) (h2 : PlainTag label_tag)
    (address po_box street city state postal_code country : Option (List Nat)) :
    OtherLines (write_vcard_adr escape adr_tag label_tag address po_box street city state
      postal_code country) := by
  cases address with
  | none => exact otherLines_nil
  | some a =>
    have hn : str "\n" = [10] := by decide
    have hs : str ";" = [59] := by decide
    refine ⟨[adr_tag ++ (write_vcard_component escape po_box ++ [59] ++ [59] ++
        write_vcard_component escape street ++ [59] ++
        write_vcard_component escape city ++ [59] ++
        write_vcard_component escape state ++ [59] ++
        write_vcard_component escape postal_code ++ [59] ++
        write_vcard_component escape country), label_tag ++ escape a], ?_, ?_⟩
    · simp [write_vcard_adr, unlines, hn, hs]
    · intro l hl
      simp only [List.mem_cons, List.mem_singleton, List.not_mem_nil, or_false] at hl
      have hc := write_vcard_component_no_LF escape hesc
      rcases hl with rfl | rfl
      · apply otherLine_tag _ _ h1
        simp only [List.mem_append, List.mem_singleton, not_or]
        have h59 : ¬ (10 = 59) := by decide
        exact ⟨⟨⟨⟨⟨⟨⟨⟨⟨⟨⟨hc _, h59⟩, h59⟩, hc _⟩, h59⟩, hc _⟩, h59⟩, hc _⟩, h59⟩, hc _⟩, h59⟩,
          hc _⟩
      · exact otherLine_tag _ _ h2 (hesc a)

theorem extra_categories_loop_started (escape : List Nat → List Nat) :
    ∀ (fields : List (List Nat × List Nat)),
    (write_extra_categories_loop escape fields true).2 = true := by
  intro fields
  induction fields with
  | nil => rfl
  | cons ef rest ih =>
    by_cases hk : ef.1 = str "Keywords"
    · simp only [write_extra_categories_loop, hk, if_true, ih]
    · simp only [write_extra_categories_loop, hk, if_false, ih]

theorem extra_categories_loop_spec (escape : List Nat → List Nat)
    (hesc : ∀ s, 10 ∉ escape s) : ∀ (fields : List (List Nat × List Nat)) (started : Bool),
    10 ∉ (write_extra_categories_loop escape fields started).1.flatten ∧
    ((write_extra_categories_loop escape fields started).2 = false →
      (write_extra_categories_loop escape fields started).1 = []) ∧
    (started = false → (write_extra_categories_loop escape fields started).2 = true →
      ∃ v, (write_extra_categories_loop escape fields started).1.flatten
        = str "CATEGORIES:" ++ v) := by
  intro fields
  induction fields with
  | nil =>
    intro started
    refine ⟨by simp [write_extra_categories_loop], fun _ => rfl, ?_⟩
    intro h1 h2
    simp only [write_extra_categories_loop] at h2
    rw [h1] at h2
    exact absurd h2 (by decide)
  | cons ef rest ih =>
    intro started
    by_cases hk : ef.1 = str "Keywords"
    · obtain ⟨i1, i2, _⟩ := ih true
      simp only [write_extra_categories_loop, hk, if_true, List.flatten_cons]
      refine ⟨?_, ?_, ?_⟩
      · intro h
        rcases List.mem_append.mp h with h | h
        · rcases List.mem_append.mp h with h | h
          · cases started
            · exact absurd h (by decide)
            · exact absurd h (by decide)
          · exact hesc _ h
        · exact i1 h
      · intro h
        rw [extra_categories_loop_started] at h
        exact absurd h (by decide)
      · intro h1 _
        subst h1
        exact ⟨escape ef.2 ++ (write_extra_categories_loop escape rest true).1.flatten, by
          simp⟩
    · simp only [write_extra_categories_loop, hk, if_false]
      exact ih started

theorem otherLines_extra_categories (escape : List Nat → List Nat)
    (hesc : ∀ s, 10 ∉ escape s) (fields : List (List Nat × List Nat)) :
    OtherLines (write_extra_categories escape fields).1 := by
  obtain ⟨h1, h2, h3⟩ := extra_categories_loop_spec escape hesc fields false
  unfold write_extra_categories
  simp only []
  cases hr : (write_extra_categories_loop escape fields false).2 with
  | false =>
    rw [h2 hr]
    exact otherLines_nil
  | true =>
    obtain ⟨v, hv⟩ := h3 rfl hr
    have hn : str "\n" = [10] := by decide
    refine ⟨[str "CATEGORIES:" ++ v], ?_, ?_⟩
    · simp [hv, unlines, hn]
    · intro l hl
      simp only [List.mem_singleton] at hl
      subst hl
      apply otherLine_tag _ _ (by decide)
      intro hmem
      apply h1
      rw [hv]
      exact List.mem_append_right _ hmem
theorem otherLines_fixed (tag : List Nat) (ht : PlainTag tag) :
    OtherLines [tag ++ str "\n"] := by
  have h := otherLines_opt_line tag (some []) ht (fun t e => by
    simp only [Option.some.injEq] at e
    subst e
    simp)
  simpa [opt_line] using h

theorem otherLines_addresses (escape : List Nat → List Nat) (hesc : ∀ s, 10 ∉ escape s)
    (contact : pst_item_contact) : OtherLines (write_vcard_addresses escape contact) := by
  unfold write_vcard_addresses
  exact otherLines_append _ _ (otherLines_append _ _
    (otherLines_adr escape hesc _ _ (by decide) (by decide) _ _ _ _ _ _ _)
    (otherLines_adr escape hesc _ _ (by decide) (by decide) _ _ _ _ _ _ _))
    (otherLines_adr escape hesc _ _ (by decide) (by decide) _ _ _ _ _ _ _)

theorem otherLines_tel1 (escape : List Nat → List Nat) (hesc : ∀ s, 10 ∉ escape s)
    (contact : pst_item_contact) : OtherLines (write_vcard_tel1 escape contact) := by
  unfold write_vcard_tel1
  have o := fun (tag : List Nat) (ht : PlainTag tag) (v : Option (List Nat)) =>
    otherLines_opt_line_map tag escape v ht hesc
  exact otherLines_append _ _ (otherLines_append _ _ (otherLines_append _ _
    (otherLines_append _ _ (otherLines_append _ _ (otherLines_append _ _
    (o _ (by decide) _) (o _ (by decide) _)) (o _ (by decide) _)) (o _ (by decide) _))
    (o _ (by decide) _)) (o _ (by decide) _)) (o _ (by decide) _)

theorem otherLines_tel2 (escape : List Nat → List Nat) (hesc : ∀ s, 10 ∉ escape s)
    (contact : pst_item_contact) : OtherLines (write_vcard_tel2 escape contact) := by
  unfold write_vcard_tel2
  have o := fun (tag : List Nat) (ht : PlainTag tag) (v : Option (List Nat)) =>
    otherLines_opt_line_map tag escape v ht hesc
  exact otherLines_append _ _ (otherLines_append _ _ (otherLines_append _ _
    (otherLines_append _ _ (otherLines_append _ _ (otherLines_append _ _
    (otherLines_append _ _
    (o _ (by decide) _) (o _ (by decide) _)) (o _ (by decide) _)) (o _ (by decide) _))
    (o _ (by decide) _)) (o _ (by decide) _)) (o _ (by decide) _)) (o _ (by decide) _)

theorem otherLines_org (escape : List Nat → List Nat) (hesc : ∀ s, 10 ∉ escape s)
    (body : Option (List Nat)) (contact : pst_item_contact) (comment : Option (List Nat)) :
    OtherLines (write_vcard_org escape body contact comment) := by
  unfold write_vcard_org
  have o := fun (tag : List Nat) (ht : PlainTag tag) (v : Option (List Nat)) =>
    otherLines_opt_line_map tag escape v ht hesc
  have hagent : OtherLines
      (if (contact.assistant_name.isSome || contact.assistant_phone.isSome) = true then
        [str "AGENT:BEGIN:VCARD\n"] ++ opt_line (str "FN:") (contact.assistant_name.map escape)
          ++ opt_line (str "TEL:") (contact.assistant_phone.map escape)
      else []) := by
    split
    · have hfix : [str "AGENT:BEGIN:VCARD\n"] = [str "AGENT:BEGIN:VCARD" ++ str "\n"] := by
        decide
      rw [hfix]
      exact otherLines_append _ _ (otherLines_append _ _
        (otherLines_fixed _ (by decide)) (o _ (by decide) _)) (o _ (by decide) _)
    · exact otherLines_nil
  exact otherLines_append _ _ (otherLines_append _ _ (otherLines_append _ _
    (otherLines_append _ _ (otherLines_append _ _
    (o _ (by decide) _) (o _ (by decide) _)) hagent) (o _ (by decide) _))
    (o _ (by decide) _)) (o _ (by decide) _)

theorem otherLines_rest (escape : List Nat → List Nat) (hesc : ∀ s, 10 ∉ escape s)
    (datetime_format : Nat → List Nat) (hfmt : ∀ t, 10 ∉ datetime_format t)
    (body : Option (List Nat)) (extra_fields : List (List Nat × List Nat))
    (contact : pst_item_contact) (comment : Option (List Nat)) :
    OtherLines (write_vcard_rest escape datetime_format body extra_fields contact comment) := by
  unfold write_vcard_rest
  have hb : OtherLines (opt_line (str "BDAY:") (contact.birthday.map datetime_format)) := by
    apply otherLines_opt_line _ _ (by decide)
    intro t h
    cases hbd : contact.birthday with
    | none => rw [hbd] at h; simp at h
    | some b =>
      rw [hbd] at h
      simp only [Option.map_some', Option.some.injEq] at h
      subst h
      exact hfmt b
  exact otherLines_append _ _ (otherLines_append _ _ (otherLines_append _ _
    (otherLines_append _ _ (otherLines_append _ _ hb
    (otherLines_addresses escape hesc contact)) (otherLines_tel1 escape hesc contact))
    (otherLines_tel2 escape hesc contact)) (otherLines_org escape hesc body contact comment))
    (otherLines_extra_categories escape hesc extra_fields)

theorem isPrefixOf_line : ∀ (p l : List Nat), 10 ∉ p →
    p.isPrefixOf (l ++ [10]) = p.isPrefixOf l := by
  intro p
  induction p with
  | nil => intro l _; simp
  | cons a p ih =>
    intro l h
    have ha : a ≠ 10 := fun e => h (by simp [e])
    have hp : 10 ∉ p := fun e => h (by simp [e])
    cases l with
    | nil => simp [List.isPrefixOf, ha]
    | cons b l => simp [List.isPrefixOf, ih l hp]

theorem filter_lines (p : List Nat) (hp : 10 ∉ p) (hne : p ≠ []) (L : List (List Nat)) :
    (L.map (· ++ [10]) ++ [[]]).filter (fun l => p.isPrefixOf l)
      = (L.filter (fun l => p.isPrefixOf l)).map (· ++ [10]) := by
  have hnil : p.isPrefixOf [] = false := by
    cases p with
    | nil => exact absurd rfl hne
    | cons a p => rfl
  rw [List.filter_append, List.filter_map]
  have : (fun l => p.isPrefixOf l) ∘ (fun x : List Nat => x ++ [10])
      = fun l => p.isPrefixOf l := by
    funext l
    exact isPrefixOf_line p l hp
  rw [this]
  simp [hnil]

theorem write_vcard_name_flatten (escape : List Nat → List Nat) (null_text : List Nat)
    (contact : pst_item_contact) :
    (write_vcard_name escape null_text contact).flatten = unlines
      [str "BEGIN:VCARD",
        str "FN:" ++ (match contact.fullname with
          | some s => escape s
          | none => null_text),
        str "N:" ++ (str ";").intercalate
          [write_vcard_component escape contact.surname,
            write_vcard_component escape contact.first_name,
            write_vcard_component escape contact.middle_name,
            write_vcard_component escape contact.display_name_prefix,
            write_vcard_component escape contact.suffix]] := by
  have hn : str "\n" = [10] := by decide
  have hb : str "BEGIN:VCARD\n" = str "BEGIN:VCARD" ++ [10] := by decide
  simp [write_vcard_name, unlines, hn, hb, List.intercalate]

theorem write_vcard_email_flatten (escape : List Nat → List Nat)
    (contact : pst_item_contact) :
    (write_vcard_email escape contact).flatten = unlines
      ((contact.address1.map (fun s => str "EMAIL:" ++ escape s)).toList ++
        (contact.address2.map (fun s => str "EMAIL:" ++ escape s)).toList ++
        (contact.address3.map (fun s => str "EMAIL:" ++ escape s)).toList) := by
  unfold write_vcard_email
  simp only [List.flatten_append, opt_line_flatten, unlines_append, Option.map_map]
  rfl
theorem filter_all_false (p : List Nat) (L : List (List Nat))
    (h : ∀ l ∈ L, p.isPrefixOf l = false) : L.filter (fun l => p.isPrefixOf l) = [] := by
  rw [List.filter_eq_nil_iff]
  intro l hl
  rw [h l hl]
  decide

theorem filter_all_true (p : List Nat) (L : List (List Nat))
    (h : ∀ l ∈ L, p.isPrefixOf l = true) : L.filter (fun l => p.isPrefixOf l) = L := by
  rw [List.filter_eq_self]
  exact h

theorem isPrefixOf_append_self (p v : List Nat) : p.isPrefixOf (p ++ v) = true :=
  List.isPrefixOf_iff_prefix.mpr (List.prefix_append p v)

theorem mem_option_lines (tag : List Nat) (escape : List Nat → List Nat)
    (v : Option (List Nat)) (l : List Nat)
    (hl : l ∈ (v.map (fun s => tag ++ escape s)).toList) : ∃ s, l = tag ++ escape s := by
  cases v with
  | none => simp at hl
  | some s =>
    simp only [Option.map_some', Option.toList_some, List.mem_singleton] at hl
    exact ⟨s, hl⟩

/-- Claim C27: when the texts that `pst_rfc2426_escape` and `pst_rfc2425_datetime_format`
give hold no LF, the lines of the output of `write_vcard` are `BEGIN:VCARD`, an `FN` line, the
`N` line with the five components surname, first name, middle name, prefix and suffix joined
by `;` (an absent one being empty), the `NICKNAME` line if there is one, one `EMAIL` line for
each of `address1`, `address2`, `address3` that is present, in this order, then lines that
are neither `N` lines nor `EMAIL` lines, and at the end `VERSION:3.0` and `END:VCARD`,
followed only by an empty line.  So exactly one line begins with `N:`, and the lines that
begin with `EMAIL:` are those of the present addresses. -/
theorem write_vcard_lines (escape : List Nat → List Nat) (null_text : List Nat)
    (datetime_format : Nat → List Nat) (body : Option (List Nat))
    (extra_fields : List (List Nat × List Nat)) (contact : pst_item_contact)
    (comment : Option (List Nat))
    (hesc : ∀ s, 10 ∉ escape s) (hnull : 10 ∉ null_text)
    (hfmt : ∀ t, 10 ∉ datetime_format t) :
    ∃ rest : List (List Nat),
      bodyLines (write_vcard escape null_text datetime_format body extra_fields contact
          comment).flatten =
        ([str "BEGIN:VCARD",
          str "FN:" ++ (match contact.fullname with
            | some s => escape s
            | none => null_text),
          str "N:" ++ (str ";").intercalate
            [write_vcard_component escape contact.surname,
              write_vcard_component escape contact.first_name,
              write_vcard_component escape contact.middle_name,
              write_vcard_component escape contact.display_name_prefix,
              write_vcard_component escape contact.suffix]] ++
          (contact.nickname.map (fun s => str "NICKNAME:" ++ escape s)).toList ++
          ((contact.address1.map (fun s => str "EMAIL:" ++ escape s)).toList ++
            (contact.address2.map (fun s => str "EMAIL:" ++ escape s)).toList ++
            (contact.address3.map (fun s => str "EMAIL:" ++ escape s)).toList) ++
          rest ++ [str "VERSION:3.0", str "END:VCARD", []]).map (· ++ [10]) ++ [[]] ∧
      (∀ l ∈ rest, OtherLine l) ∧
      (bodyLines (write_vcard escape null_text datetime_format body extra_fields contact
          comment).flatten).filter (fun l => (str "N:").isPrefixOf l) =
        [str "N:" ++ (str ";").intercalate
          [write_vcard_component escape contact.surname,
            write_vcard_component escape contact.first_name,
            write_vcard_component escape contact.middle_name,
            write_vcard_component escape contact.display_name_prefix,
            write_vcard_component escape contact.suffix] ++ [10]] ∧
      (bodyLines (write_vcard escape null_text datetime_format body extra_fields contact
          comment).flatten).filter (fun l => (str "EMAIL:").isPrefixOf l) =
        ((contact.address1.map (fun s => str "EMAIL:" ++ escape s)).toList ++
          (contact.address2.map (fun s => str "EMAIL:" ++ escape s)).toList ++
          (contact.address3.map (fun s => str "EMAIL:" ++ escape s)).toList).map
            (· ++ [10]) := by
  obtain ⟨rest, hrest, hother⟩ :=
    otherLines_rest escape hesc datetime_format hfmt body extra_fields contact comment
  have hc := write_vcard_component_no_LF escape hesc
  -- the lines
  generalize hfn : (match contact.fullname with
    | some s => escape s
    | none => null_text) = fn
  have hfn10 : 10 ∉ fn := by
    rw [← hfn]
    cases contact.fullname with
    | none => exact hnull
    | some s => exact hesc s
  generalize hN : (str ";").intercalate
    [write_vcard_component escape contact.surname,
      write_vcard_component escape contact.first_name,
      write_vcard_component escape contact.middle_name,
      write_vcard_component escape contact.display_name_prefix,
      write_vcard_component escape contact.suffix] = nline
  have hN10 : 10 ∉ nline := by
    rw [← hN]
    have hs : str ";" = [59] := by decide
    simp only [List.intercalate, List.intersperse, hs, List.flatten_cons, List.flatten_nil,
      List.append_nil, List.mem_append, List.mem_singleton, not_or]
    have h59 : ¬ (10 = 59) := by decide
    exact ⟨hc _, h59, hc _, h59, hc _, h59, hc _, h59, hc _⟩
  generalize hnick : (contact.nickname.map (fun s => str "NICKNAME:" ++ escape s)).toList
    = nickL
  have hnickO : ∀ l ∈ nickL, OtherLine l := by
    intro l hl
    rw [← hnick] at hl
    obtain ⟨s, rfl⟩ := mem_option_lines _ _ _ _ hl
    exact otherLine_tag _ _ (by decide) (hesc s)
  generalize hemail : ((contact.address1.map (fun s => str "EMAIL:" ++ escape s)).toList ++
    (contact.address2.map (fun s => str "EMAIL:" ++ escape s)).toList ++
    (contact.address3.map (fun s => str "EMAIL:" ++ escape s)).toList) = emailL
  have hemailE : ∀ l ∈ emailL, ∃ s, l = str "EMAIL:" ++ escape s := by
    intro l hl
    rw [← hemail] at hl
    simp only [List.mem_append] at hl
    rcases hl with (hl | hl) | hl <;> exact mem_option_lines _ _ _ _ hl
  have hflat : (write_vcard escape null_text datetime_format body extra_fields contact
      comment).flatten = unlines ([str "BEGIN:VCARD", str "FN:" ++ fn, str "N:" ++ nline] ++
        nickL ++ emailL ++ rest ++ [str "VERSION:3.0", str "END:VCARD", []]) := by
    have htail : ([str "VERSION:3.0\n", str "END:VCARD\n\n"] : List (List Nat)).flatten
        = unlines [str "VERSION:3.0", str "END:VCARD", []] := by decide
    unfold write_vcard
    rw [List.flatten_append, List.flatten_append, List.flatten_append, List.flatten_append,
      write_vcard_name_flatten, opt_line_flatten, write_vcard_email_flatten, hrest, htail,
      Option.map_map]
    rw [← hfn, ← hN, ← hnick, ← hemail]
    simp only [unlines_append]
    rfl
  have hall : ∀ l ∈ [str "BEGIN:VCARD", str "FN:" ++ fn, str "N:" ++ nline] ++
      nickL ++ emailL ++ rest ++ [str "VERSION:3.0", str "END:VCARD", []], 10 ∉ l := by
    intro l hl
    simp only [List.mem_append, List.mem_cons, List.mem_singleton, List.not_mem_nil,
      or_false] at hl
    rcases hl with ((((h | h | h) | h) | h) | h) | h
    · rw [h]; decide
    · rw [h]
      intro hm
      rcases List.mem_append.mp hm with hm | hm
      · exact absurd hm (by decide)
      · exact hfn10 hm
    · rw [h]
      intro hm
      rcases List.mem_append.mp hm with hm | hm
      · exact absurd hm (by decide)
      · exact hN10 hm
    · exact (hnickO l h).1
    · obtain ⟨s, rfl⟩ := hemailE l h
      intro hm
      rcases List.mem_append.mp hm with hm | hm
      · exact absurd hm (by decide)
      · exact hesc s hm
    · exact (hother l h).1
    · rcases h with h | h | h <;> rw [h] <;> decide
  have hlines := bodyLines_unlines _ hall
  rw [← hflat] at hlines
  refine ⟨rest, ?_, hother, ?_, ?_⟩
  · rw [hlines]
  · rw [hlines, filter_lines _ (by decide) (by decide)]
    simp only [List.filter_append]
    rw [filter_all_false (str "N:") nickL (fun l hl => (hnickO l hl).2.1),
      filter_all_false (str "N:") emailL (fun l hl => by
        obtain ⟨s, rfl⟩ := hemailE l hl
        exact isPrefixOf_tag _ _ _ (by decide) (by decide) (by decide)),
      filter_all_false (str "N:") rest (fun l hl => (hother l hl).2.1),
      filter_all_false (str "N:") [str "VERSION:3.0", str "END:VCARD", []] (by decide)]
    have h1 : (str "N:").isPrefixOf (str "BEGIN:VCARD") = false := by decide
    have h2 : (str "N:").isPrefixOf (str "FN:" ++ fn) = false :=
      isPrefixOf_tag _ _ _ (by decide) (by decide) (by decide)
    have h3 : (str "N:").isPrefixOf (str "N:" ++ nline) = true := isPrefixOf_append_self _ _
    simp only [List.filter_cons, h1, h2, h3, List.filter_nil, if_true, if_false,
      Bool.false_eq_true, List.append_nil, List.map_cons, List.map_nil]
  · rw [hlines, filter_lines _ (by decide) (by decide)]
    simp only [List.filter_append]
    have hE : str "EMAIL:" = str "EM" ++ str "AIL:" := by decide
    rw [filter_all_false (str "EMAIL:") nickL (fun l hl => (hnickO l hl).2.2),
      filter_all_true (str "EMAIL:") emailL (fun l hl => by
        obtain ⟨s, rfl⟩ := hemailE l hl
        exact isPrefixOf_append_self _ _),
      filter_all_false (str "EMAIL:") rest (fun l hl => (hother l hl).2.2),
      filter_all_false (str "EMAIL:") [str "VERSION:3.0", str "END:VCARD", []] (by decide)]
    have h1 : (str "EMAIL:").isPrefixOf (str "BEGIN:VCARD") = false := by decide
    have h2 : (str "EMAIL:").isPrefixOf (str "FN:" ++ fn) = false := by
      rw [hE]; exact isPrefixOf_tag_long _ _ _ _ (by decide) (by decide) (by decide)
    have h3 : (str "EMAIL:").isPrefixOf (str "N:" ++ nline) = false := by
      rw [hE]; exact isPrefixOf_tag_long _ _ _ _ (by decide) (by decide) (by decide)
    simp only [List.filter_cons, h1, h2, h3, List.filter_nil, if_false,
      Bool.false_eq_true, List.append_nil, List.nil_append]

theorem write_vcard_lines_witness :
    (bodyLines (write_vcard (fun s => s.filter (· ≠ 10)) (str "(null)") (fun _ => [])
        none [] { empty_contact with
          fullname := some (str "Smith John")
          surname := some (str "Smith")
          first_name := some (str "John")
          address1 := some (str "j@h") } none).flatten).filter
      (fun l => (str "N:").isPrefixOf l) = [str "N:Smith;John;;;\n"] := by
  obtain ⟨_, _, _, h, _⟩ := write_vcard_lines (fun s => s.filter (· ≠ 10)) (str "(null)")
    (fun _ => []) none [] { empty_contact with
      fullname := some (str "Smith John")
      surname := some (str "Smith")
      first_name := some (str "John")
      address1 := some (str "j@h") } none (fun s => by simp) (by decide) (fun _ => by simp)
  rw [h]
  decide

theorem reduced_item_type_mem (k : pst_types) (t : Int) :
    reduced_item_type k t ∈ [k.APPOINTMENT, k.CONTACT, k.JOURNAL, k.NOTE] := by
  unfold reduced_item_type
  by_cases h : t = k.APPOINTMENT ∨ t = k.CONTACT ∨ t = k.JOURNAL
  · rw [if_pos h]
    rcases h with h | h | h <;> simp [h]
  · rw [if_neg h]
    simp

theorem reduced_item_type_fixed (k : pst_types)
    (hd : [k.APPOINTMENT, k.CONTACT, k.JOURNAL, k.NOTE].Nodup) (t : Int) :
    t = reduced_item_type k t ↔ t ∈ [k.APPOINTMENT, k.CONTACT, k.JOURNAL, k.NOTE] := by
  simp only [List.nodup_cons, List.mem_cons, List.mem_singleton, List.not_mem_nil,
    not_or, or_false, List.nodup_nil, and_true, not_false_eq_true] at hd
  obtain ⟨⟨_, _, hAN⟩, ⟨_, hCN⟩, hJN⟩ := hd
  constructor
  · intro h
    rw [h]
    exact reduced_item_type_mem k t
  · intro h
    unfold reduced_item_type
    simp only [List.mem_cons, List.mem_singleton, List.not_mem_nil, or_false] at h
    rcases h with h | h | h | h
    · simp [h]
    · simp [h]
    · simp [h]
    · subst h
      simp [Ne.symm hAN, Ne.symm hCN, Ne.symm hJN]

/-- Claim C31: with the constants for appointment, contact, journal and note distinct,
non-negative and below `PST_TYPE_MAX`, `reduced_item_type` maps appointment, contact and
journal to themselves and every other value to note; it is idempotent; its values are the
four buckets and each of them is a value; `item_type_to_name` gives a type and its reduced
type the same name, and the four buckets are named calendar, contacts, journal and mbox; and
in every mode `create_enter_dir` gives a name to the slot `t` exactly when `t` is one of the
four buckets, which is exactly when `t = reduced_item_type(t)`. -/
theorem reduced_item_type_buckets (k : pst_types)
    (hd : [k.APPOINTMENT, k.CONTACT, k.JOURNAL, k.NOTE].Nodup)
    (hr : ∀ b ∈ [k.APPOINTMENT, k.CONTACT, k.JOURNAL, k.NOTE], 0 ≤ b ∧ b < k.MAX) :
    (reduced_item_type k k.APPOINTMENT = k.APPOINTMENT ∧
      reduced_item_type k k.CONTACT = k.CONTACT ∧
      reduced_item_type k k.JOURNAL = k.JOURNAL ∧
      ∀ t, t ≠ k.APPOINTMENT → t ≠ k.CONTACT → t ≠ k.JOURNAL →
        reduced_item_type k t = k.NOTE) ∧
    (∀ t, reduced_item_type k (reduced_item_type k t) = reduced_item_type k t) ∧
    (∀ b, (∃ t, reduced_item_type k t = b) ↔
      b ∈ [k.APPOINTMENT, k.CONTACT, k.JOURNAL, k.NOTE]) ∧
    (∀ t, item_type_to_name k t = item_type_to_name k (reduced_item_type k t)) ∧
    (item_type_to_name k k.APPOINTMENT = str "calendar" ∧
      item_type_to_name k k.CONTACT = str "contacts" ∧
      item_type_to_name k k.JOURNAL = str "journal" ∧
      item_type_to_name k k.NOTE = str "mbox") ∧
    (∀ (mode : Nat) (file_as : List Nat),
      (create_enter_dir_names k mode file_as).length = k.MAX ∧
      ((create_enter_dir_names k mode file_as).filter (fun n => n.isSome)).length = 4 ∧
      ∀ t : Nat, t < k.MAX →
        (((create_enter_dir_names k mode file_as).getD t none).isSome = true ↔
          (t : Int) ∈ [k.APPOINTMENT, k.CONTACT, k.JOURNAL, k.NOTE]) ∧
        (((create_enter_dir_names k mode file_as).getD t none).isSome = true ↔
          (t : Int) = reduced_item_type k t)) := by
  have hne := hd
  simp only [List.nodup_cons, List.mem_cons, List.mem_singleton, List.not_mem_nil,
    not_or, or_false, List.nodup_nil, and_true, not_false_eq_true] at hne
  obtain ⟨⟨hAC, hAJ, hAN⟩, ⟨hCJ, hCN⟩, hJN⟩ := hne
  have hfix := reduced_item_type_fixed k hd
  refine ⟨⟨by simp [reduced_item_type], by simp [reduced_item_type],
    by simp [reduced_item_type], ?_⟩, ?_, ?_, ?_, ?_, ?_⟩
  · intro t h1 h2 h3
    simp [reduced_item_type, h1, h2, h3]
  · intro t
    exact ((hfix _).mpr (reduced_item_type_mem k t)).symm
  · intro b
    constructor
    · rintro ⟨t, rfl⟩
      exact reduced_item_type_mem k t
    · intro hb
      exact ⟨b, ((hfix b).mpr hb).symm⟩
  · intro t
    unfold item_type_to_name reduced_item_type
    by_cases h1 : t = k.APPOINTMENT
    · simp [h1]
    · by_cases h2 : t = k.CONTACT
      · simp [h2]
      · by_cases h3 : t = k.JOURNAL
        · simp [h3]
        · simp [h1, h2, h3, Ne.symm hAN, Ne.symm hCN, Ne.symm hJN]
  · unfold item_type_to_name
    simp [Ne.symm hAC, Ne.symm hAJ, Ne.symm hCJ, Ne.symm hAN, Ne.symm hCN, Ne.symm hJN]
  · intro mode file_as
    have hget : ∀ t : Nat, t < k.MAX →
        (((create_enter_dir_names k mode file_as).getD t none).isSome = true ↔
          (t : Int) = reduced_item_type k t) := by
      intro t ht
      unfold create_enter_dir_names
      rw [List.getD_eq_getElem?_getD, List.getElem?_map, List.getElem?_range ht]
      by_cases h : (t : Int) = reduced_item_type k t
      · simp only [Option.map_some', if_pos h, Option.getD_some, Option.isSome_some, true_iff]
        exact h
      · simp only [Option.map_some', if_neg h, Option.getD_some, Option.isSome_none,
          Bool.false_eq_true, false_iff]
        exact h
    refine ⟨by simp [create_enter_dir_names], ?_, ?_⟩
    · unfold create_enter_dir_names
      rw [List.filter_map, List.length_map]
      have hp : (List.range k.MAX).filter ((fun n : Option (List Nat) => n.isSome) ∘
          (fun t : Nat => if (t : Int) = reduced_item_type k t then
            some (create_enter_dir_name mode file_as (item_type_to_name k t)) else none))
          = (List.range k.MAX).filter (fun (t : Nat) => decide ((t : Int) ∈
              [k.APPOINTMENT, k.CONTACT, k.JOURNAL, k.NOTE])) := by
        apply List.filter_congr
        intro t _
        by_cases h : (t : Int) = reduced_item_type k t
        · have := (hfix t).mp h
          simp only [Function.comp, if_pos h, Option.isSome_some]
          exact (decide_eq_true this).symm
        · have : ¬ (t : Int) ∈ [k.APPOINTMENT, k.CONTACT, k.JOURNAL, k.NOTE] :=
            fun hm => h ((hfix t).mpr hm)
          simp only [Function.comp, if_neg h, Option.isSome_none]
          exact (decide_eq_false this).symm
      rw [hp]
      have hperm : List.Perm ((List.range k.MAX).filter (fun (t : Nat) => decide ((t : Int) ∈
          [k.APPOINTMENT, k.CONTACT, k.JOURNAL, k.NOTE])))
          ([k.APPOINTMENT, k.CONTACT, k.JOURNAL, k.NOTE].map Int.toNat) := by
        rw [List.perm_ext_iff_of_nodup ((List.nodup_range _).filter _)]
        · intro t
          simp only [List.mem_filter, List.mem_range, decide_eq_true_eq, List.mem_map]
          constructor
          · rintro ⟨_, hm⟩
            exact ⟨(t : Int), hm, by simp⟩
          · rintro ⟨b, hb, rfl⟩
            have := hr b hb
            refine ⟨by omega, ?_⟩
            rw [Int.toNat_of_nonneg this.1]
            exact hb
        · apply List.Nodup.map_on _ hd
          intro x hx y hy hxy
          have h1 := hr x hx
          have h2 := hr y hy
          omega
      rw [hperm.length_eq]
      rfl
    · intro t ht
      exact ⟨(hget t ht).trans (hfix t), hget t ht⟩

theorem reduced_item_type_buckets_witness :
    reduced_item_type ⟨1, 8, 9, 10, 11, 12, 13, 14, 15⟩ 2 = 1 ∧
    (create_enter_dir_names ⟨1, 8, 9, 10, 11, 12, 13, 14, 15⟩ MODE_RECURSE (str "Inbox")).length
      = 15 ∧
    ((create_enter_dir_names ⟨1, 8, 9, 10, 11, 12, 13, 14, 15⟩ MODE_RECURSE
      (str "Inbox")).filter (fun n => n.isSome)).length = 4 :=
  ⟨by decide,
    ((reduced_item_type_buckets ⟨1, 8, 9, 10, 11, 12, 13, 14, 15⟩ (by decide)
      (by decide)).2.2.2.2.2 MODE_RECURSE (str "Inbox")).1,
    ((reduced_item_type_buckets ⟨1, 8, 9, 10, 11, 12, 13, 14, 15⟩ (by decide)
      (by decide)).2.2.2.2.2 MODE_RECURSE (str "Inbox")).2.1⟩
/-- Claim C40: for a contact that has an assistant name and nothing else, `write_vcard` writes
`AGENT:BEGIN:VCARD` and the `FN` line of the assistant but no `END:VCARD` for this inner
card: `BEGIN:VCARD` occurs twice in the output and `END:VCARD` once. -/
theorem write_vcard_agent_not_closed :
    (write_vcard id (str "(null)") (fun _ => []) none []
        { empty_contact with assistant_name := some (str "Bob") } none).flatten
      = str ("BEGIN:VCARD\nFN:(null)\nN:;;;;\nAGENT:BEGIN:VCARD\nFN:Bob\n" ++
          "VERSION:3.0\nEND:VCARD\n\n") ∧
    countOccurrences (str "BEGIN:VCARD")
      (write_vcard id (str "(null)") (fun _ => []) none []
        { empty_contact with assistant_name := some (str "Bob") } none).flatten = 2 ∧
    countOccurrences (str "END:VCARD")
      (write_vcard id (str "(null)") (fun _ => []) none []
        { empty_contact with assistant_name := some (str "Bob") } none).flatten = 1 := by
  decide

theorem getD_of_drop_cons (h : List Nat) (i c : Nat) (x : List Nat) (hx : h.drop i = c :: x) :
    h.getD i 0 = c ∧ h.drop (i + 1) = x ∧ i < h.length := by
  have hlt : i < h.length := by
    by_contra hge
    rw [List.drop_eq_nil_of_le (by omega)] at hx
    exact absurd hx (by simp)
  refine ⟨?_, ?_, hlt⟩
  · have := getD_drop h i 0
    rw [hx] at this
    simpa using this.symm
  · have : h.drop (i + 1) = (h.drop i).drop 1 := by rw [List.drop_drop, Nat.add_comm]
    rw [this, hx]
    rfl

theorem my_stristr_loop_sound (needle h : List Nat) :
    ∀ (x : List Nat) (i : Nat) (y : List Nat) (z : Option Nat) (m : Nat),
    h.drop i = x → i ≤ h.length → m ≤ needle.length → y = needle.drop m → m ≤ i →
    (m = 0 → z = none) → (0 < m → z = some (i - m)) →
    (∀ j, j < m → tolower (h.getD (i - m + j) 0) = tolower (needle.getD j 0)) →
    ∀ p, my_stristr_loop needle x i y z = some p →
      p + needle.length ≤ h.length ∧ 0 < needle.length ∧
      ∀ j, j < needle.length → tolower (h.getD (p + j) 0) = tolower (needle.getD j 0) := by
  have fin : ∀ (i : Nat) (y : List Nat) (z : Option Nat) (m : Nat),
      i ≤ h.length → m ≤ needle.length → y = needle.drop m → m ≤ i →
      (m = 0 → z = none) → (0 < m → z = some (i - m)) →
      (∀ j, j < m → tolower (h.getD (i - m + j) 0) = tolower (needle.getD j 0)) →
      y = [] → ∀ p, z = some p →
      p + needle.length ≤ h.length ∧ 0 < needle.length ∧
      ∀ j, j < needle.length → tolower (h.getD (p + j) 0) = tolower (needle.getD j 0) := by
    intro i y z m hi hm hy hmi hz0 hz1 hmatch hnil p hp
    have hm2 : m = needle.length := by
      rw [hnil] at hy
      have := List.drop_eq_nil_iff.mp hy.symm
      omega
    have hpos : 0 < m := by
      by_contra h0
      have := hz0 (by omega)
      rw [this] at hp
      exact absurd hp (by simp)
    have hz := hz1 hpos
    rw [hz] at hp
    simp only [Option.some.injEq] at hp
    subst hp
    refine ⟨by omega, by omega, ?_⟩
    intro j hj
    exact hmatch j (by omega)
  intro x
  induction x with
  | nil =>
    intro i y z m hx hi hm hy hmi hz0 hz1 hmatch p hp
    simp only [my_stristr_loop] at hp
    by_cases hy0 : y = []
    · rw [if_neg (by simpa using hy0)] at hp
      exact fin i y z m hi hm hy hmi hz0 hz1 hmatch hy0 p hp
    · rw [if_pos hy0] at hp
      exact absurd hp (by simp)
  | cons c x ih =>
    intro i y z m hx hi hm hy hmi hz0 hz1 hmatch p hp
    obtain ⟨hc, hx1, hlt⟩ := getD_of_drop_cons h i c x hx
    cases y with
    | nil =>
      simp only [my_stristr_loop] at hp
      exact fin i [] z m hi hm hy hmi hz0 hz1 hmatch rfl p hp
    | cons d y1 =>
      have hmlt : m < needle.length := by
        by_contra hge
        rw [List.drop_eq_nil_of_le (by omega)] at hy
        exact absurd hy (by simp)
      obtain ⟨hd, hy1, _⟩ := getD_of_drop_cons needle m d y1 hy.symm
      simp only [my_stristr_loop] at hp
      by_cases ht : tolower d = tolower c
      · rw [if_pos ht] at hp
        refine ih (i + 1) y1 _ (m + 1) hx1 (by omega) (by omega) hy1.symm (by omega)
          (by omega) ?_ ?_ p hp
        · intro _
          by_cases hm0 : m = 0
          · rw [hz0 hm0, if_pos rfl]
            congr 1
            omega
          · rw [hz1 (by omega), if_neg (by simp)]
            congr 1
            omega
        · intro j hj
          by_cases hjm : j < m
          · have := hmatch j hjm
            rw [show i + 1 - (m + 1) + j = i - m + j by omega]
            exact this
          · have hjm2 : j = m := by omega
            subst hjm2
            rw [show i + 1 - (j + 1) + j = i by omega, hc, hd]
            exact ht.symm
      · rw [if_neg ht] at hp
        exact ih (i + 1) needle none 0 hx1 (by omega) (by omega) rfl (by omega)
          (fun _ => rfl) (fun h0 => absurd h0 (by omega)) (fun j hj => absurd hj (by omega))
          p hp

theorem my_stristr_some (h n : List Nat) (p : Nat)
    (hp : my_stristr (some h) (some n) = some p) :
    p + n.length ≤ h.length ∧ 0 < n.length ∧
    ∀ j, j < n.length → tolower (h.getD (p + j) 0) = tolower (n.getD j 0) :=
  my_stristr_loop_sound n h h 0 n none 0 rfl (by omega) (by omega) rfl (by omega)
    (fun _ => rfl) (fun h0 => absurd h0 (by omega)) (fun j hj => absurd hj (by omega)) p hp

/-- Claim C37: when `my_stristr(haystack, needle)` returns a pointer, the needle is not empty,
the pointer is inside the haystack with the whole length of the needle before the end, and
the bytes of the haystack from the pointer on are those of the needle when both are put in
lower case; `my_stristr` returns `NULL` when an argument is `NULL` and when the needle is
empty. -/
theorem my_stristr_reports_real_match (haystack needle : Option (List Nat)) :
    (∀ p, my_stristr haystack needle = some p →
      ∃ h n, haystack = some h ∧ needle = some n ∧ p < h.length ∧
        p + n.length ≤ h.length ∧
        ((h.drop p).take n.length).map tolower = n.map tolower) ∧
    (haystack = none → my_stristr haystack needle = none) ∧
    (needle = none → my_stristr haystack needle = none) ∧
    (needle = some [] → my_stristr haystack needle = none) := by
  refine ⟨?_, ?_, ?_, ?_⟩
  · intro p hp
    cases haystack with
    | none => simp [my_stristr] at hp
    | some h =>
      cases needle with
      | none => simp [my_stristr] at hp
      | some n =>
        obtain ⟨h1, h2, h3⟩ := my_stristr_some h n p hp
        refine ⟨h, n, rfl, rfl, by omega, h1, ?_⟩
        apply List.ext_getElem
        · simp only [List.length_map, List.length_take, List.length_drop]
          omega
        · intro j hj1 hj2
          simp only [List.length_map] at hj2
          have := h3 j hj2
          simp only [List.getD_eq_getElem?_getD] at this
          rw [List.getElem?_eq_getElem (by omega), List.getElem?_eq_getElem hj2] at this
          simpa [List.getElem_take, List.getElem_drop] using this
  · intro h; subst h; rfl
  · intro h; subst h; cases haystack <;> rfl
  · intro h
    subst h
    cases haystack with
    | none => rfl
    | some h =>
      cases h with
      | nil => rfl
      | cons c x => rfl
theorem header_end_field_total (field : List Nat) :
    ∃ r, header_end_field field = some r ∧
      ∀ e, r = some e → 1 ≤ e ∧ e < field.length := by
  obtain ⟨r, hr, hspec⟩ := header_end_field_loop_spec field (field.length + 1) 1 (le_refl _)
    (fun j h1 h2 => by omega) (by omega)
  refine ⟨r, hr, ?_⟩
  intro e he
  subst he
  exact ⟨hspec.1, hspec.2.1.1⟩

theorem header_get_field_lt (header field : List Nat) (hf : 2 ≤ field.length) (t : Nat)
    (ht : header_get_field header field = some t) : t < header.length := by
  unfold header_get_field at ht
  cases hm : my_stristr (some header) (some field) with
  | some p =>
    rw [hm] at ht
    simp only [Option.some.injEq] at ht
    subst ht
    have := (my_stristr_some _ _ _ hm).1
    omega
  | none =>
    rw [hm] at ht
    simp only at ht
    split at ht
    · rename_i hc
      simp only [Option.some.injEq] at ht
      subst ht
      cases header with
      | nil =>
        obtain ⟨a, b, rest, rfl⟩ : ∃ a b rest, field = a :: b :: rest := by
          match field, hf with
          | a :: b :: rest, _ => exact ⟨a, b, rest, rfl⟩
        simp [strncasecmp_eq] at hc
      | cons c header => simp
    · exact absurd ht (by simp)

theorem header_strip_field_round (field : List Nat) (hf : 2 ≤ field.length)
    (header : List Nat) (t : Nat) (ht : header_get_field header field = some t) :
    ∃ shorter : List Nat, shorter.length < header.length ∧
      ∀ fuel, header_strip_field_loop field (fuel + 1) header
        = header_strip_field_loop field fuel shorter := by
  have hlt := header_get_field_lt header field hf t ht
  obtain ⟨re, hre, hspec⟩ := header_end_field_total (header.drop t)
  cases re with
  | none =>
    refine ⟨header.take t, by rw [List.length_take]; omega, ?_⟩
    intro fuel
    simp only [header_strip_field_loop, ht, hre]
  | some e =>
    obtain ⟨h1, h2⟩ := hspec e rfl
    rw [List.length_drop] at h2
    refine ⟨header.take t ++ header.drop (if t = 0 then t + e + 1 else t + e), ?_, ?_⟩
    · rw [List.length_append, List.length_take, List.length_drop]
      split <;> omega
    · intro fuel
      simp only [header_strip_field_loop, ht, hre]

theorem header_strip_field_loop_spec (field : List Nat) (hf : 2 ≤ field.length) :
    ∀ (fuel : Nat) (header : List Nat), header.length < fuel →
    ∃ r, header_strip_field_loop field fuel header = some r ∧
      r.length ≤ header.length ∧ header_get_field r field = none ∧
      (header_get_field header field = none → r = header) := by
  intro fuel
  induction fuel with
  | zero => intro header h; omega
  | succ f ih =>
    intro header hlen
    cases ht : header_get_field header field with
    | none =>
      exact ⟨header, by simp only [header_strip_field_loop, ht], le_refl _, ht, fun _ => rfl⟩
    | some t =>
      obtain ⟨shorter, hs, hround⟩ := header_strip_field_round field hf header t ht
      obtain ⟨r, hr, h1, h2, _⟩ := ih shorter (by omega)
      refine ⟨r, by rw [hround f, hr], by omega, h2, ?_⟩
      intro h
      exact absurd h (by simp)

theorem header_strip_field_total (field : List Nat) (hf : 2 ≤ field.length)
    (header : List Nat) :
    ∃ r, header_strip_field header field = some r ∧ r.length ≤ header.length :=
  let ⟨r, hr, h1, _⟩ := header_strip_field_loop_spec field hf (header.length + 1) header
    (Nat.lt_succ_self _)
  ⟨r, hr, h1⟩

/-- Claim C38: for every header block and every pattern that is LF, a name and a colon,
`header_strip_field` returns; every round of its loop leaves a strictly shorter block; the
block it leaves is not longer than the block it was given, `header_get_field` finds nothing
in it, and it is the block it was given when `header_get_field` finds nothing there. -/
theorem header_strip_field_terminates (header name : List Nat) :
    (∃ r, header_strip_field header (10 :: name ++ [58]) = some r ∧
      r.length ≤ header.length ∧ header_get_field r (10 :: name ++ [58]) = none ∧
      (header_get_field header (10 :: name ++ [58]) = none → r = header)) ∧
    (∀ (block : List Nat) (t : Nat),
      header_get_field block (10 :: name ++ [58]) = some t →
      ∃ shorter : List Nat, shorter.length < block.length ∧
        ∀ fuel, header_strip_field_loop (10 :: name ++ [58]) (fuel + 1) block
          = header_strip_field_loop (10 :: name ++ [58]) fuel shorter) :=
  ⟨header_strip_field_loop_spec (10 :: name ++ [58]) (by simp) (header.length + 1) header
      (Nat.lt_succ_self _),
    fun block t ht => header_strip_field_round (10 :: name ++ [58]) (by simp) block t ht⟩
theorem bodyLines_no_LF : ∀ l : List Nat, 10 ∉ l → bodyLines l = [l] := by
  intro l
  induction l with
  | nil => intro _; rfl
  | cons c l ih =>
    intro h
    have hc : c ≠ 10 := fun e => h (by simp [e])
    have hl : 10 ∉ l := fun e => h (by simp [e])
    rw [bodyLines, if_neg hc, ih hl]

theorem properLines_bodyLines : ∀ body : List Nat, ProperLines (bodyLines body) := by
  intro body
  induction body with
  | nil => simp [bodyLines, ProperLines]
  | cons c t ih =>
    by_cases hc : c = 10
    · rw [bodyLines, if_pos hc]
      cases hb : bodyLines t with
      | nil => rw [hb] at ih; exact absurd ih (by simp [ProperLines])
      | cons l ls =>
        rw [hb] at ih
        exact ⟨⟨[], rfl, by simp⟩, ih⟩
    · rw [bodyLines, if_neg hc]
      cases hb : bodyLines t with
      | nil => rw [hb] at ih; exact absurd ih (by simp [ProperLines])
      | cons l ls =>
        rw [hb] at ih
        cases ls with
        | nil =>
          simp only [ProperLines] at ih ⊢
          intro h
          rcases List.mem_cons.mp h with h | h
          · exact hc h.symm
          · exact ih h
        | cons l2 ls =>
          obtain ⟨⟨l0, h1, h2⟩, h3⟩ := ih
          refine ⟨⟨c :: l0, by rw [h1]; rfl, ?_⟩, h3⟩
          intro h
          rcases List.mem_cons.mp h with h | h
          · exact hc h.symm
          · exact h2 h

theorem bodyLines_flatten_proper : ∀ ls : List (List Nat), ProperLines ls →
    bodyLines ls.flatten = ls := by
  intro ls
  induction ls with
  | nil => intro h; exact absurd h (by simp [ProperLines])
  | cons l ls ih =>
    intro h
    cases ls with
    | nil =>
      simp only [ProperLines] at h
      simp only [List.flatten_cons, List.flatten_nil, List.append_nil]
      exact bodyLines_no_LF l h
    | cons l2 ls =>
      obtain ⟨⟨l0, h1, h2⟩, h3⟩ := h
      rw [List.flatten_cons, h1, List.append_assoc, List.singleton_append,
        bodyLines_line l0 _ h2, ih h3]

theorem skip_gt_cons_gt (l : List Nat) : skip_gt (62 :: l) = skip_gt l := by
  simp [skip_gt]

theorem unquote_from_quote_line (l : List Nat) : unquote_from (quote_line l) = l := by
  unfold unquote_from quote_line
  by_cases h : strncmp_eq (skip_gt l) (str "From ") 5 = true
  · rw [if_pos h, skip_gt_cons_gt, if_pos ⟨rfl, h⟩]
    rfl
  · rw [if_neg h, if_neg (fun hh => h hh.2)]

theorem quote_line_proper : ∀ ls : List (List Nat), ProperLines ls →
    ProperLines (ls.map quote_line) := by
  have hq : ∀ l : List Nat, 10 ∉ l → 10 ∉ quote_line l := by
    intro l hl
    unfold quote_line
    split
    · intro h
      rcases List.mem_cons.mp h with h | h
      · exact absurd h (by decide)
      · exact hl h
    · exact hl
  intro ls
  induction ls with
  | nil => intro h; exact h
  | cons l ls ih =>
    intro h
    cases ls with
    | nil => exact hq l h
    | cons l2 ls =>
      obtain ⟨⟨l0, h1, h2⟩, h3⟩ := h
      refine ⟨?_, ih h3⟩
      subst h1
      unfold quote_line
      split
      · exact ⟨62 :: l0, rfl, by
          intro h
          rcases List.mem_cons.mp h with h | h
          · exact absurd h (by decide)
          · exact h2 h⟩
      · exact ⟨l0, rfl, h2⟩

theorem write_email_body_lines (mode : Nat) (body : List Nat) (hm : mode ≠ MODE_SEPARATE) :
    write_email_body mode body = some ((bodyLines body).map quote_line).flatten := by
  obtain ⟨rest, out', hr, ho⟩ :=
    write_email_body_loop_spec (body.length + 1) body [] (Nat.lt_succ_self _)
  simp only [write_email_body, hm, ne_eq, not_false_eq_true, if_true, hr]
  simpa using ho

/-- Claim C39: outside `separate` mode `write_email_body` returns, and when one leading `>`
is removed from each line of its output that begins with one or more `>` followed by
`From `, the lines are those of the body and their text is the body; the output has as many
lines as the body. -/
theorem write_email_body_reversible (mode : Nat) (body : List Nat)
    (hm : mode ≠ MODE_SEPARATE) :
    ∃ out, write_email_body mode body = some out ∧
      (bodyLines out).map unquote_from = bodyLines body ∧
      ((bodyLines out).map unquote_from).flatten = body ∧
      (bodyLines out).length = (bodyLines body).length := by
  refine ⟨_, write_email_body_lines mode body hm, ?_⟩
  have hb : bodyLines ((bodyLines body).map quote_line).flatten
      = (bodyLines body).map quote_line :=
    bodyLines_flatten_proper _ (quote_line_proper _ (properLines_bodyLines body))
  have hu : ((bodyLines body).map quote_line).map unquote_from = bodyLines body := by
    rw [List.map_map]
    have : unquote_from ∘ quote_line = id := funext unquote_from_quote_line
    rw [this, List.map_id]
  rw [hb]
  exact ⟨hu, by rw [hu, bodyLines_join], by simp⟩

theorem write_email_body_reversible_witness :
    write_email_body MODE_NORMAL (str "a\nFrom b\n>From c\n>x") =
      some (str "a\n>From b\n>>From c\n>x") ∧
    (bodyLines (str "a\n>From b\n>>From c\n>x")).map unquote_from
      = bodyLines (str "a\nFrom b\n>From c\n>x") := by
  obtain ⟨out, h1, h2, _⟩ := write_email_body_reversible MODE_NORMAL
    (str "a\nFrom b\n>From c\n>x") (by decide)
  have h3 : write_email_body MODE_NORMAL (str "a\nFrom b\n>From c\n>x") =
      some (str "a\n>From b\n>>From c\n>x") := by decide
  rw [h3] at h1
  simp only [Option.some.injEq] at h1
  subst h1
  exact ⟨h3, h2⟩

theorem separate_name_some (c : Nat) (ext : List Nat) (hc : c ≤ 999999999) :
    ∃ name, separate_name c ext = some name := by
  unfold separate_name mk_separate_file
  rw [if_neg (by omega), check_filename_buf_eq]
  exact ⟨_, rfl⟩

theorem kind_bits_of (it : pst_item) :
    kind_bits it =
      if (it.contact && decide (it.type = pst_type.contact)) = true then [8]
      else if (it.email && (decide (it.type = pst_type.note)
          || decide (it.type = pst_type.schedule) || decide (it.type = pst_type.report)))
          = true then [1]
      else if (it.journal && decide (it.type = pst_type.journal)) = true then [4]
      else if (it.appointment && decide (it.type = pst_type.appointment)) = true then [2]
      else [] := by
  obtain ⟨folder, file_as, contact, email, journal, appointment, message_store, type⟩ := it
  cases contact <;> cases email <;> cases journal <;> cases appointment <;> cases type <;>
    simp [kind_bits]

theorem process_item_counts (s : settings) (ff : file_ll) (d : pst_desc_tree)
    (hc : ff.item_count + 1 ≤ 999999999) :
    ∃ r, process_item s ff d = some r ∧
      r.1 = (if counts_as_skipped s d = true then ⟨ff.item_count, ff.skip_count + 1⟩
        else ⟨ff.item_count + 1, ff.skip_count⟩) := by
  obtain ⟨desc, item, child, forked⟩ := d
  have hallp : ∀ (enabled : Nat) (a b : file_ll), s.output_type_mode &&& enabled = 0 →
      a = (if ([enabled].all (fun bit => decide (s.output_type_mode &&& bit = 0))) = true
        then a else b) := by
    intro enabled a b h
    simp [h]
  have halln : ∀ (enabled : Nat) (a b : file_ll), ¬ s.output_type_mode &&& enabled = 0 →
      b = (if ([enabled].all (fun bit => decide (s.output_type_mode &&& bit = 0))) = true
        then a else b) := by
    intro enabled a b h
    simp [h]
  have hsingle : ∀ (enabled : Nat) (ext : List Nat),
      ∃ r, (if s.output_type_mode &&& enabled = 0 then
          some ((⟨ff.item_count, ff.skip_count + 1⟩ : file_ll), ([] : List Act))
        else if s.mode = MODE_SEPARATE then
          match separate_name (ff.item_count + 1) (if s.mode_EX = true then ext else []) with
          | some name => some (⟨ff.item_count + 1, ff.skip_count⟩, [Act.file name false])
          | none => none
        else some (⟨ff.item_count + 1, ff.skip_count⟩, [Act.write])) = some r ∧
        r.1 = (if ([enabled].all (fun bit => decide (s.output_type_mode &&& bit = 0))) = true
          then ⟨ff.item_count, ff.skip_count + 1⟩ else ⟨ff.item_count + 1, ff.skip_count⟩) := by
    intro enabled ext
    obtain ⟨n, hn⟩ := separate_name_some (ff.item_count + 1)
      (if s.mode_EX = true then ext else []) hc
    by_cases hmask : s.output_type_mode &&& enabled = 0
    · exact ⟨_, by rw [if_pos hmask], by simp [hmask]⟩
    · by_cases hm : s.mode = MODE_SEPARATE
      · exact ⟨_, by rw [if_neg hmask, if_pos hm, hn], by simp [hmask]⟩
      · exact ⟨_, by rw [if_neg hmask, if_neg hm], by simp [hmask]⟩
  cases desc with
  | false => exact ⟨_, rfl, rfl⟩
  | true =>
    cases item with
    | none => exact ⟨_, rfl, rfl⟩
    | some it =>
      have hrest : ∃ r,
          (if (it.contact && decide (it.type = pst_type.contact)) = true then
            (if s.output_type_mode &&& 8 = 0 then
              some ((⟨ff.item_count, ff.skip_count + 1⟩ : file_ll), ([] : List Act))
            else if s.mode = MODE_SEPARATE then
              match separate_name (ff.item_count + 1)
                (if s.mode_EX = true then str ".vcf" else []) with
              | some name => some (⟨ff.item_count + 1, ff.skip_count⟩, [Act.file name false])
              | none => none
            else some (⟨ff.item_count + 1, ff.skip_count⟩, [Act.write]))
          else if (it.email && (decide (it.type = pst_type.note)
              || decide (it.type = pst_type.schedule) || decide (it.type = pst_type.report)))
              = true then
            if s.output_type_mode &&& 1 = 0 then
              some ((⟨ff.item_count, ff.skip_count + 1⟩ : file_ll), ([] : List Act))
            else if s.mode = MODE_SEPARATE then
              match separate_name (ff.item_count + 1)
                (if s.mode_EX = true then str ".eml" else []) with
              | some name =>
                if s.mode_MSG = true then
                  match separate_name (ff.item_count + 1) (str ".msg") with
                  | some msg => some (⟨ff.item_count + 1, ff.skip_count⟩,
                      [Act.file name forked, Act.file msg forked])
                  | none => if forked = true then
                      some (⟨ff.item_count + 1, ff.skip_count⟩, [Act.file name true]) else none
                else some (⟨ff.item_count + 1, ff.skip_count⟩, [Act.file name forked])
              | none => if forked = true then some (⟨ff.item_count + 1, ff.skip_count⟩, [])
                  else none
            else some (⟨ff.item_count + 1, ff.skip_count⟩, [Act.write])
          else if (it.journal && decide (it.type = pst_type.journal)) = true then
            (if s.output_type_mode &&& 4 = 0 then
              some ((⟨ff.item_count, ff.skip_count + 1⟩ : file_ll), ([] : List Act))
            else if s.mode = MODE_SEPARATE then
              match separate_name (ff.item_count + 1)
                (if s.mode_EX = true then str ".ics" else []) with
              | some name => some (⟨ff.item_count + 1, ff.skip_count⟩, [Act.file name false])
              | none => none
            else some (⟨ff.item_count + 1, ff.skip_count⟩, [Act.write]))
          else if (it.appointment && decide (it.type = pst_type.appointment)) = true then
            (if s.output_type_mode &&& 2 = 0 then
              some ((⟨ff.item_count, ff.skip_count + 1⟩ : file_ll), ([] : List Act))
            else if s.mode = MODE_SEPARATE then
              match separate_name (ff.item_count + 1)
                (if s.mode_EX = true then str ".ics" else []) with
              | some name => some (⟨ff.item_count + 1, ff.skip_count⟩, [Act.file name false])
              | none => none
            else some (⟨ff.item_count + 1, ff.skip_count⟩, [Act.write]))
          else if it.message_store = true then
            some ((⟨ff.item_count, ff.skip_count + 1⟩ : file_ll), ([] : List Act))
          else some ((⟨ff.item_count, ff.skip_count + 1⟩ : file_ll), ([] : List Act)))
            = some r ∧
          r.1 = (if ((kind_bits it).all (fun bit => decide (s.output_type_mode &&& bit = 0)))
            = true then ⟨ff.item_count, ff.skip_count + 1⟩
            else ⟨ff.item_count + 1, ff.skip_count⟩) := by
        rw [kind_bits_of]
        by_cases c1 : (it.contact && decide (it.type = pst_type.contact)) = true
        · rw [if_pos c1, if_pos c1]
          exact hsingle 8 (str ".vcf")
        · rw [if_neg c1, if_neg c1]
          by_cases c2 : (it.email && (decide (it.type = pst_type.note)
              || decide (it.type = pst_type.schedule) || decide (it.type = pst_type.report)))
              = true
          · rw [if_pos c2, if_pos c2]
            obtain ⟨n, hn⟩ := separate_name_some (ff.item_count + 1)
              (if s.mode_EX = true then str ".eml" else []) hc
            obtain ⟨n4, hn4⟩ := separate_name_some (ff.item_count + 1) (str ".msg") hc
            by_cases hmask : s.output_type_mode &&& 1 = 0
            · exact ⟨_, by rw [if_pos hmask], hallp 1 _ _ hmask⟩
            · by_cases hm : s.mode = MODE_SEPARATE
              · rw [if_neg hmask, if_pos hm, hn]
                cases s.mode_MSG with
                | false => exact ⟨_, rfl, halln 1 _ _ hmask⟩
                | true =>
                  simp only [if_true, hn4]
                  exact ⟨_, rfl, halln 1 _ _ hmask⟩
              · exact ⟨_, by rw [if_neg hmask, if_neg hm], halln 1 _ _ hmask⟩
          · rw [if_neg c2, if_neg c2]
            by_cases c3 : (it.journal && decide (it.type = pst_type.journal)) = true
            · rw [if_pos c3, if_pos c3]
              exact hsingle 4 (str ".ics")
            · rw [if_neg c3, if_neg c3]
              by_cases c4 : (it.appointment && decide (it.type = pst_type.appointment)) = true
              · rw [if_pos c4, if_pos c4]
                exact hsingle 2 (str ".ics")
              · rw [if_neg c4, if_neg c4]
                exact ⟨_, by split <;> rfl, by simp⟩
      obtain ⟨r, hr, hr2⟩ := hrest
      obtain ⟨folder, file_as, contact, email, journal, appointment, message_store, type⟩ := it
      cases folder with
      | false =>
        refine ⟨r, ?_, ?_⟩
        · rw [← hr]; rfl
        · rw [hr2]; rfl
      | true =>
        cases file_as with
        | none =>
          refine ⟨r, ?_, ?_⟩
          · rw [← hr]; rfl
          · rw [hr2]; rfl
        | some name =>
          simp only [process_item, counts_as_skipped, Bool.not_true, Bool.false_eq_true,
            if_false, Option.isSome_some, Bool.and_self, Bool.false_and]
          split
          · exact ⟨_, rfl, rfl⟩
          · exact ⟨_, rfl, rfl⟩

theorem process_loop_counts (s : settings) : ∀ (chain : List pst_desc_tree) (ff : file_ll),
    ff.item_count + chain.length ≤ 999999999 →
    ∃ r, process_loop s ff chain = some r ∧
      r.1.skip_count = ff.skip_count + chain.countP (counts_as_skipped s) ∧
      r.1.item_count = ff.item_count + chain.countP (fun d => !counts_as_skipped s d) := by
  intro chain
  induction chain with
  | nil => intro ff _; exact ⟨(ff, []), rfl, by simp, by simp⟩
  | cons d rest ih =>
    intro ff hc
    simp only [List.length_cons] at hc
    obtain ⟨r1, hr1, hcount⟩ := process_item_counts s ff d (by omega)
    obtain ⟨ff1, acts⟩ := r1
    simp only at hcount
    by_cases hsk : counts_as_skipped s d = true
    · rw [if_pos hsk] at hcount
      subst hcount
      obtain ⟨r2, hr2, h1, h2⟩ := ih ⟨ff.item_count, ff.skip_count + 1⟩ (by simp only; omega)
      obtain ⟨ff2, acts2⟩ := r2
      refine ⟨(ff2, acts ++ acts2), by simp only [process_loop, hr1, hr2], ?_, ?_⟩
      · simp only at h1 ⊢
        rw [h1, List.countP_cons, if_pos hsk]
        omega
      · simp only at h2 ⊢
        rw [h2, List.countP_cons, if_neg (by simp [hsk])]
        omega
    · rw [if_neg hsk] at hcount
      subst hcount
      obtain ⟨r2, hr2, h1, h2⟩ := ih ⟨ff.item_count + 1, ff.skip_count⟩ (by simp only; omega)
      obtain ⟨ff2, acts2⟩ := r2
      refine ⟨(ff2, acts ++ acts2), by simp only [process_loop, hr1, hr2], ?_, ?_⟩
      · simp only at h1 ⊢
        rw [h1, List.countP_cons, if_neg hsk]
        omega
      · simp only at h2 ⊢
        rw [h2, List.countP_cons, if_pos (by simp [hsk])]
        omega

/-- Claim C32: for a sibling chain of `n` descriptors (with fewer than 1000000000 of them, so
that no file name runs out), `process` walks the chain to its end; each descriptor raises
exactly one of `item_count` and `skip_count` by one, so at the end their sum is `n`; and
`skip_count` is the number of descriptors with no payload, or whose item does not parse, or
whose item is not a named folder and has no kind that the output-type mask enables (the kind
is disabled, or the item is a message store, of unknown kind, or lacks the content of its
kind). -/
theorem process_counts_every_descriptor (s : settings) (chain : List pst_desc_tree)
    (hn : chain.length ≤ 999999999) :
    (∃ r, process s chain = some r ∧
      r.1.item_count + r.1.skip_count = chain.length ∧
      r.1.skip_count = chain.countP (counts_as_skipped s) ∧
      r.1.item_count = chain.countP (fun d => !counts_as_skipped s d)) ∧
    (∀ (ff : file_ll) (d : pst_desc_tree), ff.item_count + 1 ≤ 999999999 →
      ∃ r, process_item s ff d = some r ∧
        ((counts_as_skipped s d = true ∧ r.1 = ⟨ff.item_count, ff.skip_count + 1⟩) ∨
          (counts_as_skipped s d = false ∧ r.1 = ⟨ff.item_count + 1, ff.skip_count⟩))) := by
  constructor
  · obtain ⟨r, hr, h1, h2⟩ := process_loop_counts s chain ⟨0, 0⟩ (by simp only; omega)
    refine ⟨r, hr, ?_, by simpa using h1, by simpa using h2⟩
    rw [h1, h2]
    simp only [Nat.zero_add]
    have := List.length_eq_countP_add_countP (counts_as_skipped s) chain
    simp only [Bool.not_eq_true] at this
    have e : List.countP (fun d => !counts_as_skipped s d) chain
        = List.countP (fun a => decide (counts_as_skipped s a = false)) chain := by
      congr 1
      funext d
      cases counts_as_skipped s d <;> rfl
    rw [e]
    omega
  · intro ff d hc
    obtain ⟨r, hr, hcount⟩ := process_item_counts s ff d hc
    refine ⟨r, hr, ?_⟩
    by_cases hsk : counts_as_skipped s d = true
    · rw [if_pos hsk] at hcount
      exact Or.inl ⟨hsk, hcount⟩
    · rw [if_neg hsk] at hcount
      exact Or.inr ⟨by simpa using hsk, hcount⟩

theorem process_counts_every_descriptor_witness :
    process ⟨MODE_NORMAL, false, false, 255, false⟩
      [mail_desc, ⟨false, none, false, false⟩, ⟨true, none, false, false⟩,
        ⟨true, some ⟨false, none, false, false, false, false, true, pst_type.other⟩,
          false, false⟩]
      = some (⟨1, 3⟩, [Act.write]) ∧
    ∃ r, process ⟨MODE_NORMAL, false, false, 255, false⟩
      [mail_desc, ⟨false, none, false, false⟩, ⟨true, none, false, false⟩,
        ⟨true, some ⟨false, none, false, false, false, false, true, pst_type.other⟩,
          false, false⟩] = some r ∧ r.1.item_count + r.1.skip_count = 4 := by
  refine ⟨by decide, ?_⟩
  obtain ⟨r, hr, h, _⟩ := (process_counts_every_descriptor
    ⟨MODE_NORMAL, false, false, 255, false⟩
    [mail_desc, ⟨false, none, false, false⟩, ⟨true, none, false, false⟩,
      ⟨true, some ⟨false, none, false, false, false, false, true, pst_type.other⟩,
        false, false⟩] (by decide)).1
  exact ⟨r, hr, h⟩

/-- Claim C33: a first sub-block whose `Content-Type` value is `message`, a proper prefix of
`message/rfc822`, or is empty, is taken as the `message/rfc822` one (`strncasecmp` compares
only as many bytes as the value has): the scan stops behind it and does not reach the later
sub-block that does have `message/rfc822`.  A first sub-block with `text/plain` is skipped,
and the scan goes on to the one with `message/rfc822`. -/
theorem find_rfc822_headers_takes_shorter_value :
    find_rfc822_headers (some (str
        "Content-Type: message\n\nA: 1\n\nContent-Type: message/rfc822\n\nB: 2\n"))
      = some (some (str "A: 1\n\nContent-Type: message/rfc822\n\nB: 2\n")) ∧
    find_rfc822_headers (some (str
        "Content-Type: \n\nA: 1\n\nContent-Type: message/rfc822\n\nB: 2\n"))
      = some (some (str "A: 1\n\nContent-Type: message/rfc822\n\nB: 2\n")) ∧
    find_rfc822_headers (some (str
        "Content-Type: text/plain\n\nA: 1\n\nContent-Type: message/rfc822\n\nB: 2\n"))
      = some (some (str "B: 2\n")) ∧
    find_rfc822_headers_test (str "Content-Type: message\n") = true ∧
    find_rfc822_headers_test (str "Content-Type: \n") = true := by
  decide

/-- Claim C34, counterexample: with no sender address in the item and the header line
`From: a> <x@y>`, whose first `>` comes before its first `<`, the separator line has the
sender `MAILER-DAEMON`, not the address `x@y` in angle brackets on that line. -/
theorem write_normal_email_sender_misses_address :
    write_normal_email_sender none
        (write_normal_email_headers (some (str "From: a> <x@y>\nTo: z\n")) none)
      = str "MAILER-DAEMON" ∧
    write_normal_email_head (fun s _ => s) (fun _ => none) (fun _ => []) MODE_NORMAL false
        ⟨some (str "From: a> <x@y>\nTo: z\n"), none, none, none, none, none, none, none,
          false⟩ none
      = some [str "From \"MAILER-DAEMON\" Thu Jan 1 00:00:00 1970\n",
          str "From: a> <x@y>\nTo: z\n", str "Subject: \n"] := by
  decide

/-- Claim C35: for the header block `To: x`, `From`, `From: a@b`, `Subject: s` the flag
`has_from` stays 0 although the block has the field `From: a@b` (the search of `my_stristr`
restarts one byte too late after the partial match on the line `From`, the defect of claim
C11), so `write_normal_email` writes the block with its `From: a@b` and then also creates
`From: <MAILER-DAEMON>`. -/
theorem write_normal_email_creates_second_from :
    write_normal_email_head (fun s _ => s) (fun _ => none) (fun _ => []) MODE_NORMAL false
        ⟨some (str "To: x\nFrom\nFrom: a@b\nSubject: s\n"), none, none, none, none, none,
          none, none, false⟩ none
      = some [str "From \"MAILER-DAEMON\" Thu Jan 1 00:00:00 1970\n",
          str "To: x\nFrom\nFrom: a@b\nSubject: s\n", str "From: <MAILER-DAEMON>\n"] ∧
    write_normal_email_headers (some (str "To: x\nFrom\nFrom: a@b\nSubject: s\n")) none
      = some (str "To: x\nFrom\nFrom: a@b\nSubject: s\n") ∧
    header_has_field (str "To: x\nFrom\nFrom: a@b\nSubject: s\n") (str "\nFrom:") 0 = 0 ∧
    str "To: x\nFrom\nFrom: a@b\nSubject: s\n"
      = str "To: x\nFrom" ++ str "\nFrom:" ++ str " a@b\nSubject: s\n" := by
  decide

theorem write_inline_attachment_eq (a : attach_info) (mimetype content_id : Option (List Nat))
    (boundary base64 : List Nat) (h : (!a.has_data && !a.id_found) = false) :
    write_inline_attachment a mimetype content_id boundary base64 =
      [str "\n--" ++ boundary ++ str "\n",
        str "Content-Type: " ++ mimetype.getD (str "application/octet-stream") ++ str "\n",
        str "Content-Transfer-Encoding: base64\n"] ++
      (content_id.map (fun c => str "Content-ID: <" ++ c ++ str ">\n")).toList ++
      (match a.names.filename2, a.names.filename1 with
        | some f2, _ =>
          [str "Content-Disposition: attachment; \n        filename*=" ++ rfc2231_string f2
              ++ str ";\n",
            str "        filename=\"" ++ quote_string f2 ++ str "\"\n\n"]
        | none, some f1 =>
          [str "Content-Disposition: attachment; filename=\"" ++ f1 ++ str "\"\n\n"]
        | none, none => [str "Content-Disposition: inline\n\n"]) ++
      [base64, str "\n\n"] := by
  unfold write_inline_attachment
  rw [h]
  cases mimetype <;> cases content_id <;> rfl

/-- Claim C36: for an attachment whose data is there (in memory, or found by its id)
`write_inline_attachment` writes the part delimiter, `Content-Type:` with the MIME type of
the attachment or `application/octet-stream` when it has none,
`Content-Transfer-Encoding: base64`, a `Content-ID: <cid>` line exactly when there is a
content id, one `Content-Disposition`, then the data and an empty line.  The disposition is
`attachment` with `filename*=` of `rfc2231_string` and `filename=` of `quote_string` of the
long name when there is a long name, else `attachment; filename=` of the short name when
there is one, else `inline`. -/
theorem write_inline_attachment_part (a : attach_info)
    (mimetype content_id : Option (List Nat)) (boundary base64 : List Nat)
    (h : a.has_data = true ∨ a.id_found = true) :
    ∃ cid disposition : List (List Nat),
      write_inline_attachment a mimetype content_id boundary base64 =
        [str "\n--" ++ boundary ++ str "\n",
          str "Content-Type: " ++ mimetype.getD (str "application/octet-stream") ++ str "\n",
          str "Content-Transfer-Encoding: base64\n"] ++ cid ++ disposition ++
        [base64, str "\n\n"] ∧
      (∀ c, content_id = some c → cid = [str "Content-ID: <" ++ c ++ str ">\n"]) ∧
      (content_id = none → cid = []) ∧
      (∀ f2, a.names.filename2 = some f2 → disposition =
        [str "Content-Disposition: attachment; \n        filename*=" ++ rfc2231_string f2 ++
            str ";\n",
          str "        filename=\"" ++ quote_string f2 ++ str "\"\n\n"]) ∧
      (a.names.filename2 = none → ∀ f1, a.names.filename1 = some f1 → disposition =
        [str "Content-Disposition: attachment; filename=\"" ++ f1 ++ str "\"\n\n"]) ∧
      (a.names.filename2 = none → a.names.filename1 = none →
        disposition = [str "Content-Disposition: inline\n\n"]) ∧
      (disposition.filter
        (fun l => (str "Content-Disposition:").isPrefixOf l)).length = 1 := by
  have hd : (!a.has_data && !a.id_found) = false := by
    rcases h with h | h <;> simp [h]
  refine ⟨_, _, write_inline_attachment_eq a mimetype content_id boundary base64 hd,
    ?_, ?_, ?_, ?_, ?_, ?_⟩
  · intro c hc; rw [hc]; rfl
  · intro hc; rw [hc]; rfl
  · intro f2 h2; rw [h2]
  · intro h2 f1 h1; rw [h2, h1]
  · intro h2 h1; rw [h2, h1]
  · have hp : ∀ v : List Nat, (str "Content-Disposition:").isPrefixOf
        (str "Content-Disposition:" ++ v) = true := fun v =>
      List.isPrefixOf_iff_prefix.mpr (List.prefix_append _ v)
    have e1 : str "Content-Disposition: attachment; \n        filename*="
        = str "Content-Disposition:" ++ str " attachment; \n        filename*=" := by decide
    have e2 : str "Content-Disposition: attachment; filename=\""
        = str "Content-Disposition:" ++ str " attachment; filename=\"" := by decide
    have e3 : (str "Content-Disposition:").isPrefixOf (str "Content-Disposition: inline\n\n")
        = true := by decide
    have e4 : ∀ v : List Nat, (str "Content-Disposition:").isPrefixOf
        (str "        filename=\"" ++ v) = false := by
      intro v
      have : str "        filename=\"" = 32 :: (str "        filename=\"").tail := by decide
      rw [this]
      have : str "Content-Disposition:" = 67 :: (str "Content-Disposition:").tail := by decide
      rw [this]
      simp [List.isPrefixOf]
    cases a.names.filename2 with
    | some f2 =>
      simp only [List.filter_cons, List.filter_nil]
      rw [e1, List.append_assoc, List.append_assoc, hp, List.append_assoc, e4]
      rfl
    | none =>
      cases a.names.filename1 with
      | some f1 =>
        simp only [List.filter_cons, List.filter_nil]
        rw [e2, List.append_assoc, List.append_assoc, hp]
        rfl
      | none =>
        simp only [List.filter_cons, List.filter_nil, e3]
        rfl

theorem write_inline_attachment_part_witness :
    (write_inline_attachment ⟨false, true, 0, false, ⟨some (str "A.TXT"), none⟩, false⟩
        none (some (str "c1")) (str "B") (str "QUJD")).flatten
      = str ("\n--B\nContent-Type: application/octet-stream\n" ++
          "Content-Transfer-Encoding: base64\nContent-ID: <c1>\n" ++
          "Content-Disposition: attachment; filename=\"A.TXT\"\n\nQUJD\n\n") := by
  obtain ⟨cid, disp, h, h1, _, _, h3, _, _⟩ := write_inline_attachment_part
    ⟨false, true, 0, false, ⟨some (str "A.TXT"), none⟩, false⟩ none (some (str "c1"))
    (str "B") (str "QUJD") (Or.inl rfl)
  rw [h, h1 _ rfl, h3 rfl _ rfl]
  decide
theorem strchr_isSome_iff (s : List Nat) (c : Nat) : (strchr s c).isSome = true ↔ c ∈ s := by
  constructor
  · intro h
    obtain ⟨i, hi⟩ := Option.isSome_iff_exists.mp h
    obtain ⟨h1, h2, _⟩ := strchr_some_spec s c i hi
    rw [List.getD_eq_getElem?_getD, List.getElem?_eq_getElem h1] at h2
    simp only [Option.getD_some] at h2
    rw [← h2]
    exact List.getElem_mem h1
  · intro h
    cases hs : strchr s c with
    | some i => rfl
    | none =>
      exfalso
      obtain ⟨i, hi, hget⟩ := List.getElem_of_mem h
      have := strchr_none_spec s c hs i hi
      rw [List.getD_eq_getElem?_getD, List.getElem?_eq_getElem hi] at this
      exact this hget

theorem write_normal_email_strip_total (headers : List Nat) :
    ∃ r, write_normal_email_strip headers = some r := by
  unfold write_normal_email_strip
  obtain ⟨r1, h1, _⟩ := header_strip_field_total (str "\nMicrosoft Mail Internet Headers")
    (by decide) headers
  obtain ⟨r2, h2, _⟩ := header_strip_field_total (str "\nMIME-Version:") (by decide) r1
  obtain ⟨r3, h3, _⟩ := header_strip_field_total (str "\nContent-Type:") (by decide) r2
  obtain ⟨r4, h4, _⟩ := header_strip_field_total (str "\nContent-Transfer-Encoding:")
    (by decide) r3
  obtain ⟨r5, h5, _⟩ := header_strip_field_total (str "\nContent-class:") (by decide) r4
  obtain ⟨r6, h6, _⟩ := header_strip_field_total (str "\nX-MimeOLE:") (by decide) r5
  obtain ⟨r7, h7, _⟩ := header_strip_field_total (str "\nX-From_:") (by decide) r6
  exact ⟨r7, by simp only [Option.some_bind, h1, h2, h3, h4, h5, h6, h7]⟩

theorem write_normal_email_sender_known (a : List Nat) (headers : Option (List Nat))
    (ha : 64 ∈ a) : write_normal_email_sender (some a) headers = a.take 59 := by
  have h := (strchr_isSome_iff a 64).mpr ha
  unfold write_normal_email_sender
  simp only [h, if_true, Option.getD_some, Bool.not_true, Bool.false_eq_true, if_false]
  cases headers <;> rfl

theorem write_normal_email_sender_unknown (sender_address : Option (List Nat))
    (headers : Option (List Nat)) (ha : ∀ a, sender_address = some a → 64 ∉ a) :
    write_normal_email_sender sender_address headers =
      match headers with
      | none => str "MAILER-DAEMON"
      | some h =>
        match header_get_field h (str "\nFrom:") with
        | none => str "MAILER-DAEMON"
        | some t0 =>
          match strchr_from h (t0 + 1) 10, strchr_from h (t0 + 1) 60,
              strchr_from h (t0 + 1) 62 with
          | some n, some s, some e =>
            if s < e ∧ e < n then ((h.drop (s + 1)).take (e - (s + 1))).take 59
            else str "MAILER-DAEMON"
          | _, _, _ => str "MAILER-DAEMON" := by
  have hm : (str "MAILER-DAEMON").take 59 = str "MAILER-DAEMON" := by decide
  unfold write_normal_email_sender
  cases sender_address with
  | none =>
    simp only [Bool.false_eq_true, if_false, hm, Bool.not_false, if_true]
  | some a =>
    have hs : (strchr a 64).isSome = false := by
      cases hs : (strchr a 64).isSome with
      | false => rfl
      | true => exact absurd ((strchr_isSome_iff a 64).mp hs) (ha a rfl)
    simp only [hs, Bool.false_eq_true, if_false, hm, Bool.not_false, if_true]

theorem write_normal_email_head_eq (rfc2047 : List Nat → Bool → List Nat)
    (ctime : Nat → Option (List Nat)) (strftime : Nat → List Nat) (embedding : Bool)
    (item : email_item) (extra_mime_headers : Option (List Nat)) :
    ∃ body, ∀ mode,
      write_normal_email_head rfc2047 ctime strftime mode embedding item extra_mime_headers
        = some (write_normal_email_separator mode embedding
            (write_normal_email_sender item.sender_address
              (write_normal_email_headers item.header extra_mime_headers))
            (write_normal_email_ctime ctime item.sent_date) ++ body) := by
  cases hh : write_normal_email_headers item.header extra_mime_headers with
  | none =>
    refine ⟨write_normal_email_fields rfc2047 strftime item none none
      (write_normal_email_sender item.sender_address none), fun mode => ?_⟩
    simp only [write_normal_email_head, hh]
  | some h =>
    obtain ⟨r, hr⟩ := write_normal_email_strip_total h
    refine ⟨write_normal_email_fields rfc2047 strftime item (some h) (some r)
      (write_normal_email_sender item.sender_address (some h)), fun mode => ?_⟩
    simp only [write_normal_email_head, hh, hr, Option.map_some']

/-- Claim C34, as the code has it: `write_normal_email` returns; outside separate mode its
first output is the separator line `From "<sender>" <time>`, with `>` in front exactly when
the message is being embedded, and in separate mode the output is the same without this
line.  The sender is the sender address of the item cut to 59 bytes when that holds `@`.
Otherwise, when `header_get_field` finds a `From:` field in the selected header block and,
behind the first byte of the field, the first `<` comes before the first `>` and this before
the first LF, it is the text between the two, cut to 59 bytes; in every other case it is
`MAILER-DAEMON`. -/
theorem write_normal_email_separator_line (rfc2047 : List Nat → Bool → List Nat)
    (ctime : Nat → Option (List Nat)) (strftime : Nat → List Nat) (embedding : Bool)
    (item : email_item) (extra_mime_headers : Option (List Nat)) :
    (∃ rest, write_normal_email_head rfc2047 ctime strftime MODE_SEPARATE embedding item
        extra_mime_headers = some rest ∧
      ∀ mode, mode ≠ MODE_SEPARATE →
        write_normal_email_head rfc2047 ctime strftime mode embedding item extra_mime_headers
          = some (((if embedding then str ">" else []) ++ str "From \"" ++
              write_normal_email_sender item.sender_address
                (write_normal_email_headers item.header extra_mime_headers) ++
              str "\" " ++ write_normal_email_ctime ctime item.sent_date ++ str "\n") ::
            rest)) ∧
    (∀ a, item.sender_address = some a → 64 ∈ a →
      write_normal_email_sender item.sender_address
        (write_normal_email_headers item.header extra_mime_headers) = a.take 59) ∧
    ((∀ a, item.sender_address = some a → 64 ∉ a) →
      (∀ h t0 n s e,
        write_normal_email_headers item.header extra_mime_headers = some h →
        header_get_field h (str "\nFrom:") = some t0 →
        strchr_from h (t0 + 1) 10 = some n → strchr_from h (t0 + 1) 60 = some s →
        strchr_from h (t0 + 1) 62 = some e → s < e → e < n →
        write_normal_email_sender item.sender_address
          (write_normal_email_headers item.header extra_mime_headers)
          = ((h.drop (s + 1)).take (e - (s + 1))).take 59) ∧
      ((write_normal_email_headers item.header extra_mime_headers = none ∨
        (∃ h, write_normal_email_headers item.header extra_mime_headers = some h ∧
          (header_get_field h (str "\nFrom:") = none ∨
            ∃ t0, header_get_field h (str "\nFrom:") = some t0 ∧
              ¬ ∃ n s e, strchr_from h (t0 + 1) 10 = some n ∧
                strchr_from h (t0 + 1) 60 = some s ∧ strchr_from h (t0 + 1) 62 = some e ∧
                s < e ∧ e < n))) →
        write_normal_email_sender item.sender_address
          (write_normal_email_headers item.header extra_mime_headers)
          = str "MAILER-DAEMON")) := by
  refine ⟨?_, ?_, ?_⟩
  · obtain ⟨body, hbody⟩ := write_normal_email_head_eq rfc2047 ctime strftime embedding item
      extra_mime_headers
    refine ⟨body, ?_, ?_⟩
    · rw [hbody MODE_SEPARATE]
      rfl
    · intro mode hm
      rw [hbody mode, write_normal_email_separator, if_pos hm]
      rfl
  · intro a ha h64
    rw [ha]
    exact write_normal_email_sender_known a _ h64
  · intro hno
    rw [write_normal_email_sender_unknown _ _ hno]
    constructor
    · intro h t0 n s e hh ht hn hs he hse hen
      rw [hh]
      simp only [ht, hn, hs, he]
      rw [if_pos ⟨hse, hen⟩]
    · intro hcase
      rcases hcase with hnone | ⟨h, hh, hcase⟩
      · rw [hnone]
      · rw [hh]
        rcases hcase with hnf | ⟨t0, ht, hno2⟩
        · simp only [hnf]
        · simp only [ht]
          cases hn : strchr_from h (t0 + 1) 10 with
          | none => rfl
          | some n =>
            cases hs : strchr_from h (t0 + 1) 60 with
            | none => rfl
            | some s =>
              cases he : strchr_from h (t0 + 1) 62 with
              | none => rfl
              | some e =>
                simp only []
                rw [if_neg]
                intro hc
                exact hno2 ⟨n, s, e, hn, hs, he, hc.1, hc.2⟩

end Readpst
